import Mathlib

/-! # Pong Gou: queue rotation and match scoring

A shallow embedding of the tournament logic of `src/app.js` (the functions
`checkWinner`, `getNextPlayerId`, `addPlayer`, `removePlayer`,
`removeFromAllQueues`, `processForfeit`, `startSession`, `addPoint` and
`processRoundEnd`), followed by theorems about it.

The global `state` object becomes an explicit `State` value that every
operation takes and returns.  Persistence (`saveState`), rendering (`render`),
toasts and the winner overlay do not feed back into the five persisted records
and are left out.  The clock (`new Date().toISOString()`) is an argument
`fecha`, the answer of `confirm(...)` is an argument `ok`, and the string
functions `trim` and `toLowerCase` are arguments of `addPlayer`.
-/

namespace PongGou

/-! ## Data model -/

/-- A JavaScript value as it can sit in a `playerIds` array or in the queue:
`undefined`, a number, or an array of such values.  The source tells entries
apart at run time with `Array.isArray`. -/
inductive JVal where
  | undef
  | num (n : Nat)
  | arr (xs : List JVal)

/-- The test `Array.isArray(v)`. -/
def JVal.isArray : JVal → Bool
  | .arr _ => true
  | _ => false

/-- The test `v === n` for a number `n`. -/
def JVal.isNum (n : Nat) : JVal → Bool
  | .num m => m == n
  | _ => false

/-- The expression `Array.isArray(v) ? v : [v]`, as an array of values. -/
def JVal.asArray : JVal → List JVal
  | .arr xs => xs
  | v => [v]

/-- The strings `'solo'` and `'duo'`. -/
inductive Modo where
  | solo
  | duo
  deriving DecidableEq

/-- The side letters `'A'` and `'B'`. -/
inductive Lado where
  | A
  | B
  deriving DecidableEq

/-- The other side letter. -/
def Lado.other : Lado → Lado
  | .A => .B
  | .B => .A

/-- An element of `state.players`. -/
structure Player where
  id : Nat
  nombre : String
  victorias : Nat
  derrotas : Nat

/-- The object `{ playerIds, score }` of one table side. -/
structure Side where
  playerIds : List JVal
  score : Nat

/-- An element of `state.tables`.  The two flags are `undefined` (`none`)
until `addPoint` writes them. -/
structure Table where
  id : Nat
  modo : Modo
  ladoA : Side
  ladoB : Side
  turnoSaque : Option Bool
  blanqueoShown : Option Bool

/-- An element of `state.matches`. -/
structure Match where
  id : Nat
  tableId : Nat
  modo : Modo
  ladoAPlayerIds : List JVal
  ladoBPlayerIds : List JVal
  ganadorLado : Lado
  scoreFinalA : Nat
  scoreFinalB : Nat
  fecha : String

/-- The object `state.settings`. -/
structure Settings where
  modo : Modo
  sessionActive : Bool

/-- The global `state`.  The field `matches` of the source is `matchLog` here,
`matches` being a reserved word. -/
structure State where
  players : List Player
  tables : List Table
  queue : List JVal
  matchLog : List Match
  settings : Settings

/-- The side of a table named by a letter: `lado === 'A' ? table.ladoA : table.ladoB`. -/
def Table.side (t : Table) : Lado → Side
  | .A => t.ladoA
  | .B => t.ladoB

/-- Assignment `side.playerIds = ids` on the side named by a letter. -/
def Table.setPlayerIds (t : Table) (l : Lado) (ids : List JVal) : Table :=
  match l with
  | .A => { t with ladoA := { t.ladoA with playerIds := ids } }
  | .B => { t with ladoB := { t.ladoB with playerIds := ids } }

/-- The two assignments `table.ladoA.score = 0; table.ladoB.score = 0`. -/
def Table.resetScores (t : Table) : Table :=
  { t with ladoA := { t.ladoA with score := 0 }, ladoB := { t.ladoB with score := 0 } }

/-- The lookup `state.tables.find(t => t.id === tableId)`. -/
def findTable (tables : List Table) (tableId : Nat) : Option Table :=
  tables.find? (fun t => t.id == tableId)

/-- In-place mutation of the table object returned by `findTable`: the first
table of the list with that id is replaced, the others keep their place. -/
def replaceTable (tableId : Nat) (t' : Table) : List Table → List Table
  | [] => []
  | t :: ts => if t.id == tableId then t' :: ts else t :: replaceTable tableId t' ts

/-- The state after `initStateIfEmpty` on an empty store: no players, an empty
queue, no matches, two empty tables, mode solo, no session. -/
def initialState : State :=
  { players := []
    tables :=
      [ { id := 1, modo := .solo, ladoA := ⟨[], 0⟩, ladoB := ⟨[], 0⟩,
          turnoSaque := none, blanqueoShown := none },
        { id := 2, modo := .solo, ladoA := ⟨[], 0⟩, ladoB := ⟨[], 0⟩,
          turnoSaque := none, blanqueoShown := none } ]
    queue := []
    matchLog := []
    settings := { modo := .solo, sessionActive := false } }

/-! ## Scoring rule -/

/-- The function `checkWinner`: 0 = no winner, 1 = side A wins, 2 = side B wins.
The differences are taken in the integers, as the source's numbers allow
negative values. -/
def checkWinner (scoreA scoreB : Nat) : Nat :=
  if scoreA = 4 ∧ scoreB = 0 then 1
  else if scoreB = 4 ∧ scoreA = 0 then 2
  else if scoreA ≥ 6 ∧ scoreB ≥ 6 then
    if (scoreA : Int) - (scoreB : Int) ≥ 2 then 1
    else if (scoreB : Int) - (scoreA : Int) ≥ 2 then 2
    else 0
  else if scoreA ≥ 7 then 1
  else if scoreB ≥ 7 then 2
  else 0

/-! ## Statistics -/

/-- The body shared by the callbacks of the two `forEach` loops: the player
returned by `state.players.find(pl => pl.id === id)`, the first one with that
id, is mutated by `f`; nothing happens when there is none. -/
def bumpFirst (f : Player → Player) (players : List Player) (id : JVal) : List Player :=
  match players with
  | [] => []
  | p :: ps => if id.isNum p.id then f p :: ps else p :: bumpFirst f ps id

/-- One callback of `winnerPlayerIds.forEach`: `if (p) p.victorias++`. -/
def bumpVictorias (players : List Player) (id : JVal) : List Player :=
  bumpFirst (fun p => { p with victorias := p.victorias + 1 }) players id

/-- One callback of `loserPlayerIds.forEach`: `if (p) p.derrotas++`. -/
def bumpDerrotas (players : List Player) (id : JVal) : List Player :=
  bumpFirst (fun p => { p with derrotas := p.derrotas + 1 }) players id

/-- The two `forEach` loops that update the statistics. -/
def updateStats (players : List Player) (winnerPlayerIds loserPlayerIds : List JVal) :
    List Player :=
  loserPlayerIds.foldl bumpDerrotas (winnerPlayerIds.foldl bumpVictorias players)

/-! ## Round completion and forfeit -/

/-- The rotation block of `processRoundEnd`: from the table's mode, the queue
and the losers, the new occupants of the losing side and the new queue. -/
def rotate (modo : Modo) (queue loserPlayerIds : List JVal) : List JVal × List JVal :=
  match modo with
  | .solo =>
    match queue ++ loserPlayerIds with
    | nextId :: rest => ([nextId], rest)
    | [] => (loserPlayerIds, [])
  | .duo =>
    match queue ++ [JVal.arr loserPlayerIds] with
    | nextPair :: rest => (nextPair.asArray, rest)
    | [] => (loserPlayerIds, [])

/-- The rotation block of `processForfeit`: from the table's mode and the
queue, the new occupants of the vacated side and the new queue. -/
def refill (modo : Modo) (queue : List JVal) : List JVal × List JVal :=
  match modo with
  | .solo =>
    match queue with
    | nextId :: rest => ([nextId], rest)
    | [] => ([], [])
  | .duo =>
    match queue with
    | nextPair :: rest => (nextPair.asArray, rest)
    | [] => ([], [])

/-- The function `processRoundEnd(tableId, ganadorLado)`. -/
def processRoundEnd (fecha : String) (s : State) (tableId : Nat) (ganadorLado : Lado) : State :=
  match findTable s.tables tableId with
  | none => s
  | some table =>
    let winnerPlayerIds := (table.side ganadorLado).playerIds
    let loserPlayerIds := (table.side ganadorLado.other).playerIds
    let m : Match :=
      { id := s.matchLog.length + 1
        tableId := tableId
        modo := table.modo
        ladoAPlayerIds := table.ladoA.playerIds
        ladoBPlayerIds := table.ladoB.playerIds
        ganadorLado := ganadorLado
        scoreFinalA := table.ladoA.score
        scoreFinalB := table.ladoB.score
        fecha := fecha }
    let players := updateStats s.players winnerPlayerIds loserPlayerIds
    let rot := rotate table.modo s.queue loserPlayerIds
    let table' := (table.setPlayerIds ganadorLado.other rot.1).resetScores
    { players := players
      tables := replaceTable tableId table' s.tables
      queue := rot.2
      matchLog := s.matchLog ++ [m]
      settings := s.settings }

/-- The function `processForfeit(tableId, loserSideLetter, removedPlayerId)`.
The third argument is not read by the source. -/
def processForfeit (fecha : String) (s : State) (tableId : Nat) (loserSideLetter : Lado)
    (_removedPlayerId : Nat) : State :=
  match findTable s.tables tableId with
  | none => s
  | some table =>
    let loserPlayerIds := (table.side loserSideLetter).playerIds
    let winnerPlayerIds := (table.side loserSideLetter.other).playerIds
    let m : Match :=
      { id := s.matchLog.length + 1
        tableId := tableId
        modo := table.modo
        ladoAPlayerIds := table.ladoA.playerIds
        ladoBPlayerIds := table.ladoB.playerIds
        ganadorLado := loserSideLetter.other
        scoreFinalA := table.ladoA.score
        scoreFinalB := table.ladoB.score
        fecha := fecha }
    let players := updateStats s.players winnerPlayerIds loserPlayerIds
    let rot := refill table.modo s.queue
    let table' := (table.setPlayerIds loserSideLetter rot.1).resetScores
    { players := players
      tables := replaceTable tableId table' s.tables
      queue := rot.2
      matchLog := s.matchLog ++ [m]
      settings := s.settings }

/-! ## Player management -/

/-- The loop of `removeFromAllQueues`: the new queue and the flag `removed`. -/
def removeFromQueue (playerId : Nat) : List JVal → List JVal × Bool
  | [] => ([], false)
  | entry :: rest =>
    let r := removeFromQueue playerId rest
    match entry with
    | .arr xs =>
      let filtered := xs.filter (fun id => !id.isNum playerId)
      if filtered.length > 0 then (JVal.arr filtered :: r.1, r.2) else (r.1, true)
    | e => if e.isNum playerId then (r.1, true) else (e :: r.1, r.2)

/-- The function `removeFromAllQueues(playerId)`: the state with the new queue,
and the returned flag. -/
def removeFromAllQueues (s : State) (playerId : Nat) : State × Bool :=
  let r := removeFromQueue playerId s.queue
  ({ s with queue := r.1 }, r.2)

/-- The nested `for` loops of `removePlayer`: position in `state.tables` and
side letter of the first side, in the order table by table and A before B,
whose `playerIds` includes the player. -/
def findSeat (playerId : Nat) : List Table → Option (Nat × Lado)
  | [] => none
  | t :: ts =>
    if t.ladoA.playerIds.any (fun v => v.isNum playerId) then some (0, .A)
    else if t.ladoB.playerIds.any (fun v => v.isNum playerId) then some (0, .B)
    else (findSeat playerId ts).map (fun r => (r.1 + 1, r.2))

/-- Mutation of the table object at a position of `state.tables`. -/
def modifyTableAt (f : Table → Table) : Nat → List Table → List Table
  | _, [] => []
  | 0, t :: ts => f t :: ts
  | n + 1, t :: ts => t :: modifyTableAt f n ts

/-- The statement `state.players = state.players.filter(p => p.id !== playerId)`. -/
def dropPlayer (players : List Player) (playerId : Nat) : List Player :=
  players.filter (fun p => !(p.id == playerId))

/-- The function `removePlayer(playerId)`; `ok` is the answer of `confirm`. -/
def removePlayer (fecha : String) (ok : Bool) (s : State) (playerId : Nat) : State :=
  if !ok then s
  else
    match findSeat playerId s.tables with
    | some (i, lado) =>
      match s.tables.get? i with
      | none => s
      | some table =>
        if (table.side lado).playerIds.length = 1 then
          let s1 := processForfeit fecha s table.id lado playerId
          let s2 := (removeFromAllQueues s1 playerId).1
          { s2 with players := dropPlayer s2.players playerId }
        else
          let filtered := (table.side lado).playerIds.filter (fun id => !id.isNum playerId)
          let s1 := { s with tables := modifyTableAt (fun t => t.setPlayerIds lado filtered) i s.tables }
          let s2 := (removeFromAllQueues s1 playerId).1
          { s2 with players := dropPlayer s2.players playerId }
    | none =>
      let s1 := (removeFromAllQueues s playerId).1
      { s1 with players := dropPlayer s1.players playerId }

/-- The function `getNextPlayerId`. -/
def getNextPlayerId (s : State) : Nat :=
  if s.players.length = 0 then 1
  else (s.players.map (fun p => p.id)).foldl max 0 + 1

/-- The function `addPlayer(nombre)`.  The string functions `trim` and
`toLowerCase` of the host are the arguments `trim` and `lower`. -/
def addPlayer (trim lower : String → String) (s : State) (nombre : String) : State :=
  let nombre := trim nombre
  if nombre = "" then s
  else if s.players.any (fun p => lower p.nombre == lower nombre) then s
  else
    let player : Player := { id := getNextPlayerId s, nombre := nombre, victorias := 0, derrotas := 0 }
    let players := s.players ++ [player]
    let q1 := if s.settings.modo = .solo then s.queue ++ [JVal.num player.id] else s.queue
    let q2 := if s.settings.modo = .duo then q1 ++ [JVal.num player.id] else q1
    { s with players := players, queue := q2 }

/-- The click handler of the mode toggle buttons. -/
def toggleMode (s : State) (modo : Modo) : State :=
  if s.settings.sessionActive then s
  else { s with settings := { s.settings with modo := modo } }

/-! ## Session start -/

/-- The pairing loop of `startSession` in duo mode. -/
def buildPairs : List JVal → List (List JVal)
  | a :: b :: rest => [a, b] :: buildPairs rest
  | [a] => [[a]]
  | [] => []

/-- The function `startSession(modo)`.  `allIds[i]` outside the array is
`undefined`; `pairs[i]` is only read where the player count guard has made it
exist, and the default `[]` given to `getD` is never taken there. -/
def startSession (s : State) (modo : Modo) : State :=
  let minPlayers := if modo = .solo then 4 else 8
  if s.players.length < minPlayers then s
  else
    let settings : Settings := { s.settings with modo := modo, sessionActive := true }
    let allIds := s.players.map (fun p => JVal.num p.id)
    match modo with
    | .solo =>
      { s with
        settings := settings
        tables :=
          [ { id := 1, modo := modo, ladoA := ⟨[allIds.getD 0 .undef], 0⟩,
              ladoB := ⟨[allIds.getD 1 .undef], 0⟩, turnoSaque := none, blanqueoShown := none },
            { id := 2, modo := modo, ladoA := ⟨[allIds.getD 2 .undef], 0⟩,
              ladoB := ⟨[allIds.getD 3 .undef], 0⟩, turnoSaque := none, blanqueoShown := none } ]
        queue := allIds.drop 4 }
    | .duo =>
      let pairs := buildPairs allIds
      { s with
        settings := settings
        tables :=
          [ { id := 1, modo := modo, ladoA := ⟨pairs.getD 0 [], 0⟩,
              ladoB := ⟨pairs.getD 1 [], 0⟩, turnoSaque := none, blanqueoShown := none },
            { id := 2, modo := modo, ladoA := ⟨pairs.getD 2 [], 0⟩,
              ladoB := ⟨pairs.getD 3 [], 0⟩, turnoSaque := none, blanqueoShown := none } ]
        queue := (pairs.drop 4).map JVal.arr }

/-! ## Scoring a point -/

/-- Truthiness of a flag that may be `undefined`. -/
def truthy : Option Bool → Bool
  | some b => b
  | none => false

/-- The mutations that `addPoint` makes on the table object between its guards
and the call of `checkWinner`: the serve flag on entering 6-6, the increment of
the score, the shutout flag, and the flip of the serve flag in deuce. -/
def scorePoint (table : Table) (lado : Lado) : Table :=
  let t1 : Table :=
    if table.ladoA.score = 6 ∧ table.ladoB.score = 6 then { table with turnoSaque := some true }
    else table
  let t2 : Table :=
    match lado with
    | .A => { t1 with ladoA := { t1.ladoA with score := t1.ladoA.score + 1 } }
    | .B => { t1 with ladoB := { t1.ladoB with score := t1.ladoB.score + 1 } }
  let isBlanqueoA : Bool := t2.ladoA.score == 4 && t2.ladoB.score == 0
  let isBlanqueoB : Bool := t2.ladoB.score == 4 && t2.ladoA.score == 0
  let t3 : Table :=
    if !(isBlanqueoA || isBlanqueoB) then { t2 with blanqueoShown := some false } else t2
  let t4 : Table :=
    if (isBlanqueoA || isBlanqueoB) && !(truthy t3.blanqueoShown) then
      { t3 with blanqueoShown := some true }
    else t3
  if t4.ladoA.score ≥ 6 ∧ t4.ladoB.score ≥ 6 then
    { t4 with turnoSaque := some (!(truthy t4.turnoSaque)) }
  else t4

/-- The function `addPoint(tableId, lado)`: the new state, and the call of
`processRoundEnd` handed to `setTimeout`, if any. -/
def addPoint (s : State) (tableId : Nat) (lado : Lado) : State × Option (Nat × Lado) :=
  match findTable s.tables tableId with
  | none => (s, none)
  | some table =>
    if (table.side lado).playerIds.length = 0 then (s, none)
    else
      let table' := scorePoint table lado
      let winner := checkWinner table'.ladoA.score table'.ladoB.score
      let s' := { s with tables := replaceTable tableId table' s.tables }
      if winner ≠ 0 then (s', some (tableId, if winner = 1 then Lado.A else Lado.B))
      else (s', none)

/-! ## Runs of roster operations -/

/-- A call of `addPlayer` or a confirmed call of `removePlayer`. -/
inductive RosterOp where
  | add (nombre : String)
  | remove (fecha : String) (playerId : Nat)

/-- One roster operation applied to a state. -/
def applyRosterOp (trim lower : String → String) (s : State) : RosterOp → State
  | .add nombre => addPlayer trim lower s nombre
  | .remove fecha playerId => removePlayer fecha true s playerId

/-- A sequence of roster operations applied in order. -/
def runRoster (trim lower : String → String) (s : State) (ops : List RosterOp) : State :=
  ops.foldl (applyRosterOp trim lower) s

/-! ## Runs of points -/

/-- A series of calls `addPoint(tableId, lado)`, one per element of the list,
where every call handed to `setTimeout` runs before the next point is played. -/
def playSync (fecha : String) (s : State) (tableId : Nat) : List Lado → State
  | [] => s
  | lado :: rest =>
    let r := addPoint s tableId lado
    let s' :=
      match r.2 with
      | some call => processRoundEnd fecha r.1 call.1 call.2
      | none => r.1
    playSync fecha s' tableId rest

/-- A series of calls `addPoint(tableId, lado)`, one per element of the list,
where no call handed to `setTimeout` runs in between: the state after the last
point and the pending calls, oldest first. -/
def playPoints (s : State) (tableId : Nat) : List Lado → State × List (Nat × Lado)
  | [] => (s, [])
  | lado :: rest =>
    let r := addPoint s tableId lado
    let r' := playPoints r.1 tableId rest
    (r'.1, r.2.toList ++ r'.2)

/-- The pending calls of `processRoundEnd` run, oldest first. -/
def fireAll (fecha : String) (s : State) (calls : List (Nat × Lado)) : State :=
  calls.foldl (fun st call => processRoundEnd fecha st call.1 call.2) s

/-! ## Sample states -/

/-- Five players with no wins and no losses. -/
def demoPlayers : List Player :=
  [⟨1, "P1", 0, 0⟩, ⟨2, "P2", 0, 0⟩, ⟨3, "P3", 0, 0⟩, ⟨4, "P4", 0, 0⟩, ⟨5, "P5", 0, 0⟩]

/-- A table of a running session with the given mode, occupants and scores. -/
def demoTable (id : Nat) (modo : Modo) (a b : List JVal) (sa sb : Nat) : Table :=
  { id := id, modo := modo, ladoA := ⟨a, sa⟩, ladoB := ⟨b, sb⟩,
    turnoSaque := none, blanqueoShown := none }

/-- A solo session: P1 against P2 at 7-5 on table 1, P3 against P4 on table 2,
and the given queue. -/
def demoSolo (queue : List JVal) : State :=
  { players := demoPlayers
    tables := [demoTable 1 .solo [.num 1] [.num 2] 7 5, demoTable 2 .solo [.num 3] [.num 4] 0 0]
    queue := queue
    matchLog := []
    settings := ⟨.solo, true⟩ }

/-- Table 1 of a solo session with P1 against P2 at the score `a`-`b`. -/
def midTable (a b : Nat) (fl : Option Bool) : Table :=
  { id := 1, modo := .solo, ladoA := ⟨[.num 1], a⟩, ladoB := ⟨[.num 2], b⟩,
    turnoSaque := none, blanqueoShown := fl }

/-- A solo session of five players right after its start, with table 1 at the
score `a`-`b` and nobody rotated yet. -/
def soloMid (ps : List Player) (a b : Nat) (fl : Option Bool) : State :=
  { players := ps
    tables := [midTable a b fl, demoTable 2 .solo [.num 3] [.num 4] 0 0]
    queue := [.num 5]
    matchLog := []
    settings := ⟨.solo, true⟩ }

/-- The five players of the end-to-end scenario, with the names they were
given, before any round. -/
def fivePlayers (n1 n2 n3 n4 n5 : String) : List Player :=
  [⟨1, n1, 0, 0⟩, ⟨2, n2, 0, 0⟩, ⟨3, n3, 0, 0⟩, ⟨4, n4, 0, 0⟩, ⟨5, n5, 0, 0⟩]

/-- The start of the end-to-end scenario: from the empty state, five players
are added in order and a solo session is started. -/
def scenarioStart (trim lower : String → String) (n1 n2 n3 n4 n5 : String) : State :=
  startSession ([n1, n2, n3, n4, n5].foldl (addPlayer trim lower) initialState) .solo

/-- A state before any session: the given roster, two empty tables, and the
players waiting in the queue one by one. -/
def lobby (players : List Player) (modo : Modo) : State :=
  { initialState with
    players := players
    queue := players.map (fun p => JVal.num p.id)
    settings := ⟨modo, false⟩ }

/-- Four players with no wins and no losses. -/
def fourPlayers : List Player :=
  [⟨1, "P1", 0, 0⟩, ⟨2, "P2", 0, 0⟩, ⟨3, "P3", 0, 0⟩, ⟨4, "P4", 0, 0⟩]

/-- A solo session of four players in which P2 has left table 1: side B of
table 1 is empty and nobody waits. -/
def uncontested : State :=
  removePlayer "t" true (startSession (lobby fourPlayers .solo) .solo) 2

/-- Nine players with no wins and no losses. -/
def ninePlayers : List Player :=
  demoPlayers ++ [⟨6, "P6", 0, 0⟩, ⟨7, "P7", 0, 0⟩, ⟨8, "P8", 0, 0⟩, ⟨9, "P9", 0, 0⟩]

/-- A run of the application in duo mode: eight players are added and the
session is started; P3 and then P4 are removed, which leaves side B of table 1
empty as nobody waits; P9 is added; then side A of table 1 scores four points,
each scheduled round completion running before the next point. -/
def emptyUnitRun : State :=
  playSync "t"
    (runRoster (fun x => x) (fun x => x)
      (startSession
        (runRoster (fun x => x) (fun x => x) (toggleMode initialState .duo)
          [.add "P1", .add "P2", .add "P3", .add "P4", .add "P5", .add "P6", .add "P7",
            .add "P8"])
        .duo)
      [.remove "t" 3, .remove "t" 4, .add "P9"])
    1 [.A, .A, .A, .A]

/-- The run `emptyUnitRun` with one more player: P9 and P10 are added before
the four points, so that P10 still waits when the round is completed. -/
def emptyTailRun : State :=
  playSync "t"
    (runRoster (fun x => x) (fun x => x)
      (startSession
        (runRoster (fun x => x) (fun x => x) (toggleMode initialState .duo)
          [.add "P1", .add "P2", .add "P3", .add "P4", .add "P5", .add "P6", .add "P7",
            .add "P8"])
        .duo)
      [.remove "t" 3, .remove "t" 4, .add "P9", .add "P10"])
    1 [.A, .A, .A, .A]

/-- A run of the application in solo mode: five players are added, the session
is started, and table 1 is played to 3-2. -/
def midSessionRun : State :=
  (playPoints (scenarioStart (fun x => x) (fun x => x) "P1" "P2" "P3" "P4" "P5") 1
    [.A, .A, .A, .B, .B]).1

/-- Ten players with no wins and no losses. -/
def tenPlayers : List Player :=
  ninePlayers ++ [⟨10, "P10", 0, 0⟩]

/-- A duo session of ten players right after its start: four pairs at the
tables and the pair of P9 and P10 in the queue. -/
def duoTen : State :=
  startSession (lobby tenPlayers .duo) .duo

/-! ## Predicates used in the statements -/

/-- The unit at the head of the queue, and no player when the queue is empty. -/
def headUnit : List JVal → List JVal
  | [] => []
  | h :: _ => h.asArray

/-- Whether a queue entry is an array without elements, a unit with no member. -/
def JVal.isEmptyUnit : JVal → Bool
  | .arr [] => true
  | _ => false

/-- A queue without its units that have no member; the other units stay in
their order. -/
def dropEmptyUnits (q : List JVal) : List JVal :=
  q.filter (fun e => !e.isEmptyUnit)

/-- The units of a roster as the specification words them: in solo mode one
unit per player; in duo mode consecutive pairs, unit number `k` (from 0) being
the players at positions `2k` and `2k+1`, a trailing odd player forming a unit
of one. -/
def specUnits (modo : Modo) (ids : List JVal) : List (List JVal) :=
  match modo with
  | .solo => ids.map (fun i => [i])
  | .duo => (List.range ((ids.length + 1) / 2)).map (fun k => (ids.drop (2 * k)).take 2)

/-- The outcome that the end-to-end scenario expects: one match on table 1 won
by side A at 7-`x`, one win for P1, one loss for P2, P5 on side B of table 1
with both scores 0, table 2 untouched, and P2 alone in the queue. -/
def SoloOutcome (s : State) (x : Nat) : Prop :=
  s.matchLog.map (fun m => (m.id, m.tableId, m.ganadorLado, m.scoreFinalA, m.scoreFinalB)) =
    [(1, 1, Lado.A, 7, x)] ∧
  s.players.map (fun p => (p.id, p.victorias, p.derrotas)) =
    [(1, 1, 0), (2, 0, 1), (3, 0, 0), (4, 0, 0), (5, 0, 0)] ∧
  s.tables.map (fun t => (t.id, t.ladoA, t.ladoB)) =
    [(1, ⟨[.num 1], 0⟩, ⟨[.num 5], 0⟩), (2, ⟨[.num 3], 0⟩, ⟨[.num 4], 0⟩)] ∧
  s.queue = [.num 2]

/-- The player ids, as numbers, among the values of an array. -/
def idsOf (vs : List JVal) : List Nat :=
  vs.filterMap (fun v => match v with | .num n => some n | _ => none)

/-- The final scores of a decided round, winner's score first: 4-0, or 7-k with
k from 1 to 5, or (n+2)-n with n at least 6. -/
def WinShape (w l : Nat) : Prop :=
  (w = 4 ∧ l = 0) ∨ (w = 7 ∧ 1 ≤ l ∧ l ≤ 5) ∨ (6 ≤ l ∧ w = l + 2)

/-- Every table side without occupants has the score 0. -/
def EmptyZero (s : State) : Prop :=
  ∀ t ∈ s.tables, ∀ l : Lado, (t.side l).playerIds = [] → (t.side l).score = 0

/-- One step of an append-only log with sequential ids: the log of `s'` is the
log of `s`, or the log of `s` followed by one record whose id is the former
length plus 1. -/
def LogStep (s s' : State) : Prop :=
  s'.matchLog = s.matchLog ∨
    ∃ m : Match, s'.matchLog = s.matchLog ++ [m] ∧ m.id = s.matchLog.length + 1

/-- The occupants of the two sides of a table. -/
def tableSlots (t : Table) : List JVal :=
  t.ladoA.playerIds ++ t.ladoB.playerIds

/-- Every place a player can be in: the occupants of all table sides, then the
members of all queue units (an entry that is not an array is a unit of one). -/
def slots (s : State) : List JVal :=
  s.tables.flatMap tableSlots ++ s.queue.flatMap JVal.asArray

/-- How many times player id `n` occurs on the table sides and in the queue units. -/
def occurrences (n : Nat) (s : State) : Nat :=
  (slots s).countP (fun v => v.isNum n)

/-- Every roster player is on a table side or in a queue unit. -/
def Covered (s : State) : Prop :=
  ∀ n ∈ s.players.map (fun p => p.id), JVal.num n ∈ slots s

/-- The states reached from the empty initial state by the operations of the
application, in any order and with any arguments.  `processRoundEnd` may run
at any time, which covers every moment at which a scheduled call can fire. -/
inductive Reachable : State → Prop where
  | init : Reachable initialState
  | addPlayer (trim lower : String → String) (nombre : String) {s : State} :
      Reachable s → Reachable (addPlayer trim lower s nombre)
  | removePlayer (fecha : String) (ok : Bool) (playerId : Nat) {s : State} :
      Reachable s → Reachable (removePlayer fecha ok s playerId)
  | toggleMode (modo : Modo) {s : State} : Reachable s → Reachable (toggleMode s modo)
  | startSession (modo : Modo) {s : State} : Reachable s → Reachable (startSession s modo)
  | addPoint (tableId : Nat) (lado : Lado) {s : State} :
      Reachable s → Reachable (addPoint s tableId lado).1
  | processRoundEnd (fecha : String) (tableId : Nat) (lado : Lado) {s : State} :
      Reachable s → Reachable (processRoundEnd fecha s tableId lado)

/-- The invariant carried along every run: roster ids are pairwise distinct;
every occupant and every queue member is a player id; while a table is in solo
mode no queue entry is an array; all tables share one mode; table ids are
pairwise distinct; no value occurs twice among the slots; and every id in a
slot belongs to a roster player. -/
structure Inv (s : State) : Prop where
  roster : (s.players.map (fun p => p.id)).Nodup
  typed : ∀ v ∈ slots s, ∃ n, v = JVal.num n
  solo : Modo.solo ∈ s.tables.map (fun t => t.modo) → ∀ e ∈ s.queue, e.isArray = false
  same : ∀ m ∈ s.tables.map (fun t => t.modo), ∀ m' ∈ s.tables.map (fun t => t.modo), m = m'
  tids : (s.tables.map (fun t => t.id)).Nodup
  nodup : (slots s).Nodup
  sub : ∀ n, JVal.num n ∈ slots s → n ∈ s.players.map (fun p => p.id)

/-- Whether a player is among the occupants `ids`: some element is `=== p.id`. -/
def onSide (ids : List JVal) (p : Player) : Bool :=
  ids.any (fun v => v.isNum p.id)

/-- The condition under which the first side wins by the scoring rule: a
shutout at exactly 4-0, a lead of two once both sides have six, or seven
points against at most five. -/
def WinsBy (a b : Nat) : Prop :=
  (a = 4 ∧ b = 0) ∨ (a ≥ 6 ∧ b ≥ 6 ∧ (a : Int) - (b : Int) ≥ 2) ∨ (a ≥ 7 ∧ b ≤ 5)

/-! ## Theorems -/

/-! ### Scoring rule -/

/-- C1: `checkWinner a b` is 1 exactly when side A wins by shutout, by a
two-point lead in deuce or by seven against at most five, is 2 exactly when
the same holds with the sides swapped, and is 0 exactly when neither holds;
with the six sample values of the specification. -/
theorem checkWinner_spec (a b : Nat) :
    (checkWinner a b = 1 ↔ WinsBy a b) ∧
    (checkWinner a b = 2 ↔ WinsBy b a) ∧
    (checkWinner a b = 0 ↔ ¬ WinsBy a b ∧ ¬ WinsBy b a) ∧
    checkWinner 7 5 = 1 ∧ checkWinner 6 6 = 0 ∧ checkWinner 8 6 = 1 ∧
    checkWinner 7 7 = 0 ∧ checkWinner 9 7 = 1 ∧ checkWinner 5 0 = 0 := by
  refine ⟨?_, ?_, ?_, by decide, by decide, by decide, by decide, by decide, by decide⟩
  all_goals
    unfold checkWinner WinsBy
    split_ifs <;>
      simp only [OfNat.ofNat_ne_zero, OfNat.ofNat_ne_one, one_ne_zero, zero_ne_one, false_iff,
        true_iff, OfNat.one_ne_ofNat, Nat.reduceEqDiff] <;> omega

/-! ### Tables -/

theorem findTable_id {ts : List Table} {tableId : Nat} {t : Table}
    (h : findTable ts tableId = some t) : t.id = tableId := by
  have := List.find?_some h
  simpa using this

theorem findTable_replaceTable {ts : List Table} {tableId : Nat} {t t' : Table}
    (h : findTable ts tableId = some t) (hid : t'.id = tableId) :
    findTable (replaceTable tableId t' ts) tableId = some t' := by
  induction ts with
  | nil => simp [findTable] at h
  | cons a as ih =>
    unfold findTable at h ih ⊢
    by_cases ha : (a.id == tableId) = true
    · simp [replaceTable, ha, List.find?, hid]
    · simp only [List.find?, ha] at h
      simp [replaceTable, ha, List.find?, ih h]

@[simp] theorem setPlayerIds_side_same (t : Table) (l : Lado) (ids : List JVal) :
    ((t.setPlayerIds l ids).side l).playerIds = ids := by
  cases l <;> rfl

@[simp] theorem setPlayerIds_side_other (t : Table) (l : Lado) (ids : List JVal) :
    (t.setPlayerIds l.other ids).side l = t.side l := by
  cases l <;> rfl

@[simp] theorem resetScores_side_playerIds (t : Table) (l : Lado) :
    (t.resetScores.side l).playerIds = (t.side l).playerIds := by
  cases l <;> rfl

@[simp] theorem resetScores_side_score (t : Table) (l : Lado) :
    (t.resetScores.side l).score = 0 := by
  cases l <;> rfl

@[simp] theorem resetScores_id (t : Table) : t.resetScores.id = t.id := rfl

@[simp] theorem setPlayerIds_id (t : Table) (l : Lado) (ids : List JVal) :
    (t.setPlayerIds l ids).id = t.id := by
  cases l <;> rfl

@[simp] theorem other_other (l : Lado) : l.other.other = l := by
  cases l <;> rfl

/-! ### Round completion -/

/-- C2: when the queue is `h :: rest`, `processRoundEnd` on an existing table
leaves the winning side's occupants as they were, puts the unit of `h` on the
losing side, makes the queue `rest` followed by one entry holding the losing
unit, and sets both scores of the table to 0.  On a solo table the head entry
and the single loser are plain ids, as every solo unit is one player. -/
theorem processRoundEnd_rotates (fecha : String) (s : State) (tableId : Nat) (g : Lado)
    (table : Table) (h : JVal) (rest : List JVal)
    (hfind : findTable s.tables tableId = some table)
    (hq : s.queue = h :: rest)
    (hsolo : table.modo = .solo →
      h.isArray = false ∧ ∃ p, p.isArray = false ∧ (table.side g.other).playerIds = [p]) :
    ∃ table' e,
      findTable (processRoundEnd fecha s tableId g).tables tableId = some table' ∧
      (table'.side g).playerIds = (table.side g).playerIds ∧
      (table'.side g.other).playerIds = h.asArray ∧
      (processRoundEnd fecha s tableId g).queue = rest ++ [e] ∧
      e.asArray = (table.side g.other).playerIds ∧
      table'.ladoA.score = 0 ∧ table'.ladoB.score = 0 := by
  have hid := findTable_id hfind
  cases hm : table.modo with
  | solo =>
    obtain ⟨hh, p, hp, hl⟩ := hsolo hm
    refine ⟨((table.setPlayerIds g.other [h]).resetScores), p, ?_, ?_, ?_, ?_, ?_, rfl, rfl⟩
    · simp only [processRoundEnd, rotate, hfind, hm, hq, hl, List.cons_append]
      exact findTable_replaceTable hfind (by simpa using hid)
    · simp
    · have : h.asArray = [h] := by cases h <;> simp_all [JVal.asArray, JVal.isArray]
      rw [this]
      have := setPlayerIds_side_same table g.other [h]
      simp
    · simp only [processRoundEnd, rotate, hfind, hm, hq, hl, List.cons_append]
    · rw [hl]; cases p <;> simp_all [JVal.asArray, JVal.isArray]
  | duo =>
    refine ⟨((table.setPlayerIds g.other h.asArray).resetScores),
      JVal.arr (table.side g.other).playerIds, ?_, ?_, ?_, ?_, rfl, rfl, rfl⟩
    · simp only [processRoundEnd, rotate, hfind, hm, hq, List.cons_append]
      exact findTable_replaceTable hfind (by simpa using hid)
    · simp
    · simp
    · simp only [processRoundEnd, rotate, hfind, hm, hq, List.cons_append]

/-- Witness of C2: P1 beats P2 on table 1 of a solo session while P5 waits. -/
theorem processRoundEnd_rotates_witness :
    (findTable (demoSolo [.num 5]).tables 1 = some (demoTable 1 .solo [.num 1] [.num 2] 7 5) ∧
      (demoSolo [.num 5]).queue = [.num 5]) ∧
    ∃ table' e,
      findTable (processRoundEnd "t" (demoSolo [.num 5]) 1 .A).tables 1 = some table' ∧
      (table'.side .A).playerIds = [.num 1] ∧
      (table'.side .B).playerIds = [.num 5] ∧
      (processRoundEnd "t" (demoSolo [.num 5]) 1 .A).queue = [] ++ [e] ∧
      e.asArray = [.num 2] ∧
      table'.ladoA.score = 0 ∧ table'.ladoB.score = 0 :=
  ⟨⟨rfl, rfl⟩,
    processRoundEnd_rotates "t" (demoSolo [.num 5]) 1 .A (demoTable 1 .solo [.num 1] [.num 2] 7 5)
      (.num 5) [] rfl rfl (fun _ => ⟨rfl, .num 2, rfl, rfl⟩)⟩

/-- C3: when the queue is empty, `processRoundEnd` on an existing table does
not rotate: the losing side keeps its occupants, the winning side keeps its
occupants, the queue is empty again and both scores of the table are 0, on a
duo table and on a solo table (whose sides hold at most one player). -/
theorem processRoundEnd_empty_queue (fecha : String) (s : State) (tableId : Nat) (g : Lado)
    (table : Table)
    (hfind : findTable s.tables tableId = some table)
    (hq : s.queue = [])
    (hsolo : table.modo = .solo → (table.side g.other).playerIds.length ≤ 1) :
    ∃ table',
      findTable (processRoundEnd fecha s tableId g).tables tableId = some table' ∧
      (table'.side g.other).playerIds = (table.side g.other).playerIds ∧
      (table'.side g).playerIds = (table.side g).playerIds ∧
      (processRoundEnd fecha s tableId g).queue = [] ∧
      table'.ladoA.score = 0 ∧ table'.ladoB.score = 0 := by
  have hid := findTable_id hfind
  cases hm : table.modo with
  | solo =>
    have hlen := hsolo hm
    match hl : (table.side g.other).playerIds, hlen with
    | [], _ =>
      refine ⟨((table.setPlayerIds g.other []).resetScores), ?_, ?_, ?_, ?_, rfl, rfl⟩
      · simp only [processRoundEnd, rotate, hfind, hm, hq, hl, List.nil_append]
        exact findTable_replaceTable hfind (by simpa using hid)
      · simp
      · simp
      · simp only [processRoundEnd, rotate, hfind, hm, hq, hl, List.nil_append]
    | [p], _ =>
      refine ⟨((table.setPlayerIds g.other [p]).resetScores), ?_, ?_, ?_, ?_, rfl, rfl⟩
      · simp only [processRoundEnd, rotate, hfind, hm, hq, hl, List.nil_append]
        exact findTable_replaceTable hfind (by simpa using hid)
      · simp
      · simp
      · simp only [processRoundEnd, rotate, hfind, hm, hq, hl, List.nil_append]
    | _ :: _ :: _, h2 => simp at h2
  | duo =>
    refine ⟨((table.setPlayerIds g.other (table.side g.other).playerIds).resetScores),
      ?_, ?_, ?_, ?_, rfl, rfl⟩
    · simp only [processRoundEnd, rotate, hfind, hm, hq, List.nil_append, JVal.asArray]
      exact findTable_replaceTable hfind (by simpa using hid)
    · simp
    · simp
    · simp only [processRoundEnd, rotate, hfind, hm, hq, List.nil_append]

/-- Witness of C3: P1 beats P2 on table 1 of a solo session with nobody waiting. -/
theorem processRoundEnd_empty_queue_witness :
    (findTable (demoSolo []).tables 1 = some (demoTable 1 .solo [.num 1] [.num 2] 7 5) ∧
      (demoSolo []).queue = []) ∧
    ∃ table',
      findTable (processRoundEnd "t" (demoSolo []) 1 .A).tables 1 = some table' ∧
      (table'.side .B).playerIds = [.num 2] ∧
      (table'.side .A).playerIds = [.num 1] ∧
      (processRoundEnd "t" (demoSolo []) 1 .A).queue = [] ∧
      table'.ladoA.score = 0 ∧ table'.ladoB.score = 0 :=
  ⟨⟨rfl, rfl⟩,
    processRoundEnd_empty_queue "t" (demoSolo []) 1 .A (demoTable 1 .solo [.num 1] [.num 2] 7 5)
      rfl rfl (fun _ => by decide)⟩

/-! ### Statistics -/

theorem isNum_eq_true {n : Nat} {v : JVal} : v.isNum n = true ↔ v = JVal.num n := by
  cases v <;> simp [JVal.isNum]

theorem mem_idsOf {n : Nat} {vs : List JVal} : n ∈ idsOf vs ↔ JVal.num n ∈ vs := by
  unfold idsOf
  rw [List.mem_filterMap]
  constructor
  · rintro ⟨v, hv, h⟩
    cases v <;> simp_all
  · intro h
    exact ⟨_, h, rfl⟩

theorem any_isNum_iff {n : Nat} {vs : List JVal} :
    vs.any (fun v => v.isNum n) = true ↔ n ∈ idsOf vs := by
  rw [mem_idsOf, List.any_eq_true]
  constructor
  · rintro ⟨v, hv, h⟩
    rw [isNum_eq_true] at h
    exact h ▸ hv
  · intro h
    exact ⟨_, h, isNum_eq_true.mpr rfl⟩

theorem idsOf_cons_num (n : Nat) (vs : List JVal) : idsOf (JVal.num n :: vs) = n :: idsOf vs := by
  simp [idsOf, List.filterMap_cons]

theorem idsOf_cons_of_not_num {v : JVal} (vs : List JVal) (h : ∀ n, v ≠ JVal.num n) :
    idsOf (v :: vs) = idsOf vs := by
  cases v with
  | num n => exact absurd rfl (h n)
  | undef => simp [idsOf, List.filterMap_cons]
  | arr xs => simp [idsOf, List.filterMap_cons]

theorem idsOf_append (a b : List JVal) : idsOf (a ++ b) = idsOf a ++ idsOf b := by
  simp [idsOf, List.filterMap_append]

theorem bumpFirst_map_id (f : Player → Player) (hf : ∀ p, (f p).id = p.id)
    (players : List Player) (v : JVal) :
    (bumpFirst f players v).map (fun p => p.id) = players.map (fun p => p.id) := by
  induction players with
  | nil => rfl
  | cons p ps ih =>
    unfold bumpFirst
    split <;> simp [hf, ih]

theorem bumpFirst_eq_map (f : Player → Player) (players : List Player) (v : JVal)
    (hnd : (players.map (fun p => p.id)).Nodup) :
    bumpFirst f players v = players.map (fun p => if v.isNum p.id then f p else p) := by
  induction players with
  | nil => rfl
  | cons p ps ih =>
    rw [List.map_cons, List.nodup_cons] at hnd
    unfold bumpFirst
    by_cases hv : v.isNum p.id = true
    · simp only [hv, if_true, List.map_cons]
      congr 1
      refine ((List.map_congr_left ?_).trans (List.map_id ps)).symm
      intro q hq
      have hne : v.isNum q.id = false := by
        cases hvq : v.isNum q.id with
        | false => rfl
        | true =>
          rw [isNum_eq_true] at hv hvq
          have : q.id = p.id := by
            have := hv.symm.trans hvq
            injection this with h
            exact h.symm
          exact absurd (this ▸ List.mem_map_of_mem (fun p => p.id) hq) hnd.1
      simp [hne]
    · simp only [hv, List.map_cons]
      rw [ih hnd.2]
      simp

theorem foldl_bumpFirst (f : Player → Player) (hf : ∀ p, (f p).id = p.id)
    (ids : List JVal) (players : List Player)
    (hnd : (players.map (fun p => p.id)).Nodup) (hids : (idsOf ids).Nodup) :
    ids.foldl (bumpFirst f) players =
      players.map (fun p => if onSide ids p then f p else p) := by
  induction ids generalizing players with
  | nil => simp [onSide]
  | cons v vs ih =>
    have hvs : (idsOf vs).Nodup := by
      cases v with
      | num n => rw [idsOf_cons_num] at hids; exact (List.nodup_cons.mp hids).2
      | undef => rwa [idsOf_cons_of_not_num _ (by intro n; simp)] at hids
      | arr xs => rwa [idsOf_cons_of_not_num _ (by intro n; simp)] at hids
    rw [List.foldl_cons, ih _ (by rw [bumpFirst_map_id f hf]; exact hnd) hvs,
      bumpFirst_eq_map f players v hnd, List.map_map]
    apply List.map_congr_left
    intro p _
    simp only [Function.comp, onSide, List.any_cons]
    by_cases hv : v.isNum p.id = true
    · have hn : vs.any (fun w => w.isNum p.id) = false := by
        cases hany : vs.any (fun w => w.isNum p.id) with
        | false => rfl
        | true =>
          rw [any_isNum_iff] at hany
          rw [isNum_eq_true] at hv
          subst hv
          rw [idsOf_cons_num] at hids
          exact absurd hany (List.nodup_cons.mp hids).1
      simp [hv, hf, hn]
    · simp [hv]

theorem updateStats_eq (players : List Player) (w l : List JVal)
    (hnd : (players.map (fun p => p.id)).Nodup) (hw : (idsOf w).Nodup) (hl : (idsOf l).Nodup) :
    updateStats players w l =
      players.map (fun p =>
        { p with
          victorias := p.victorias + (if onSide w p then 1 else 0)
          derrotas := p.derrotas + (if onSide l p then 1 else 0) }) := by
  have e1 : bumpVictorias = bumpFirst (fun p => { p with victorias := p.victorias + 1 }) := rfl
  have e2 : bumpDerrotas = bumpFirst (fun p => { p with derrotas := p.derrotas + 1 }) := rfl
  unfold updateStats
  rw [e1, e2,
    foldl_bumpFirst (fun p => { p with victorias := p.victorias + 1 }) (fun _ => rfl) w players
      hnd hw,
    foldl_bumpFirst (fun p => { p with derrotas := p.derrotas + 1 }) (fun _ => rfl) l _
      (by
        rw [List.map_map]
        have : ((fun p : Player => p.id) ∘ fun p =>
            if onSide w p = true then { p with victorias := p.victorias + 1 } else p) =
            fun p => p.id := by
          funext p
          simp only [Function.comp]
          split <;> rfl
        rw [this]
        exact hnd) hl, List.map_map]
  apply List.map_congr_left
  intro p _
  simp only [Function.comp, onSide]
  by_cases h1 : w.any (fun v => v.isNum p.id) = true <;>
    by_cases h2 : l.any (fun v => v.isNum p.id) = true <;> simp [h1, h2]

theorem onSide_disjoint (w l : List JVal) (h : (idsOf (w ++ l)).Nodup) (p : Player)
    (hp : onSide w p = true) : onSide l p = false := by
  rw [idsOf_append] at h
  have hd := (List.nodup_append.mp h).2.2
  cases hl : onSide l p with
  | false => rfl
  | true =>
    unfold onSide at hp hl
    rw [any_isNum_iff] at hp hl
    exact absurd hl (fun hl => (hd hp hl).elim)

/-- C5: on an existing table whose occupants are pairwise distinct, with a
roster of pairwise distinct ids, `processRoundEnd` maps the roster player by
player: `victorias` grows by 1 exactly for the players on the winning side,
`derrotas` grows by 1 exactly for the players on the losing side, nobody is on
both, and nothing else of any player changes.  Occupant ids without a roster
entry change nothing: the roster keeps its length and order. -/
theorem processRoundEnd_stats (fecha : String) (s : State) (tableId : Nat) (g : Lado)
    (table : Table)
    (hfind : findTable s.tables tableId = some table)
    (hros : (s.players.map (fun p => p.id)).Nodup)
    (hocc : (idsOf ((table.side g).playerIds ++ (table.side g.other).playerIds)).Nodup) :
    (processRoundEnd fecha s tableId g).players =
      s.players.map (fun p =>
        { p with
          victorias := p.victorias + (if onSide (table.side g).playerIds p then 1 else 0)
          derrotas := p.derrotas + (if onSide (table.side g.other).playerIds p then 1 else 0) }) ∧
    ∀ p : Player, onSide (table.side g).playerIds p = true →
      onSide (table.side g.other).playerIds p = false := by
  refine ⟨?_, onSide_disjoint _ _ hocc⟩
  rw [idsOf_append] at hocc
  simp only [processRoundEnd, hfind]
  exact updateStats_eq _ _ _ hros hocc.of_append_left hocc.of_append_right

/-- Witness of C5: P1 beats P2 on table 1; P1 gets a win, P2 a loss. -/
theorem processRoundEnd_stats_witness :
    (findTable (demoSolo [.num 5]).tables 1 = some (demoTable 1 .solo [.num 1] [.num 2] 7 5) ∧
      ((demoSolo [.num 5]).players.map (fun p => p.id)).Nodup ∧
      (idsOf ([JVal.num 1] ++ [JVal.num 2])).Nodup) ∧
    ((processRoundEnd "t" (demoSolo [.num 5]) 1 .A).players =
      (demoSolo [.num 5]).players.map (fun p =>
        { p with
          victorias := p.victorias + (if onSide [.num 1] p then 1 else 0)
          derrotas := p.derrotas + (if onSide [.num 2] p then 1 else 0) }) ∧
    ∀ p : Player, onSide [.num 1] p = true → onSide [.num 2] p = false) :=
  ⟨⟨rfl, by decide, by decide⟩,
    processRoundEnd_stats "t" (demoSolo [.num 5]) 1 .A (demoTable 1 .solo [.num 1] [.num 2] 7 5)
      rfl (by decide) (by decide)⟩

/-! ### The player-id invariant -/

theorem replaceTable_split {ts : List Table} {tableId : Nat} {t : Table}
    (h : findTable ts tableId = some t) :
    ∃ pre post, ts = pre ++ t :: post ∧
      ∀ t', replaceTable tableId t' ts = pre ++ t' :: post := by
  induction ts with
  | nil => simp [findTable] at h
  | cons a as ih =>
    unfold findTable at h ih
    by_cases ha : (a.id == tableId) = true
    · simp only [List.find?, ha, Option.some.injEq] at h
      subst h
      exact ⟨[], as, rfl, fun t' => by simp [replaceTable, ha]⟩
    · simp only [List.find?, ha] at h
      obtain ⟨pre, post, h1, h2⟩ := ih h
      refine ⟨a :: pre, post, by rw [h1]; rfl, fun t' => ?_⟩
      simp [replaceTable, ha, h2]

theorem asArray_of_not_array {v : JVal} (h : v.isArray = false) : v.asArray = [v] := by
  cases v <;> simp_all [JVal.asArray, JVal.isArray]

theorem flatMap_asArray_of_not_array {l : List JVal} (h : ∀ v ∈ l, v.isArray = false) :
    l.flatMap JVal.asArray = l := by
  induction l with
  | nil => rfl
  | cons a as ih =>
    rw [List.flatMap_cons, asArray_of_not_array (h a (List.mem_cons_self _ _)),
      ih (fun v hv => h v (List.mem_cons_of_mem _ hv))]
    rfl

theorem rotate_perm (modo : Modo) (q l : List JVal)
    (hl : ∀ v ∈ l, v.isArray = false)
    (hq : modo = .solo → ∀ e ∈ q, e.isArray = false) :
    ((rotate modo q l).1 ++ (rotate modo q l).2.flatMap JVal.asArray).Perm
      (l ++ q.flatMap JVal.asArray) := by
  cases modo with
  | solo =>
    have hall : ∀ v ∈ q ++ l, v.isArray = false := by
      intro v hv
      rcases List.mem_append.mp hv with h | h
      · exact hq rfl v h
      · exact hl v h
    have e2 := flatMap_asArray_of_not_array (hq rfl)
    rw [e2]
    cases hql : q ++ l with
    | nil =>
      simp only [rotate, hql]
      simp only [List.append_eq_nil] at hql
      simp [hql.1, hql.2]
    | cons h rest =>
      simp only [rotate, hql]
      rw [hql] at hall
      have e3 := flatMap_asArray_of_not_array (fun v hv => hall v (List.mem_cons_of_mem _ hv))
      simp only [e3]
      show (h :: rest).Perm (l ++ q)
      rw [← hql]
      exact List.perm_append_comm
  | duo =>
    cases hql : q ++ [JVal.arr l] with
    | nil => simp at hql
    | cons h rest =>
      simp only [rotate, hql]
      have : h.asArray ++ rest.flatMap JVal.asArray = (q ++ [JVal.arr l]).flatMap JVal.asArray := by
        rw [hql, List.flatMap_cons]
      rw [this, List.flatMap_append, List.flatMap_cons, List.flatMap_nil, List.append_nil]
      exact List.perm_append_comm

theorem tableSlots_perm (t : Table) (l : Lado) :
    (tableSlots t).Perm ((t.side l).playerIds ++ (t.side l.other).playerIds) := by
  cases l
  · exact List.Perm.refl _
  · exact List.perm_append_comm

theorem tableSlots_set_perm (t : Table) (l : Lado) (x : List JVal) :
    (tableSlots (t.setPlayerIds l x).resetScores).Perm (x ++ (t.side l.other).playerIds) := by
  cases l
  · exact List.Perm.refl _
  · exact List.perm_append_comm

theorem slots_frame (pre post : List Table) (t t' : Table) (q q' : List JVal)
    (h : (tableSlots t' ++ q'.flatMap JVal.asArray).Perm (tableSlots t ++ q.flatMap JVal.asArray)) :
    ((pre ++ t' :: post).flatMap tableSlots ++ q'.flatMap JVal.asArray).Perm
      ((pre ++ t :: post).flatMap tableSlots ++ q.flatMap JVal.asArray) := by
  rw [← Multiset.coe_eq_coe] at h ⊢
  simp only [List.flatMap_append, List.flatMap_cons, ← Multiset.coe_add] at h ⊢
  generalize ((pre.flatMap tableSlots : List JVal) : Multiset JVal) = A
  generalize ((post.flatMap tableSlots : List JVal) : Multiset JVal) = B
  calc A + (↑(tableSlots t') + B) + ↑(q'.flatMap JVal.asArray)
      = (↑(tableSlots t') + ↑(q'.flatMap JVal.asArray)) + (A + B) := by abel
    _ = (↑(tableSlots t) + ↑(q.flatMap JVal.asArray)) + (A + B) := by rw [h]
    _ = _ := by abel

theorem processRoundEnd_slots (fecha : String) (s : State) (tableId : Nat) (g : Lado)
    (htyped : ∀ v ∈ slots s, ∃ n, v = JVal.num n)
    (hsolo : Modo.solo ∈ s.tables.map (fun t => t.modo) → ∀ e ∈ s.queue, e.isArray = false) :
    (slots (processRoundEnd fecha s tableId g)).Perm (slots s) := by
  unfold processRoundEnd
  cases hfind : findTable s.tables tableId with
  | none => exact List.Perm.refl _
  | some table =>
    obtain ⟨pre, post, h1, h2⟩ := replaceTable_split hfind
    simp only [slots, h2]
    rw [h1]
    apply slots_frame
    have hmem : table ∈ s.tables := by rw [h1]; simp
    have hl : ∀ v ∈ (table.side g.other).playerIds, v.isArray = false := by
      intro v hv
      have : v ∈ slots s := by
        unfold slots
        apply List.mem_append_left
        rw [List.mem_flatMap]
        refine ⟨table, hmem, ?_⟩
        exact (tableSlots_perm table g).mem_iff.mpr (List.mem_append_right _ hv)
      obtain ⟨n, rfl⟩ := htyped v this
      rfl
    have hq : table.modo = .solo → ∀ e ∈ s.queue, e.isArray = false := by
      intro hm
      apply hsolo
      rw [List.mem_map]
      exact ⟨table, hmem, hm⟩
    have key := rotate_perm table.modo s.queue (table.side g.other).playerIds hl hq
    refine ((tableSlots_set_perm table g.other _).append_right _).trans ?_
    refine List.Perm.trans ?_ ((tableSlots_perm table g).append_right _).symm
    rw [other_other]
    rw [← Multiset.coe_eq_coe] at key ⊢
    simp only [← Multiset.coe_add] at key ⊢
    generalize ((table.side g).playerIds : Multiset JVal) = W at *
    calc _ = (↑(rotate table.modo s.queue (table.side g.other).playerIds).1 +
          ↑((rotate table.modo s.queue (table.side g.other).playerIds).2.flatMap JVal.asArray)) + W := by
            abel
      _ = _ := by rw [key]; abel

theorem updateStats_map_id (players : List Player) (w l : List JVal) :
    (updateStats players w l).map (fun p => p.id) = players.map (fun p => p.id) := by
  have hfold : ∀ (f : Player → Player), (∀ p, (f p).id = p.id) → ∀ (ids : List JVal)
      (ps : List Player),
      (ids.foldl (bumpFirst f) ps).map (fun p => p.id) = ps.map (fun p => p.id) := by
    intro f hf ids
    induction ids with
    | nil => intro ps; rfl
    | cons v vs ih =>
      intro ps
      rw [List.foldl_cons, ih, bumpFirst_map_id f hf]
  unfold updateStats
  have e1 : bumpVictorias = bumpFirst (fun p => { p with victorias := p.victorias + 1 }) := rfl
  have e2 : bumpDerrotas = bumpFirst (fun p => { p with derrotas := p.derrotas + 1 }) := rfl
  rw [e1, e2, hfold (fun p => { p with derrotas := p.derrotas + 1 }) (fun _ => rfl),
    hfold (fun p => { p with victorias := p.victorias + 1 }) (fun _ => rfl)]

theorem replaceTable_map {β : Type} (f : Table → β) {ts : List Table} {tableId : Nat}
    {t t' : Table} (h : findTable ts tableId = some t) (hf : f t' = f t) :
    (replaceTable tableId t' ts).map f = ts.map f := by
  obtain ⟨pre, post, h1, h2⟩ := replaceTable_split h
  rw [h2, h1]
  simp [hf]

theorem rotate_queue_mem_solo {q l : List JVal} {e : JVal}
    (h : e ∈ (rotate .solo q l).2) : e ∈ q ∨ e ∈ l := by
  unfold rotate at h
  cases hql : q ++ l with
  | nil => simp [hql] at h
  | cons a rest =>
    simp only [hql] at h
    have : e ∈ q ++ l := by rw [hql]; exact List.mem_cons_of_mem _ h
    exact List.mem_append.mp this

theorem mem_slots_of_side {s : State} {t : Table} (ht : t ∈ s.tables) (l : Lado) {v : JVal}
    (hv : v ∈ (t.side l).playerIds) : v ∈ slots s := by
  unfold slots
  apply List.mem_append_left
  rw [List.mem_flatMap]
  refine ⟨t, ht, ?_⟩
  cases l
  · exact List.mem_append_left _ hv
  · exact List.mem_append_right _ hv

theorem findTable_mem {ts : List Table} {tableId : Nat} {t : Table}
    (h : findTable ts tableId = some t) : t ∈ ts :=
  List.mem_of_find?_eq_some h

theorem Inv.processRoundEnd {s : State} (hs : Inv s) (fecha : String) (tableId : Nat)
    (g : Lado) : Inv (processRoundEnd fecha s tableId g) := by
  have hperm := processRoundEnd_slots fecha s tableId g hs.typed hs.solo
  cases hfind : findTable s.tables tableId with
  | none =>
    have : PongGou.processRoundEnd fecha s tableId g = s := by
      simp only [PongGou.processRoundEnd, hfind]
    rw [this]; exact hs
  | some table =>
    have hmem := findTable_mem hfind
    have hplayers : (PongGou.processRoundEnd fecha s tableId g).players.map (fun p => p.id) =
        s.players.map (fun p => p.id) := by
      simp only [PongGou.processRoundEnd, hfind]
      exact updateStats_map_id _ _ _
    have hmodo : (PongGou.processRoundEnd fecha s tableId g).tables.map (fun t => t.modo) =
        s.tables.map (fun t => t.modo) := by
      simp only [PongGou.processRoundEnd, hfind]
      exact replaceTable_map _ hfind (by cases g <;> rfl)
    have hids : (PongGou.processRoundEnd fecha s tableId g).tables.map (fun t => t.id) =
        s.tables.map (fun t => t.id) := by
      simp only [PongGou.processRoundEnd, hfind]
      exact replaceTable_map _ hfind (by cases g <;> rfl)
    have hqueue : (PongGou.processRoundEnd fecha s tableId g).queue =
        (rotate table.modo s.queue (table.side g.other).playerIds).2 := by
      simp only [PongGou.processRoundEnd, hfind]
    refine ⟨?_, ?_, ?_, ?_, ?_, ?_, ?_⟩
    · rw [hplayers]; exact hs.roster
    · intro v hv
      exact hs.typed v (hperm.mem_iff.mp hv)
    · rw [hmodo, hqueue]
      intro hsolo e he
      have hm : table.modo = .solo :=
        hs.same _ (List.mem_map.mpr ⟨table, hmem, rfl⟩) _ hsolo
      rw [hm] at he
      rcases rotate_queue_mem_solo he with h | h
      · exact hs.solo hsolo e h
      · obtain ⟨n, rfl⟩ := hs.typed e (mem_slots_of_side hmem g.other h)
        rfl
    · rw [hmodo]; exact hs.same
    · rw [hids]; exact hs.tids
    · exact hperm.nodup_iff.mpr hs.nodup
    · intro n hn
      rw [hplayers]
      exact hs.sub n (hperm.mem_iff.mp hn)
theorem slots_eq_of_map {s s' : State}
    (hsl : s'.tables.map tableSlots = s.tables.map tableSlots) (hq : s'.queue = s.queue) :
    slots s' = slots s := by
  simp only [slots, hq, List.flatMap_def, hsl]

theorem Inv.congr {s s' : State} (hs : Inv s)
    (hp : s'.players.map (fun p => p.id) = s.players.map (fun p => p.id))
    (hm : s'.tables.map (fun t => t.modo) = s.tables.map (fun t => t.modo))
    (hi : s'.tables.map (fun t => t.id) = s.tables.map (fun t => t.id))
    (hsl : s'.tables.map tableSlots = s.tables.map tableSlots)
    (hq : s'.queue = s.queue) : Inv s' := by
  have hslots := slots_eq_of_map hsl hq
  refine ⟨?_, ?_, ?_, ?_, ?_, ?_, ?_⟩
  · rw [hp]; exact hs.roster
  · rw [hslots]; exact hs.typed
  · rw [hm, hq]; exact hs.solo
  · rw [hm]; exact hs.same
  · rw [hi]; exact hs.tids
  · rw [hslots]; exact hs.nodup
  · rw [hslots, hp]; exact hs.sub

theorem Inv.toggleMode {s : State} (hs : Inv s) (modo : Modo) : Inv (toggleMode s modo) := by
  unfold PongGou.toggleMode
  split
  · exact hs
  · exact hs.congr rfl rfl rfl rfl rfl

theorem scorePoint_frame (table : Table) (lado : Lado) :
    (scorePoint table lado).id = table.id ∧ (scorePoint table lado).modo = table.modo ∧
    (scorePoint table lado).ladoA.playerIds = table.ladoA.playerIds ∧
    (scorePoint table lado).ladoB.playerIds = table.ladoB.playerIds := by
  unfold scorePoint
  cases lado <;> simp only <;> split_ifs <;> exact ⟨rfl, rfl, rfl, rfl⟩

theorem Inv.addPoint {s : State} (hs : Inv s) (tableId : Nat) (lado : Lado) :
    Inv (addPoint s tableId lado).1 := by
  unfold PongGou.addPoint
  cases hfind : findTable s.tables tableId with
  | none => exact hs
  | some table =>
    obtain ⟨h1, h2, h3, h4⟩ := scorePoint_frame table lado
    have h5 : tableSlots (scorePoint table lado) = tableSlots table := by
      unfold tableSlots; rw [h3, h4]
    simp only
    split
    · exact hs
    · split
      all_goals
        exact hs.congr rfl (replaceTable_map _ hfind h2) (replaceTable_map _ hfind h1)
          (replaceTable_map _ hfind h5) rfl
theorem le_foldl_max (l : List Nat) (a : Nat) :
    a ≤ l.foldl max a ∧ ∀ x ∈ l, x ≤ l.foldl max a := by
  induction l generalizing a with
  | nil => simp
  | cons y ys ih =>
    rw [List.foldl_cons]
    obtain ⟨h1, h2⟩ := ih (max a y)
    refine ⟨le_trans (le_max_left a y) h1, ?_⟩
    intro x hx
    rcases List.mem_cons.mp hx with rfl | hx
    · exact le_trans (le_max_right a x) h1
    · exact h2 x hx

theorem getNextPlayerId_fresh (s : State) :
    ∀ n ∈ s.players.map (fun p => p.id), n < getNextPlayerId s := by
  intro n hn
  unfold getNextPlayerId
  split
  · rename_i h
    rw [List.length_eq_zero] at h
    rw [h] at hn
    simp at hn
  · exact Nat.lt_succ_of_le ((le_foldl_max _ 0).2 n hn)

theorem addPlayer_cases (trim lower : String → String) (s : State) (nombre : String) :
    addPlayer trim lower s nombre = s ∨
    addPlayer trim lower s nombre =
      { s with
        players := s.players ++ [⟨getNextPlayerId s, trim nombre, 0, 0⟩]
        queue := s.queue ++ [JVal.num (getNextPlayerId s)] } := by
  unfold addPlayer
  simp only
  split
  · exact Or.inl rfl
  · split
    · exact Or.inl rfl
    · right
      cases h : s.settings.modo <;> simp

theorem Inv.addPlayer {s : State} (hs : Inv s) (trim lower : String → String)
    (nombre : String) : Inv (addPlayer trim lower s nombre) := by
  rcases addPlayer_cases trim lower s nombre with h | h
  · rw [h]; exact hs
  · rw [h]
    have hfresh : getNextPlayerId s ∉ s.players.map (fun p => p.id) :=
      fun hmem => lt_irrefl _ (getNextPlayerId_fresh s _ hmem)
    have hslots : slots { s with
        players := s.players ++ [⟨getNextPlayerId s, trim nombre, 0, 0⟩]
        queue := s.queue ++ [JVal.num (getNextPlayerId s)] } =
        slots s ++ [JVal.num (getNextPlayerId s)] := by
      simp [slots, List.flatMap_append, JVal.asArray]
    refine ⟨?_, ?_, ?_, ?_, ?_, ?_, ?_⟩
    · simp only [List.map_append, List.map_cons, List.map_nil]
      rw [List.nodup_append]
      refine ⟨hs.roster, List.nodup_singleton _, ?_⟩
      intro a ha hb
      rw [List.mem_singleton] at hb
      exact hfresh (hb ▸ ha)
    · rw [hslots]
      intro v hv
      rcases List.mem_append.mp hv with hv | hv
      · exact hs.typed v hv
      · exact ⟨_, List.mem_singleton.mp hv⟩
    · intro hsolo e he
      rcases List.mem_append.mp he with he | he
      · exact hs.solo hsolo e he
      · rw [List.mem_singleton.mp he]; rfl
    · exact hs.same
    · exact hs.tids
    · rw [hslots, List.nodup_append]
      refine ⟨hs.nodup, List.nodup_singleton _, ?_⟩
      intro a ha hb
      rw [List.mem_singleton] at hb
      subst hb
      exact hfresh (hs.sub _ ha)
    · rw [hslots]
      intro n hn
      simp only [List.map_append, List.map_cons, List.map_nil]
      rcases List.mem_append.mp hn with hn | hn
      · exact List.mem_append_left _ (hs.sub n hn)
      · have := List.mem_singleton.mp hn
        injection this with this
        exact List.mem_append_right _ (by simp [this])
theorem buildPairs_flatten (l : List JVal) : (buildPairs l).flatten = l := by
  induction l using buildPairs.induct with
  | case1 a b rest ih => simp [buildPairs, ih]
  | case2 a => simp [buildPairs]
  | case3 => simp [buildPairs]

theorem buildPairs_step {l : List JVal} (h : 2 ≤ l.length) :
    ∃ a b rest, l = a :: b :: rest ∧ buildPairs l = [a, b] :: buildPairs rest := by
  match l, h with
  | a :: b :: rest, _ => exact ⟨a, b, rest, rfl, by simp only [buildPairs]⟩
  | [_], h => simp at h
  | [], h => simp at h

theorem buildPairs_four {l : List JVal} (h : 8 ≤ l.length) :
    ∃ p0 p1 p2 p3 rest, buildPairs l = p0 :: p1 :: p2 :: p3 :: rest := by
  obtain ⟨a1, a2, r1, e1, h1⟩ := buildPairs_step (l := l) (by omega)
  subst e1
  simp only [List.length_cons] at h
  obtain ⟨a3, a4, r2, e2, h2⟩ := buildPairs_step (l := r1) (by omega)
  subst e2
  simp only [List.length_cons] at h
  obtain ⟨a5, a6, r3, e3, h3⟩ := buildPairs_step (l := r2) (by omega)
  subst e3
  simp only [List.length_cons] at h
  obtain ⟨a7, a8, r4, e4, h4⟩ := buildPairs_step (l := r3) (by omega)
  exact ⟨_, _, _, _, _, by rw [h1, h2, h3, h4]⟩

theorem four_of_length {l : List JVal} (h : 4 ≤ l.length) :
    ∃ a b c d rest, l = a :: b :: c :: d :: rest := by
  match l, h with
  | a :: b :: c :: d :: rest, _ => exact ⟨a, b, c, d, rest, rfl⟩
  | [_, _, _], h => simp at h
  | [_, _], h => simp at h
  | [_], h => simp at h
  | [], h => simp at h

theorem flatMap_asArray_map_arr (ps : List (List JVal)) :
    (ps.map JVal.arr).flatMap JVal.asArray = ps.flatten := by
  induction ps with
  | nil => rfl
  | cons p ps ih => simp [List.flatMap_cons, JVal.asArray, ih]

theorem allIds_not_array (players : List Player) :
    ∀ v ∈ players.map (fun p => JVal.num p.id), v.isArray = false := by
  intro v hv
  obtain ⟨p, _, rfl⟩ := List.mem_map.mp hv
  rfl

theorem startSession_reject (s : State) (modo : Modo)
    (h : s.players.length < (if modo = .solo then 4 else 8)) : startSession s modo = s := by
  unfold startSession
  simp only [h, if_true]

theorem startSession_solo (s : State) (h : 4 ≤ s.players.length) :
    startSession s .solo =
      { s with
        settings := { s.settings with modo := .solo, sessionActive := true }
        tables :=
          [ { id := 1, modo := .solo,
              ladoA := ⟨[(s.players.map (fun p => JVal.num p.id)).getD 0 .undef], 0⟩,
              ladoB := ⟨[(s.players.map (fun p => JVal.num p.id)).getD 1 .undef], 0⟩,
              turnoSaque := none, blanqueoShown := none },
            { id := 2, modo := .solo,
              ladoA := ⟨[(s.players.map (fun p => JVal.num p.id)).getD 2 .undef], 0⟩,
              ladoB := ⟨[(s.players.map (fun p => JVal.num p.id)).getD 3 .undef], 0⟩,
              turnoSaque := none, blanqueoShown := none } ]
        queue := (s.players.map (fun p => JVal.num p.id)).drop 4 } := by
  unfold startSession
  have : ¬ s.players.length < 4 := by omega
  simp only [if_true, this, if_false]

theorem startSession_duo (s : State) (h : 8 ≤ s.players.length) :
    startSession s .duo =
      { s with
        settings := { s.settings with modo := .duo, sessionActive := true }
        tables :=
          [ { id := 1, modo := .duo,
              ladoA := ⟨(buildPairs (s.players.map (fun p => JVal.num p.id))).getD 0 [], 0⟩,
              ladoB := ⟨(buildPairs (s.players.map (fun p => JVal.num p.id))).getD 1 [], 0⟩,
              turnoSaque := none, blanqueoShown := none },
            { id := 2, modo := .duo,
              ladoA := ⟨(buildPairs (s.players.map (fun p => JVal.num p.id))).getD 2 [], 0⟩,
              ladoB := ⟨(buildPairs (s.players.map (fun p => JVal.num p.id))).getD 3 [], 0⟩,
              turnoSaque := none, blanqueoShown := none } ]
        queue := ((buildPairs (s.players.map (fun p => JVal.num p.id))).drop 4).map JVal.arr } := by
  unfold startSession
  have : ¬ s.players.length < 8 := by omega
  simp only [show (Modo.duo = Modo.solo) = False from by simp, if_false, this]

theorem startSession_slots (s : State) (modo : Modo)
    (h : ¬ s.players.length < (if modo = .solo then 4 else 8)) :
    slots (startSession s modo) = s.players.map (fun p => JVal.num p.id) := by
  cases modo with
  | solo =>
    simp only [if_true] at h
    rw [startSession_solo s (by omega)]
    have hlen : 4 ≤ (s.players.map (fun p => JVal.num p.id)).length := by
      rw [List.length_map]; omega
    have hna := allIds_not_array s.players
    generalize s.players.map (fun p => JVal.num p.id) = ids at hlen hna ⊢
    obtain ⟨a, b, c, d, rest, rfl⟩ := four_of_length hlen
    have hrest : rest.flatMap JVal.asArray = rest :=
      flatMap_asArray_of_not_array (fun v hv => hna v (by simp [hv]))
    simp [slots, tableSlots, hrest]
  | duo =>
    simp only [show (Modo.duo = Modo.solo) = False from by simp, if_false] at h
    rw [startSession_duo s (by omega)]
    have hlen : 8 ≤ (s.players.map (fun p => JVal.num p.id)).length := by
      rw [List.length_map]; omega
    generalize s.players.map (fun p => JVal.num p.id) = ids at hlen ⊢
    obtain ⟨p0, p1, p2, p3, rest, hp⟩ := buildPairs_four hlen
    have hfl := buildPairs_flatten ids
    rw [hp] at hfl
    simp only [slots, tableSlots, hp, List.getD_cons_zero, List.getD_cons_succ, List.drop_succ_cons,
      List.drop_zero, flatMap_asArray_map_arr, List.flatMap_cons, List.flatMap_nil,
      List.append_nil]
    rw [← hfl]
    simp [List.flatten_cons]

theorem Inv.startSession {s : State} (hs : Inv s) (modo : Modo) : Inv (startSession s modo) := by
  by_cases h : s.players.length < (if modo = .solo then 4 else 8)
  · rw [startSession_reject s modo h]; exact hs
  · have hslots := startSession_slots s modo h
    have hplayers : (PongGou.startSession s modo).players = s.players := by
      cases modo
      · simp only [if_true] at h; rw [startSession_solo s (by omega)]
      · simp only [show (Modo.duo = Modo.solo) = False from by simp, if_false] at h
        rw [startSession_duo s (by omega)]
    have hmodo : (PongGou.startSession s modo).tables.map (fun t => t.modo) = [modo, modo] := by
      cases modo
      · simp only [if_true] at h; rw [startSession_solo s (by omega)]; rfl
      · simp only [show (Modo.duo = Modo.solo) = False from by simp, if_false] at h
        rw [startSession_duo s (by omega)]; rfl
    have hids : (PongGou.startSession s modo).tables.map (fun t => t.id) = [1, 2] := by
      cases modo
      · simp only [if_true] at h; rw [startSession_solo s (by omega)]; rfl
      · simp only [show (Modo.duo = Modo.solo) = False from by simp, if_false] at h
        rw [startSession_duo s (by omega)]; rfl
    refine ⟨?_, ?_, ?_, ?_, ?_, ?_, ?_⟩
    · rw [hplayers]; exact hs.roster
    · rw [hslots]
      intro v hv
      obtain ⟨p, _, rfl⟩ := List.mem_map.mp hv
      exact ⟨_, rfl⟩
    · rw [hmodo]
      intro hsolo e he
      have hm : modo = .solo := by
        simp only [List.mem_cons, List.mem_singleton, List.not_mem_nil, or_false, or_self] at hsolo
        exact hsolo.symm
      subst hm
      simp only [if_true] at h
      rw [startSession_solo s (by omega)] at he
      exact allIds_not_array s.players e (List.mem_of_mem_drop he)
    · rw [hmodo]
      intro m hm m' hm'
      simp only [List.mem_cons, List.mem_singleton, List.not_mem_nil, or_false, or_self] at hm hm'
      rw [hm, hm']
    · rw [hids]; decide
    · rw [hslots]
      have : s.players.map (fun p => JVal.num p.id) =
          (s.players.map (fun p => p.id)).map JVal.num := by
        rw [List.map_map]; rfl
      rw [this]
      exact hs.roster.map (fun a b hab => by injection hab)
    · rw [hslots, hplayers]
      intro n hn
      obtain ⟨p, hp, hpn⟩ := List.mem_map.mp hn
      injection hpn with hpn
      exact List.mem_map.mpr ⟨p, hp, hpn⟩
theorem removeFromQueue_flat (n : Nat) (q : List JVal) :
    (removeFromQueue n q).1.flatMap JVal.asArray =
      (q.flatMap JVal.asArray).filter (fun v => !v.isNum n) := by
  induction q with
  | nil => rfl
  | cons e rest ih =>
    rw [List.flatMap_cons, List.filter_append, ← ih]
    cases e with
    | arr xs =>
      simp only [removeFromQueue, JVal.asArray]
      split
      · rw [List.flatMap_cons]; rfl
      · rename_i h
        have : xs.filter (fun id => !id.isNum n) = [] := by
          rw [← List.length_eq_zero]; omega
        rw [this]; rfl
    | undef =>
      simp only [removeFromQueue, JVal.isNum, JVal.asArray]
      rfl
    | num m =>
      simp only [removeFromQueue, JVal.asArray]
      by_cases h : (JVal.num m).isNum n = true
      · simp [h]
      · simp only [h, if_false, Bool.false_eq_true]
        rw [List.flatMap_cons]
        simp [h, JVal.asArray]

theorem removeFromQueue_not_array (n : Nat) {q : List JVal}
    (h : ∀ e ∈ q, e.isArray = false) : ∀ e ∈ (removeFromQueue n q).1, e.isArray = false := by
  induction q with
  | nil => intro e he; simp [removeFromQueue] at he
  | cons a rest ih =>
    have ha := h a (List.mem_cons_self _ _)
    have ih' := ih (fun e he => h e (List.mem_cons_of_mem _ he))
    intro e he
    cases a with
    | arr xs => simp [JVal.isArray] at ha
    | undef =>
      simp only [removeFromQueue, JVal.isNum] at he
      rcases List.mem_cons.mp he with rfl | he
      · rfl
      · exact ih' e he
    | num m =>
      simp only [removeFromQueue] at he
      split at he
      · exact ih' e he
      · rcases List.mem_cons.mp he with rfl | he
        · rfl
        · exact ih' e he

theorem findSeat_some {n : Nat} {ts : List Table} {i : Nat} {l : Lado}
    (h : findSeat n ts = some (i, l)) :
    ∃ t, ts.get? i = some t ∧ JVal.num n ∈ (t.side l).playerIds := by
  induction ts generalizing i with
  | nil => simp [findSeat] at h
  | cons a rest ih =>
    unfold findSeat at h
    split at h
    · rename_i ha
      injection h with h
      injection h with h1 h2
      subst h1 h2
      exact ⟨a, rfl, mem_idsOf.mp (any_isNum_iff.mp ha)⟩
    · split at h
      · rename_i hb
        injection h with h
        injection h with h1 h2
        subst h1 h2
        exact ⟨a, rfl, mem_idsOf.mp (any_isNum_iff.mp hb)⟩
      · cases hrec : findSeat n rest with
        | none => simp [hrec] at h
        | some r =>
          obtain ⟨j, l'⟩ := r
          simp only [hrec, Option.map_some', Option.some.injEq, Prod.mk.injEq] at h
          obtain ⟨h1, h2⟩ := h
          subst h1 h2
          obtain ⟨t, ht, hn⟩ := ih hrec
          exact ⟨t, by simpa using ht, hn⟩

theorem findSeat_none {n : Nat} {ts : List Table} (h : findSeat n ts = none) :
    JVal.num n ∉ ts.flatMap tableSlots := by
  induction ts with
  | nil => simp
  | cons a rest ih =>
    unfold findSeat at h
    split at h
    · simp at h
    · split at h
      · simp at h
      · rename_i ha hb
        have hrec : findSeat n rest = none := by
          cases hr : findSeat n rest with
          | none => rfl
          | some r => simp [hr] at h
        rw [List.flatMap_cons, List.mem_append]
        rintro (hmem | hmem)
        · unfold tableSlots at hmem
          rcases List.mem_append.mp hmem with hm | hm
          · exact ha (any_isNum_iff.mpr (mem_idsOf.mpr hm))
          · exact hb (any_isNum_iff.mpr (mem_idsOf.mpr hm))
        · exact ih hrec hmem

theorem modifyTableAt_split {ts : List Table} {i : Nat} {t : Table}
    (h : ts.get? i = some t) :
    ∃ pre post, ts = pre ++ t :: post ∧ ∀ f, modifyTableAt f i ts = pre ++ f t :: post := by
  induction ts generalizing i with
  | nil => simp at h
  | cons a rest ih =>
    cases i with
    | zero =>
      simp only [List.get?_cons_zero, Option.some.injEq] at h
      subst h
      exact ⟨[], rest, rfl, fun f => rfl⟩
    | succ j =>
      simp only [List.get?_cons_succ] at h
      obtain ⟨pre, post, h1, h2⟩ := ih h
      exact ⟨a :: pre, post, by rw [h1]; rfl, fun f => by simp [modifyTableAt, h2]⟩

theorem findTable_of_get {ts : List Table} {i : Nat} {t : Table}
    (hnd : (ts.map (fun t => t.id)).Nodup) (h : ts.get? i = some t) :
    findTable ts t.id = some t := by
  induction ts generalizing i with
  | nil => simp at h
  | cons a rest ih =>
    rw [List.map_cons, List.nodup_cons] at hnd
    cases i with
    | zero =>
      simp only [List.get?_cons_zero, Option.some.injEq] at h
      subst h
      simp [findTable]
    | succ j =>
      simp only [List.get?_cons_succ] at h
      have hmem : t ∈ rest := List.get?_mem h
      have hne : (a.id == t.id) = false := by
        rw [beq_eq_false_iff_ne]
        intro heq
        exact hnd.1 (heq ▸ List.mem_map_of_mem (fun t => t.id) hmem)
      unfold findTable
      rw [List.find?_cons, hne]
      exact ih hnd.2 h
theorem slots_frame_extra (pre post : List Table) (t t' : Table) (q q' extra : List JVal)
    (h : (tableSlots t' ++ q'.flatMap JVal.asArray ++ extra).Perm
      (tableSlots t ++ q.flatMap JVal.asArray)) :
    ((pre ++ t' :: post).flatMap tableSlots ++ q'.flatMap JVal.asArray ++ extra).Perm
      ((pre ++ t :: post).flatMap tableSlots ++ q.flatMap JVal.asArray) := by
  rw [← Multiset.coe_eq_coe] at h ⊢
  simp only [List.flatMap_append, List.flatMap_cons, ← Multiset.coe_add] at h ⊢
  generalize ((pre.flatMap tableSlots : List JVal) : Multiset JVal) = A
  generalize ((post.flatMap tableSlots : List JVal) : Multiset JVal) = B
  calc A + (↑(tableSlots t') + B) + ↑(q'.flatMap JVal.asArray) + ↑extra
      = (↑(tableSlots t') + ↑(q'.flatMap JVal.asArray) + ↑extra) + (A + B) := by abel
    _ = (↑(tableSlots t) + ↑(q.flatMap JVal.asArray)) + (A + B) := by rw [h]
    _ = _ := by abel

theorem Inv.shrink {s s1 : State} (hs : Inv s)
    (hp : s1.players.map (fun p => p.id) = s.players.map (fun p => p.id))
    (hm : s1.tables.map (fun t => t.modo) = s.tables.map (fun t => t.modo))
    (hi : s1.tables.map (fun t => t.id) = s.tables.map (fun t => t.id))
    (hq : ∀ e ∈ s1.queue, e ∈ s.queue)
    (extra : List JVal) (hperm : (slots s1 ++ extra).Perm (slots s)) :
    Inv s1 ∧ ∀ v ∈ extra, v ∉ slots s1 := by
  have hnd : (slots s1 ++ extra).Nodup := hperm.nodup_iff.mpr hs.nodup
  have hsub : ∀ v ∈ slots s1, v ∈ slots s :=
    fun v hv => hperm.mem_iff.mp (List.mem_append_left _ hv)
  refine ⟨⟨?_, ?_, ?_, ?_, ?_, ?_, ?_⟩, ?_⟩
  · rw [hp]; exact hs.roster
  · exact fun v hv => hs.typed v (hsub v hv)
  · rw [hm]
    exact fun hsolo e he => hs.solo hsolo e (hq e he)
  · rw [hm]; exact hs.same
  · rw [hi]; exact hs.tids
  · exact hnd.of_append_left
  · rw [hp]
    exact fun n hn => hs.sub n (hsub _ hn)
  · intro v hv hv1
    exact (List.nodup_append.mp hnd).2.2 hv1 hv

theorem refill_flat (modo : Modo) (q : List JVal)
    (hq : modo = .solo → ∀ e ∈ q, e.isArray = false) :
    (refill modo q).1 ++ (refill modo q).2.flatMap JVal.asArray = q.flatMap JVal.asArray := by
  cases q with
  | nil => cases modo <;> rfl
  | cons h rest =>
    cases modo with
    | solo =>
      simp only [refill, List.flatMap_cons]
      rw [asArray_of_not_array (hq rfl h (List.mem_cons_self _ _))]
    | duo => simp only [refill, List.flatMap_cons]

theorem refill_queue_mem (modo : Modo) (q : List JVal) : ∀ e ∈ (refill modo q).2, e ∈ q := by
  intro e he
  cases q with
  | nil => cases modo <;> simp [refill] at he
  | cons h rest =>
    cases modo <;> simp only [refill] at he <;> exact List.mem_cons_of_mem _ he

theorem processForfeit_shrink {s : State} (hs : Inv s) (fecha : String) (tableId : Nat)
    (l : Lado) (n : Nat) (table : Table) (hfind : findTable s.tables tableId = some table) :
    Inv (processForfeit fecha s tableId l n) ∧
      ∀ v ∈ (table.side l).playerIds, v ∉ slots (processForfeit fecha s tableId l n) := by
  have hmem := findTable_mem hfind
  apply hs.shrink
  · simp only [processForfeit, hfind]
    exact updateStats_map_id _ _ _
  · simp only [processForfeit, hfind]
    exact replaceTable_map _ hfind (by cases l <;> rfl)
  · simp only [processForfeit, hfind]
    exact replaceTable_map _ hfind (by cases l <;> rfl)
  · simp only [processForfeit, hfind]
    exact refill_queue_mem _ _
  · obtain ⟨pre, post, h1, h2⟩ := replaceTable_split hfind
    simp only [processForfeit, hfind, slots, h2]
    rw [h1]
    apply slots_frame_extra
    have hq : table.modo = .solo → ∀ e ∈ s.queue, e.isArray = false := by
      intro hm
      apply hs.solo
      rw [List.mem_map]
      exact ⟨table, hmem, hm⟩
    have key := refill_flat table.modo s.queue hq
    have p1 := tableSlots_set_perm table l (refill table.modo s.queue).1
    have p2 := tableSlots_perm table l
    rw [← Multiset.coe_eq_coe] at p1 p2 ⊢
    simp only [← Multiset.coe_add] at p1 p2 ⊢
    rw [p1, p2, ← key, ← Multiset.coe_add]
    abel
theorem dropPlayer_ids (players : List Player) (n : Nat) :
    (dropPlayer players n).map (fun p => p.id) =
      (players.map (fun p => p.id)).filter (fun k => !(k == n)) := by
  unfold dropPlayer
  rw [List.filter_map]
  rfl

/-- The last two steps of every path of `removePlayer`. -/
theorem finishRemove_slots (s1 : State) (n : Nat) :
    slots { (removeFromAllQueues s1 n).1 with
        players := dropPlayer (removeFromAllQueues s1 n).1.players n } =
      s1.tables.flatMap tableSlots ++
        (s1.queue.flatMap JVal.asArray).filter (fun v => !v.isNum n) := by
  simp only [slots, removeFromAllQueues, removeFromQueue_flat]

theorem Inv.finishRemove {s1 : State} (hs1 : Inv s1) (n : Nat)
    (hn : JVal.num n ∉ s1.tables.flatMap tableSlots) :
    Inv { (removeFromAllQueues s1 n).1 with
        players := dropPlayer (removeFromAllQueues s1 n).1.players n } ∧
    JVal.num n ∉ slots { (removeFromAllQueues s1 n).1 with
        players := dropPlayer (removeFromAllQueues s1 n).1.players n } := by
  have hslots := finishRemove_slots s1 n
  have hsubl : (s1.tables.flatMap tableSlots ++
        (s1.queue.flatMap JVal.asArray).filter (fun v => !v.isNum n)).Sublist (slots s1) :=
    List.Sublist.append (List.Sublist.refl _) (List.filter_sublist _)
  have hnot : JVal.num n ∉ s1.tables.flatMap tableSlots ++
        (s1.queue.flatMap JVal.asArray).filter (fun v => !v.isNum n) := by
    intro h
    rcases List.mem_append.mp h with h | h
    · exact hn h
    · have := (List.mem_filter.mp h).2
      simp [JVal.isNum] at this
  refine ⟨⟨?_, ?_, ?_, ?_, ?_, ?_, ?_⟩, ?_⟩
  · show ((dropPlayer s1.players n).map (fun p => p.id)).Nodup
    rw [dropPlayer_ids]
    exact hs1.roster.sublist (List.filter_sublist _)
  · rw [hslots]
    exact fun v hv => hs1.typed v (hsubl.subset hv)
  · intro hsolo
    exact removeFromQueue_not_array n (hs1.solo hsolo)
  · exact hs1.same
  · exact hs1.tids
  · rw [hslots]
    exact hs1.nodup.sublist hsubl
  · rw [hslots]
    intro k hk
    show k ∈ (dropPlayer s1.players n).map (fun p => p.id)
    rw [dropPlayer_ids, List.mem_filter]
    refine ⟨hs1.sub k (hsubl.subset hk), ?_⟩
    have : k ≠ n := fun h => hnot (h ▸ hk)
    simpa using this
  · rw [hslots]; exact hnot

theorem mem_tables_slots {s : State} {v : JVal} (h : v ∈ s.tables.flatMap tableSlots) :
    v ∈ slots s :=
  List.mem_append_left _ h

theorem tableSlots_setPlayerIds_perm (t : Table) (l : Lado) (x : List JVal) :
    (tableSlots (t.setPlayerIds l x)).Perm (x ++ (t.side l.other).playerIds) := by
  cases l
  · exact List.Perm.refl _
  · exact List.perm_append_comm

theorem Inv.removePlayer {s : State} (hs : Inv s) (fecha : String) (ok : Bool) (n : Nat) :
    Inv (removePlayer fecha ok s n) ∧ (ok = true → JVal.num n ∉ slots (removePlayer fecha ok s n)) := by
  unfold PongGou.removePlayer
  cases ok with
  | false => exact ⟨hs, fun h => by simp at h⟩
  | true =>
    simp only [Bool.not_true, Bool.false_eq_true, if_false, forall_const]
    cases hseat : findSeat n s.tables with
    | none =>
      exact hs.finishRemove n (findSeat_none hseat)
    | some r =>
      obtain ⟨i, lado⟩ := r
      obtain ⟨table, hget, hmemn⟩ := findSeat_some hseat
      simp only [hget]
      split
      · -- forfeit
        have hfind := findTable_of_get hs.tids hget
        obtain ⟨h1, h2⟩ := processForfeit_shrink hs fecha table.id lado n table hfind
        exact h1.finishRemove n (fun h => h2 _ hmemn (mem_tables_slots h))
      · -- partial removal
        obtain ⟨pre, post, e1, e2⟩ := modifyTableAt_split hget
        have hshrink := @Inv.shrink s
          { s with tables := modifyTableAt (fun t => t.setPlayerIds lado
            ((table.side lado).playerIds.filter (fun id => !id.isNum n))) i s.tables }
          hs rfl
          (by simp only [e2]; rw [e1]; cases lado <;> simp [Table.setPlayerIds])
          (by simp only [e2]; rw [e1]; cases lado <;> simp [Table.setPlayerIds])
          (fun e he => he)
          ((table.side lado).playerIds.filter (fun id => id.isNum n))
          (by
            simp only [slots, e2]
            rw [e1]
            have p0 : ∀ a b c : List JVal, (a ++ b ++ c).Perm (a ++ c ++ b) := by
              intro a b c
              rw [← Multiset.coe_eq_coe]
              simp only [← Multiset.coe_add]
              abel
            refine (p0 _ _ _).trans ?_
            have := slots_frame_extra pre post table
              (table.setPlayerIds lado ((table.side lado).playerIds.filter (fun id => !id.isNum n)))
              s.queue s.queue ((table.side lado).playerIds.filter (fun id => id.isNum n))
            refine (p0 _ _ _).trans (this ?_)
            refine (p0 _ _ _).trans (List.Perm.append_right _ ?_)
            have p1 := tableSlots_setPlayerIds_perm table lado
              ((table.side lado).playerIds.filter (fun id => !id.isNum n))
            have p2 := tableSlots_perm table lado
            have p3 := List.filter_append_perm (fun id : JVal => id.isNum n)
              (table.side lado).playerIds
            rw [← Multiset.coe_eq_coe] at p1 p2 p3 ⊢
            simp only [← Multiset.coe_add] at p1 p2 p3 ⊢
            rw [p1, p2, ← p3]
            abel)
        refine hshrink.1.finishRemove n (fun h => hshrink.2 _ ?_ (mem_tables_slots h))
        exact List.mem_filter.mpr ⟨hmemn, by simp [JVal.isNum]⟩

theorem Inv.initial : Inv initialState := by
  refine ⟨?_, ?_, ?_, ?_, ?_, ?_, ?_⟩
  · exact List.nodup_nil
  · intro v hv; simp [slots, initialState, tableSlots] at hv
  · intro _ e he; simp [initialState] at he
  · intro m hm m' hm'
    simp only [initialState, List.map_cons, List.map_nil, List.mem_cons, List.mem_singleton,
      List.not_mem_nil, or_false, or_self] at hm hm'
    rw [hm, hm']
  · decide
  · simp [slots, initialState, tableSlots]
  · intro n hn; simp [slots, initialState, tableSlots] at hn

theorem Reachable.inv {s : State} (h : Reachable s) : Inv s := by
  induction h with
  | init => exact Inv.initial
  | addPlayer trim lower nombre _ ih => exact ih.addPlayer trim lower nombre
  | removePlayer fecha ok playerId _ ih => exact (ih.removePlayer fecha ok playerId).1
  | toggleMode modo _ ih => exact ih.toggleMode modo
  | startSession modo _ ih => exact ih.startSession modo
  | addPoint tableId lado _ ih => exact ih.addPoint tableId lado
  | processRoundEnd fecha tableId lado _ ih => exact ih.processRoundEnd fecha tableId lado

theorem countP_isNum_le_one {l : List JVal} (h : l.Nodup) (n : Nat) :
    l.countP (fun v => v.isNum n) ≤ 1 := by
  induction l with
  | nil => simp
  | cons a as ih =>
    rw [List.nodup_cons] at h
    rw [List.countP_cons]
    by_cases ha : a.isNum n = true
    · have hz : as.countP (fun v => v.isNum n) = 0 := by
        rw [List.countP_eq_zero]
        intro b hb hbn
        rw [isNum_eq_true] at ha hbn
        exact h.1 (ha ▸ hbn ▸ hb)
      simp [ha, hz]
    · simp only [ha, Bool.false_eq_true, if_false, Nat.add_zero]
      exact ih h.2

/-- C4: in every state reached from the empty initial state by any sequence of
`addPlayer`, `removePlayer`, mode toggle, `startSession`, `addPoint` and
`processRoundEnd`, every player id occurs at most once among the occupants of
the table sides and the members of the queue units. -/
theorem player_occurs_at_most_once (s : State) (h : Reachable s) (n : Nat) :
    occurrences n s ≤ 1 :=
  countP_isNum_le_one h.inv.nodup n

/-- Witness of C4: the state after adding one player to the empty state. -/
theorem player_occurs_at_most_once_witness :
    Reachable (addPlayer (fun x => x) (fun x => x) initialState "P1") ∧
      occurrences 1 (addPlayer (fun x => x) (fun x => x) initialState "P1") ≤ 1 :=
  ⟨Reachable.addPlayer _ _ "P1" Reachable.init,
    player_occurs_at_most_once _ (Reachable.addPlayer _ _ "P1" Reachable.init) 1⟩

/-! ### The end-to-end scenario -/

theorem addPlayer_accept (trim lower : String → String) (s : State) (nombre : String)
    (h1 : trim nombre ≠ "")
    (h2 : ∀ p ∈ s.players, lower p.nombre ≠ lower (trim nombre)) :
    addPlayer trim lower s nombre =
      { s with
        players := s.players ++ [⟨getNextPlayerId s, trim nombre, 0, 0⟩]
        queue := s.queue ++ [JVal.num (getNextPlayerId s)] } := by
  unfold addPlayer
  have h3 : s.players.any (fun p => lower p.nombre == lower (trim nombre)) = false := by
    rw [List.any_eq_false]
    intro p hp
    simpa using h2 p hp
  simp only [h1, if_false, h3, Bool.false_eq_true]
  cases h : s.settings.modo <;> simp

theorem seed_five (trim lower : String → String) (n1 n2 n3 n4 n5 : String)
    (hne : ∀ n ∈ [n1, n2, n3, n4, n5], trim n ≠ "")
    (hdis : ([n1, n2, n3, n4, n5].map (fun n => lower (trim n))).Nodup) :
    scenarioStart trim lower n1 n2 n3 n4 n5 =
      soloMid (fivePlayers (trim n1) (trim n2) (trim n3) (trim n4) (trim n5)) 0 0 none := by
  simp only [List.map_cons, List.map_nil, List.nodup_cons, List.mem_cons, List.mem_singleton,
    List.not_mem_nil, or_false, not_or, List.nodup_nil, and_true] at hdis
  obtain ⟨⟨d12, d13, d14, d15⟩, ⟨d23, d24, d25⟩, ⟨d34, d35⟩, d45, -⟩ := hdis
  have e1 := hne n1 (by simp)
  have e2 := hne n2 (by simp)
  have e3 := hne n3 (by simp)
  have e4 := hne n4 (by simp)
  have e5 := hne n5 (by simp)
  unfold scenarioStart
  simp only [List.foldl_cons, List.foldl_nil]
  rw [addPlayer_accept trim lower initialState n1 e1 (by simp [initialState])]
  rw [addPlayer_accept trim lower _ n2 e2 (by simp [initialState]; exact d12)]
  rw [addPlayer_accept trim lower _ n3 e3 (by simp [initialState]; exact ⟨d13, d23⟩)]
  rw [addPlayer_accept trim lower _ n4 e4 (by simp [initialState]; exact ⟨d14, d24, d34⟩)]
  rw [addPlayer_accept trim lower _ n5 e5 (by simp [initialState]; exact ⟨d15, d25, d35, d45⟩)]
  rw [startSession_solo _ (by simp [initialState])]
  simp [initialState, getNextPlayerId, soloMid, fivePlayers, midTable, demoTable]

theorem scorePoint_midTable (a b : Nat) (fl : Option Bool) (lado : Lado)
    (hb : b + [lado].count .B ≤ 5) :
    ∃ fl', scorePoint (midTable a b fl) lado =
      midTable (a + [lado].count .A) (b + [lado].count .B) fl' := by
  unfold scorePoint midTable
  cases lado with
  | A =>
    have hb' : b ≤ 5 := by simpa using hb
    have h6 : ¬ (a = 6 ∧ b = 6) := by omega
    have h7 : ¬ (a + 1 ≥ 6 ∧ b ≥ 6) := by omega
    simp only [h6, if_false]
    split_ifs <;> exact ⟨_, rfl⟩
  | B =>
    have hb' : b + 1 ≤ 5 := by simpa using hb
    have h6 : ¬ (a = 6 ∧ b = 6) := by omega
    have h7 : ¬ (a ≥ 6 ∧ b + 1 ≥ 6) := by omega
    simp only [h6, if_false]
    split_ifs <;> exact ⟨_, rfl⟩

theorem addPoint_soloMid (ps : List Player) (a b : Nat) (fl : Option Bool) (lado : Lado)
    (hb : b + [lado].count .B ≤ 5) :
    ∃ fl', addPoint (soloMid ps a b fl) 1 lado =
      (soloMid ps (a + [lado].count .A) (b + [lado].count .B) fl',
        if checkWinner (a + [lado].count .A) (b + [lado].count .B) ≠ 0 then
          some (1, if checkWinner (a + [lado].count .A) (b + [lado].count .B) = 1 then Lado.A
            else Lado.B)
        else none) := by
  obtain ⟨fl', h⟩ := scorePoint_midTable a b fl lado hb
  refine ⟨fl', ?_⟩
  have hfind : findTable (soloMid ps a b fl).tables 1 = some (midTable a b fl) := rfl
  have hside : ¬ ((midTable a b fl).side lado).playerIds.length = 0 := by
    cases lado <;> simp [midTable, Table.side]
  unfold addPoint
  rw [hfind]
  simp only [h, hside, if_false]
  have hrep : replaceTable 1 (midTable (a + [lado].count .A) (b + [lado].count .B) fl')
      (soloMid ps a b fl).tables =
      (soloMid ps (a + [lado].count .A) (b + [lado].count .B) fl').tables := rfl
  rw [hrep]
  have e1 : (midTable (a + [lado].count .A) (b + [lado].count .B) fl').ladoA.score =
      a + [lado].count .A := rfl
  have e2 : (midTable (a + [lado].count .A) (b + [lado].count .B) fl').ladoB.score =
      b + [lado].count .B := rfl
  rw [e1, e2]
  split_ifs <;> rfl

theorem count_cons_split (l : Lado) (ls : List Lado) (c : Lado) (a : Nat) :
    a + (l :: ls).count c = (a + [l].count c) + ls.count c := by
  simp only [List.count_cons, List.count_nil]
  omega

theorem quiet_tail {a b : Nat} {l : Lado} {ls : List Lado}
    (hq : ∀ k, k < (l :: ls).length →
      checkWinner (a + ((l :: ls).take k).count .A) (b + ((l :: ls).take k).count .B) = 0) :
    ∀ k, k < ls.length →
      checkWinner (a + [l].count .A + (ls.take k).count .A)
        (b + [l].count .B + (ls.take k).count .B) = 0 := by
  intro k hk
  have := hq (k + 1) (by simpa using hk)
  rw [List.take_succ_cons, count_cons_split l (ls.take k) .A a,
    count_cons_split l (ls.take k) .B b] at this
  exact this

theorem playSync_quiet (fecha : String) (ps : List Player) (pts : List Lado) :
    ∀ (a b : Nat) (fl : Option Bool), pts ≠ [] → b + pts.count .B ≤ 5 →
      (∀ k, k < pts.length →
        checkWinner (a + (pts.take k).count .A) (b + (pts.take k).count .B) = 0) →
      checkWinner (a + pts.count .A) (b + pts.count .B) = 1 →
      ∃ fl', playSync fecha (soloMid ps a b fl) 1 pts =
        processRoundEnd fecha (soloMid ps (a + pts.count .A) (b + pts.count .B) fl') 1 .A := by
  induction pts with
  | nil => intro a b fl h; exact absurd rfl h
  | cons l ls ih =>
    intro a b fl _ hb hq hw
    have hb1 : b + [l].count .B ≤ 5 := by
      rw [count_cons_split l ls .B b] at hb; omega
    obtain ⟨fl1, h1⟩ := addPoint_soloMid ps a b fl l hb1
    rw [count_cons_split l ls .A a, count_cons_split l ls .B b] at hw
    have hcA := count_cons_split l ls .A a
    have hcB := count_cons_split l ls .B b
    cases ls with
    | nil =>
      simp only [List.count_nil, Nat.add_zero] at hw
      refine ⟨fl1, ?_⟩
      simp only [playSync, h1, hw]
      rfl
    | cons l2 ls2 =>
      have h0 : checkWinner (a + [l].count .A) (b + [l].count .B) = 0 := by
        have := hq 1 (by simp)
        simpa using this
      obtain ⟨fl', h2⟩ := ih (a + [l].count .A) (b + [l].count .B) fl1 (by simp)
        (by rw [count_cons_split l (l2 :: ls2) .B b] at hb; exact hb) (quiet_tail hq) hw
      refine ⟨fl', ?_⟩
      rw [hcA, hcB, ← h2]
      simp only [playSync, h1, h0]
      rfl

theorem playPoints_quiet (ps : List Player) (pts : List Lado) :
    ∀ (a b : Nat) (fl : Option Bool), pts ≠ [] → b + pts.count .B ≤ 5 →
      (∀ k, k < pts.length →
        checkWinner (a + (pts.take k).count .A) (b + (pts.take k).count .B) = 0) →
      checkWinner (a + pts.count .A) (b + pts.count .B) = 1 →
      ∃ fl', playPoints (soloMid ps a b fl) 1 pts =
        (soloMid ps (a + pts.count .A) (b + pts.count .B) fl', [(1, Lado.A)]) := by
  induction pts with
  | nil => intro a b fl h; exact absurd rfl h
  | cons l ls ih =>
    intro a b fl _ hb hq hw
    have hb1 : b + [l].count .B ≤ 5 := by
      rw [count_cons_split l ls .B b] at hb; omega
    obtain ⟨fl1, h1⟩ := addPoint_soloMid ps a b fl l hb1
    rw [count_cons_split l ls .A a, count_cons_split l ls .B b] at hw
    have hcA := count_cons_split l ls .A a
    have hcB := count_cons_split l ls .B b
    cases ls with
    | nil =>
      simp only [List.count_nil, Nat.add_zero] at hw
      refine ⟨fl1, ?_⟩
      simp only [playPoints, h1, hw]
      rfl
    | cons l2 ls2 =>
      have h0 : checkWinner (a + [l].count .A) (b + [l].count .B) = 0 := by
        have := hq 1 (by simp)
        simpa using this
      obtain ⟨fl', h2⟩ := ih (a + [l].count .A) (b + [l].count .B) fl1 (by simp)
        (by rw [count_cons_split l (l2 :: ls2) .B b] at hb; exact hb) (quiet_tail hq) hw
      refine ⟨fl', ?_⟩
      rw [hcA, hcB]
      have hcons : playPoints (soloMid ps a b fl) 1 (l :: l2 :: ls2) =
          ((playPoints (addPoint (soloMid ps a b fl) 1 l).1 1 (l2 :: ls2)).1,
            (addPoint (soloMid ps a b fl) 1 l).2.toList ++
              (playPoints (addPoint (soloMid ps a b fl) 1 l).1 1 (l2 :: ls2)).2) := rfl
      rw [hcons, h1]
      simp only [h0, h2]
      rfl

theorem roundEnd_soloMid (fecha : String) (n1 n2 n3 n4 n5 : String) (x : Nat)
    (fl : Option Bool) :
    SoloOutcome (processRoundEnd fecha (soloMid (fivePlayers n1 n2 n3 n4 n5) 7 x fl) 1 .A) x :=
  ⟨rfl, rfl, rfl, rfl⟩


theorem checkWinner_seven {b : Nat} (hb : b ≤ 5) : checkWinner 7 b = 1 := by
  unfold checkWinner
  split_ifs <;> first | rfl | omega | simp_all

/-- Counterexample to C6 as stated: seven points in a row for side A take A to
7 while B stays at 0, yet the round is decided by the shutout rule at 4-0.
When every scheduled round completion runs before the next point, the match is
logged at 4-0 and P1 then leads P5 by 3-0; when the completions run only after
the seventh point, two matches are logged.  In both cases the expected outcome
fails. -/
theorem shutout_breaks_scenario :
    (List.replicate 7 Lado.A).count .A = 7 ∧ (List.replicate 7 Lado.A).count .B ≤ 5 ∧
    ¬ SoloOutcome
      (playSync "t" (scenarioStart (fun x => x) (fun x => x) "P1" "P2" "P3" "P4" "P5") 1
        (List.replicate 7 Lado.A)) 0 ∧
    ¬ SoloOutcome
      (fireAll "t"
        (playPoints (scenarioStart (fun x => x) (fun x => x) "P1" "P2" "P3" "P4" "P5") 1
          (List.replicate 7 Lado.A)).1
        (playPoints (scenarioStart (fun x => x) (fun x => x) "P1" "P2" "P3" "P4" "P5") 1
          (List.replicate 7 Lado.A)).2) 0 := by
  have hseed := seed_five (fun x => x) (fun x => x) "P1" "P2" "P3" "P4" "P5"
    (by decide) (by decide)
  rw [hseed]
  refine ⟨by decide, by decide, ?_, ?_⟩
  · intro h
    have e : (playSync "t" (soloMid (fivePlayers "P1" "P2" "P3" "P4" "P5") 0 0 none) 1
        (List.replicate 7 Lado.A)).matchLog.map
          (fun m => (m.id, m.tableId, m.ganadorLado, m.scoreFinalA, m.scoreFinalB)) =
        [(1, 1, Lado.A, 4, 0)] := by decide
    have h1 := h.1
    rw [e] at h1
    exact absurd h1 (by decide)
  · intro h
    have e : (fireAll "t"
        (playPoints (soloMid (fivePlayers "P1" "P2" "P3" "P4" "P5") 0 0 none) 1
          (List.replicate 7 Lado.A)).1
        (playPoints (soloMid (fivePlayers "P1" "P2" "P3" "P4" "P5") 0 0 none) 1
          (List.replicate 7 Lado.A)).2).matchLog.map
          (fun m => (m.id, m.tableId, m.ganadorLado, m.scoreFinalA, m.scoreFinalB)) =
        [(1, 1, Lado.A, 7, 0), (2, 1, Lado.A, 0, 0)] := by decide
    have h1 := h.1
    rw [e] at h1
    exact absurd h1 (by decide)

/-- C6, amended: from the empty state in solo mode, adding five accepted
players and starting the session seats P1 against P2 on table 1, P3 against P4
on table 2, and leaves P5 in the queue.  Then for every sequence of points on
table 1 that takes side A to 7 with side B at 5 or below, and in which no
point before the last decides the round (no side reaches 4-0), the round is
logged as one match won by A at 7-x, P1 has one win, P2 one loss, and the
final state has P1 against P5 on table 1 at 0-0 with P2 alone in the queue;
exactly one round completion is scheduled, by the last point, so the outcome
is the same whether it runs at once or later. -/
theorem solo_scenario (trim lower : String → String) (n1 n2 n3 n4 n5 : String)
    (hne : ∀ n ∈ [n1, n2, n3, n4, n5], trim n ≠ "")
    (hdis : ([n1, n2, n3, n4, n5].map (fun n => lower (trim n))).Nodup)
    (fecha : String) (pts : List Lado)
    (hA : pts.count .A = 7) (hB : pts.count .B ≤ 5)
    (hquiet : ∀ k, k < pts.length →
      checkWinner ((pts.take k).count .A) ((pts.take k).count .B) = 0) :
    (scenarioStart trim lower n1 n2 n3 n4 n5).tables.map (fun t => (t.id, t.ladoA, t.ladoB)) =
      [(1, ⟨[.num 1], 0⟩, ⟨[.num 2], 0⟩), (2, ⟨[.num 3], 0⟩, ⟨[.num 4], 0⟩)] ∧
    (scenarioStart trim lower n1 n2 n3 n4 n5).queue = [.num 5] ∧
    SoloOutcome (playSync fecha (scenarioStart trim lower n1 n2 n3 n4 n5) 1 pts)
      (pts.count .B) ∧
    (playPoints (scenarioStart trim lower n1 n2 n3 n4 n5) 1 pts).2 = [(1, Lado.A)] ∧
    SoloOutcome
      (fireAll fecha (playPoints (scenarioStart trim lower n1 n2 n3 n4 n5) 1 pts).1
        (playPoints (scenarioStart trim lower n1 n2 n3 n4 n5) 1 pts).2) (pts.count .B) := by
  rw [seed_five trim lower n1 n2 n3 n4 n5 hne hdis]
  have hne' : pts ≠ [] := by
    intro h; rw [h] at hA; simp at hA
  have hw : checkWinner (0 + pts.count .A) (0 + pts.count .B) = 1 := by
    rw [hA, Nat.zero_add, Nat.zero_add]
    exact checkWinner_seven hB
  have hq' : ∀ k, k < pts.length →
      checkWinner (0 + (pts.take k).count .A) (0 + (pts.take k).count .B) = 0 := by
    intro k hk
    rw [Nat.zero_add, Nat.zero_add]
    exact hquiet k hk
  obtain ⟨fl1, h1⟩ := playSync_quiet fecha (fivePlayers (trim n1) (trim n2) (trim n3) (trim n4)
    (trim n5)) pts 0 0 none hne' (by omega) hq' hw
  obtain ⟨fl2, h2⟩ := playPoints_quiet (fivePlayers (trim n1) (trim n2) (trim n3) (trim n4)
    (trim n5)) pts 0 0 none hne' (by omega) hq' hw
  rw [hA, Nat.zero_add, Nat.zero_add] at h1 h2
  refine ⟨rfl, rfl, ?_, ?_, ?_⟩
  · rw [h1]
    exact roundEnd_soloMid _ _ _ _ _ _ _ _
  · rw [h2]
  · rw [h2]
    exact roundEnd_soloMid _ _ _ _ _ _ _ _

/-- Witness of C6: P1 scores, P2 scores once, and P1 scores six more points. -/
theorem solo_scenario_witness :
    SoloOutcome
      (playSync "t" (scenarioStart (fun x => x) (fun x => x) "P1" "P2" "P3" "P4" "P5") 1
        [.A, .B, .A, .A, .A, .A, .A, .A]) 1 :=
  (solo_scenario (fun x => x) (fun x => x) "P1" "P2" "P3" "P4" "P5" (by decide) (by decide) "t"
    [.A, .B, .A, .A, .A, .A, .A, .A] (by decide) (by decide) (by decide)).2.2.1

/-! ### Seeding -/

theorem buildPairs_eq_specUnits (l : List JVal) : buildPairs l = specUnits .duo l := by
  unfold specUnits
  induction l using buildPairs.induct with
  | case1 a b rest ih =>
    have hlen : ((a :: b :: rest).length + 1) / 2 = (rest.length + 1) / 2 + 1 := by
      simp only [List.length_cons]; omega
    simp only [hlen, buildPairs, ih, List.range_succ_eq_map, List.map_cons, List.map_map]
    refine congrArg₂ _ rfl (List.map_congr_left ?_)
    intro k _
    simp only [Function.comp]
    have : 2 * (k + 1) = 2 * k + 1 + 1 := by ring
    rw [this, List.drop_succ_cons, List.drop_succ_cons]
  | case2 a => simp [buildPairs, List.range_succ]
  | case3 => simp [buildPairs]

/-- C7: when the roster has at least 4 players (solo) or 8 players (duo),
`startSession` takes the units of the roster in insertion order as the
specification words them, seats the first four on sides A and B of table 1 and
A and B of table 2, makes the remaining units the queue in the same order,
sets all four scores to 0, and sets the mode and `sessionActive`.  With nine
players in duo mode the tables hold four pairs and the queue is `[[P9]]`. -/
theorem startSession_seeds (s : State) (modo : Modo)
    (h : (if modo = .solo then 4 else 8) ≤ s.players.length) :
    (∃ u1 u2 u3 u4 rest,
      specUnits modo (s.players.map (fun p => JVal.num p.id)) = u1 :: u2 :: u3 :: u4 :: rest ∧
      (startSession s modo).tables =
        [ { id := 1, modo := modo, ladoA := ⟨u1, 0⟩, ladoB := ⟨u2, 0⟩,
            turnoSaque := none, blanqueoShown := none },
          { id := 2, modo := modo, ladoA := ⟨u3, 0⟩, ladoB := ⟨u4, 0⟩,
            turnoSaque := none, blanqueoShown := none } ] ∧
      (startSession s modo).queue.map JVal.asArray = rest ∧
      (startSession s modo).settings = ⟨modo, true⟩) ∧
    (startSession (lobby ninePlayers .duo) .duo).tables =
      [demoTable 1 .duo [.num 1, .num 2] [.num 3, .num 4] 0 0,
        demoTable 2 .duo [.num 5, .num 6] [.num 7, .num 8] 0 0] ∧
    (startSession (lobby ninePlayers .duo) .duo).queue = [.arr [.num 9]] := by
  refine ⟨?_, rfl, rfl⟩
  cases modo with
  | solo =>
    simp only [if_true] at h
    rw [startSession_solo s h]
    have hlen : 4 ≤ (s.players.map (fun p => JVal.num p.id)).length := by
      rw [List.length_map]; exact h
    have hna := allIds_not_array s.players
    generalize s.players.map (fun p => JVal.num p.id) = ids at hlen hna ⊢
    obtain ⟨a, b, c, d, rest, rfl⟩ := four_of_length hlen
    refine ⟨[a], [b], [c], [d], rest.map (fun i => [i]), rfl, rfl, ?_, rfl⟩
    simp only [List.drop_succ_cons, List.drop_zero]
    apply List.map_congr_left
    intro v hv
    exact asArray_of_not_array (hna v (by simp [hv]))
  | duo =>
    simp only [show (Modo.duo = Modo.solo) = False from by simp, if_false] at h
    rw [startSession_duo s h]
    have hlen : 8 ≤ (s.players.map (fun p => JVal.num p.id)).length := by
      rw [List.length_map]; exact h
    generalize s.players.map (fun p => JVal.num p.id) = ids at hlen ⊢
    obtain ⟨p0, p1, p2, p3, rest, hp⟩ := buildPairs_four hlen
    refine ⟨p0, p1, p2, p3, rest, ?_, ?_, ?_, rfl⟩
    · rw [← buildPairs_eq_specUnits, hp]
    · simp only [hp, List.getD_cons_zero, List.getD_cons_succ]
    · simp only [hp, List.drop_succ_cons, List.drop_zero, List.map_map]
      exact (List.map_congr_left (fun _ _ => rfl)).trans (List.map_id _)

/-- Witness of C7: the roster of five players in solo mode. -/
theorem startSession_seeds_witness :
    (if Modo.solo = Modo.solo then 4 else 8) ≤ (lobby demoPlayers .solo).players.length ∧
    ∃ u1 u2 u3 u4 rest,
      specUnits .solo ((lobby demoPlayers .solo).players.map (fun p => JVal.num p.id)) =
        u1 :: u2 :: u3 :: u4 :: rest ∧
      (startSession (lobby demoPlayers .solo) .solo).tables =
        [ { id := 1, modo := .solo, ladoA := ⟨u1, 0⟩, ladoB := ⟨u2, 0⟩,
            turnoSaque := none, blanqueoShown := none },
          { id := 2, modo := .solo, ladoA := ⟨u3, 0⟩, ladoB := ⟨u4, 0⟩,
            turnoSaque := none, blanqueoShown := none } ] ∧
      (startSession (lobby demoPlayers .solo) .solo).queue.map JVal.asArray = rest ∧
      (startSession (lobby demoPlayers .solo) .solo).settings = ⟨.solo, true⟩ :=
  ⟨by decide, (startSession_seeds (lobby demoPlayers .solo) .solo (by decide)).1⟩

/-! ### Removal of a player -/

theorem slots_split_perm {s : State} {pre post : List Table} {t : Table}
    (h : s.tables = pre ++ t :: post) (l : Lado) :
    (slots s).Perm ((t.side l).playerIds ++
      ((t.side l.other).playerIds ++ pre.flatMap tableSlots ++ post.flatMap tableSlots ++
        s.queue.flatMap JVal.asArray)) := by
  unfold slots
  rw [h]
  have p2 := tableSlots_perm t l
  rw [← Multiset.coe_eq_coe] at p2 ⊢
  simp only [List.flatMap_append, List.flatMap_cons, ← Multiset.coe_add] at p2 ⊢
  rw [p2]
  abel

theorem not_mem_of_countP_le_one {p : JVal → Bool} {l1 l2 : List JVal}
    (h : (l1 ++ l2).countP p ≤ 1) {a : JVal} (ha : a ∈ l1) (hpa : p a = true) :
    ∀ b ∈ l2, p b = false := by
  intro b hb
  rw [List.countP_append] at h
  have h1 : 0 < l1.countP p := List.countP_pos_iff.mpr ⟨a, ha, hpa⟩
  have h2 : l2.countP p = 0 := by omega
  rw [List.countP_eq_zero] at h2
  cases hpb : p b with
  | false => rfl
  | true => exact absurd hpb (h2 b hb)

/-- The seat of a player that occurs once: nowhere else is the player found. -/
theorem elsewhere_of_once {s : State} {n : Nat} (honce : occurrences n s ≤ 1)
    {pre post : List Table} {t : Table} (h : s.tables = pre ++ t :: post) (l : Lado)
    (hn : JVal.num n ∈ (t.side l).playerIds) :
    JVal.num n ∉ (t.side l.other).playerIds ∧ JVal.num n ∉ pre.flatMap tableSlots ∧
      JVal.num n ∉ post.flatMap tableSlots ∧ JVal.num n ∉ s.queue.flatMap JVal.asArray := by
  unfold occurrences at honce
  rw [(slots_split_perm h l).countP_eq] at honce
  have key := not_mem_of_countP_le_one honce hn (isNum_eq_true.mpr rfl)
  have hno : ∀ {x : List JVal}, (∀ v ∈ x, v ∈ (t.side l.other).playerIds ++ pre.flatMap tableSlots ++
      post.flatMap tableSlots ++ s.queue.flatMap JVal.asArray) → JVal.num n ∉ x := by
    intro x hx hmem
    have := key _ (hx _ hmem)
    simp [JVal.isNum] at this
  refine ⟨hno ?_, hno ?_, hno ?_, hno ?_⟩ <;> intro v hv <;> simp [hv]

theorem refill_mem_num {modo : Modo} {q : List JVal} {n : Nat}
    (h : JVal.num n ∈ (refill modo q).1) : JVal.num n ∈ q.flatMap JVal.asArray := by
  cases q with
  | nil => cases modo <;> simp [refill] at h
  | cons a rest =>
    rw [List.flatMap_cons]
    apply List.mem_append_left
    cases modo with
    | solo =>
      simp only [refill, List.mem_singleton] at h
      rw [← h]
      simp [JVal.asArray]
    | duo => simpa [refill] using h

theorem mem_tableSlots_set {t : Table} {l : Lado} {x : List JVal} {v : JVal}
    (h : v ∈ tableSlots (t.setPlayerIds l x)) : v ∈ x ∨ v ∈ (t.side l.other).playerIds :=
  List.mem_append.mp ((tableSlots_setPlayerIds_perm t l x).mem_iff.mp h)

theorem mem_tableSlots_set_reset {t : Table} {l : Lado} {x : List JVal} {v : JVal}
    (h : v ∈ tableSlots (t.setPlayerIds l x).resetScores) :
    v ∈ x ∨ v ∈ (t.side l.other).playerIds :=
  List.mem_append.mp ((tableSlots_set_perm t l x).mem_iff.mp h)

theorem removePlayer_slots_clean (fecha : String) (s : State) (n : Nat)
    (honce : occurrences n s ≤ 1) (htids : (s.tables.map (fun t => t.id)).Nodup) :
    JVal.num n ∉ slots (removePlayer fecha true s n) := by
  have hfilter : ∀ q : List JVal,
      JVal.num n ∉ (q.flatMap JVal.asArray).filter (fun v => !v.isNum n) := by
    intro q h
    have := (List.mem_filter.mp h).2
    simp [JVal.isNum] at this
  unfold removePlayer
  simp only [Bool.not_true, Bool.false_eq_true, if_false]
  cases hseat : findSeat n s.tables with
  | none =>
    simp only
    rw [finishRemove_slots, List.mem_append]
    rintro (h | h)
    · exact findSeat_none hseat h
    · exact hfilter _ h
  | some r =>
    obtain ⟨i, lado⟩ := r
    obtain ⟨table, hget, hmemn⟩ := findSeat_some hseat
    simp only [hget]
    split
    · have hfind := findTable_of_get htids hget
      obtain ⟨pre, post, e1, e2⟩ := replaceTable_split hfind
      obtain ⟨hW, hpre, hpost, hq⟩ := elsewhere_of_once honce e1 lado hmemn
      rw [finishRemove_slots, List.mem_append]
      rintro (h | h)
      · simp only [processForfeit, hfind, e2, List.flatMap_append, List.flatMap_cons,
          List.mem_append] at h
        rcases h with h | h | h
        · exact hpre h
        · rcases mem_tableSlots_set_reset h with h | h
          · exact hq (refill_mem_num h)
          · exact hW h
        · exact hpost h
      · exact hfilter _ h
    · obtain ⟨pre, post, e1, e2⟩ := modifyTableAt_split hget
      obtain ⟨hW, hpre, hpost, hq⟩ := elsewhere_of_once honce e1 lado hmemn
      rw [finishRemove_slots, List.mem_append]
      rintro (h | h)
      · simp only [e2, List.flatMap_append, List.flatMap_cons, List.mem_append] at h
        rcases h with h | h | h
        · exact hpre h
        · rcases mem_tableSlots_set h with h | h
          · have := (List.mem_filter.mp h).2
            simp [JVal.isNum] at this
          · exact hW h
        · exact hpost h
      · exact hfilter _ h

theorem removePlayer_players (fecha : String) (s : State) (n : Nat) :
    ∃ ps, (removePlayer fecha true s n).players = dropPlayer ps n := by
  unfold removePlayer
  simp only [Bool.not_true, Bool.false_eq_true, if_false]
  cases hseat : findSeat n s.tables with
  | none => exact ⟨_, rfl⟩
  | some r =>
    obtain ⟨i, lado⟩ := r
    obtain ⟨table, hget, -⟩ := findSeat_some hseat
    simp only [hget]
    split <;> exact ⟨_, rfl⟩

/-- C10: in a state where the player id occurs at most once among the table
sides and queue units (the player-id invariant) and the tables have distinct
ids, after a confirmed `removePlayer` the id belongs to no roster entry, to no
table side and to no queue unit. -/
theorem removePlayer_cascades (fecha : String) (s : State) (playerId : Nat)
    (honce : ∀ k, occurrences k s ≤ 1)
    (htids : (s.tables.map (fun t => t.id)).Nodup) :
    (∀ p ∈ (removePlayer fecha true s playerId).players, p.id ≠ playerId) ∧
    (∀ t ∈ (removePlayer fecha true s playerId).tables,
      JVal.num playerId ∉ t.ladoA.playerIds ∧ JVal.num playerId ∉ t.ladoB.playerIds) ∧
    (∀ e ∈ (removePlayer fecha true s playerId).queue, JVal.num playerId ∉ e.asArray) := by
  have hclean := removePlayer_slots_clean fecha s playerId (honce playerId) htids
  refine ⟨?_, ?_, ?_⟩
  · obtain ⟨ps, hps⟩ := removePlayer_players fecha s playerId
    rw [hps]
    intro p hp
    have := (List.mem_filter.mp hp).2
    simpa using this
  · intro t ht
    exact ⟨fun h => hclean (mem_slots_of_side ht .A h),
      fun h => hclean (mem_slots_of_side ht .B h)⟩
  · intro e he h
    exact hclean (List.mem_append_right _ (List.mem_flatMap.mpr ⟨e, he, h⟩))

/-- Witness of C10: P2 leaves table 1 of a solo session while P5 waits. -/
theorem removePlayer_cascades_witness :
    (∀ p ∈ (removePlayer "t" true (demoSolo [.num 5]) 2).players, p.id ≠ 2) ∧
    (∀ t ∈ (removePlayer "t" true (demoSolo [.num 5]) 2).tables,
      JVal.num 2 ∉ t.ladoA.playerIds ∧ JVal.num 2 ∉ t.ladoB.playerIds) ∧
    (∀ e ∈ (removePlayer "t" true (demoSolo [.num 5]) 2).queue, JVal.num 2 ∉ e.asArray) :=
  removePlayer_cascades "t" (demoSolo [.num 5]) 2
    (fun k => countP_isNum_le_one (by simp [slots, demoSolo, demoTable, tableSlots, JVal.asArray]) k)
    (by decide)


/-! ### Forfeit -/

theorem removePlayer_forfeit_eq (fecha : String) (s : State) (n i : Nat) (lado : Lado)
    (table : Table) (hseat : findSeat n s.tables = some (i, lado))
    (hget : s.tables.get? i = some table) (hsole : (table.side lado).playerIds.length = 1) :
    removePlayer fecha true s n =
      { (removeFromAllQueues (processForfeit fecha s table.id lado n) n).1 with
        players :=
          dropPlayer (removeFromAllQueues (processForfeit fecha s table.id lado n) n).1.players n } := by
  unfold removePlayer
  simp only [Bool.not_true, Bool.false_eq_true, if_false, hseat, hget, hsole, if_true]

theorem sole_occupant {table : Table} {lado : Lado} {n : Nat}
    (hsole : (table.side lado).playerIds.length = 1)
    (hmem : JVal.num n ∈ (table.side lado).playerIds) :
    (table.side lado).playerIds = [JVal.num n] := by
  match h : (table.side lado).playerIds, hsole with
  | [v], _ =>
    rw [h] at hmem
    rw [List.mem_singleton.mp hmem]

/-- Counterexample to C9 as stated: when P2, alone on side B of table 1,
forfeits, `processForfeit` raises the loss counter of P2 from 0 to 1. -/
theorem processForfeit_counts_loss :
    (demoSolo [.num 5]).players.map (fun p => (p.id, p.derrotas)) =
      [(1, 0), (2, 0), (3, 0), (4, 0), (5, 0)] ∧
    (processForfeit "t" (demoSolo [.num 5]) 1 .B 2).players.map (fun p => (p.id, p.derrotas)) =
      [(1, 0), (2, 1), (3, 0), (4, 0), (5, 0)] := by
  constructor <;> decide

/-- C9, amended: on an existing table whose occupants are pairwise distinct,
with a roster of pairwise distinct ids, `processForfeit` raises `victorias` by 1
exactly for the roster players on the winning side and `derrotas` by 1 exactly
for the roster players on the forfeiting side, and changes nothing else.  When
`removePlayer` triggers it for the sole occupant of a side, that player's
record is deleted right after, so the roster that remains shows the winners'
wins and no changed loss counter. -/
theorem processForfeit_stats (fecha : String) (s : State) (tableId : Nat) (l : Lado)
    (playerId : Nat) (table : Table)
    (hfind : findTable s.tables tableId = some table)
    (hros : (s.players.map (fun p => p.id)).Nodup)
    (hocc : (idsOf ((table.side l.other).playerIds ++ (table.side l).playerIds)).Nodup) :
    (processForfeit fecha s tableId l playerId).players =
      s.players.map (fun p =>
        { p with
          victorias := p.victorias + (if onSide (table.side l.other).playerIds p then 1 else 0)
          derrotas := p.derrotas + (if onSide (table.side l).playerIds p then 1 else 0) }) ∧
    (∀ p : Player, onSide (table.side l.other).playerIds p = true →
      onSide (table.side l).playerIds p = false) ∧
    (∀ i, findSeat playerId s.tables = some (i, l) → s.tables.get? i = some table →
      (table.side l).playerIds.length = 1 →
      (removePlayer fecha true s playerId).players =
        (s.players.filter (fun p => !(p.id == playerId))).map (fun p =>
          { p with
            victorias :=
              p.victorias + (if onSide (table.side l.other).playerIds p then 1 else 0) })) := by
  have hstats : (processForfeit fecha s tableId l playerId).players =
      s.players.map (fun p =>
        { p with
          victorias := p.victorias + (if onSide (table.side l.other).playerIds p then 1 else 0)
          derrotas := p.derrotas + (if onSide (table.side l).playerIds p then 1 else 0) }) := by
    rw [idsOf_append] at hocc
    simp only [processForfeit, hfind]
    exact updateStats_eq _ _ _ hros hocc.of_append_left hocc.of_append_right
  refine ⟨hstats, onSide_disjoint _ _ hocc, ?_⟩
  intro i hseat hget hsole
  obtain ⟨t, hget', hmem⟩ := findSeat_some hseat
  rw [hget] at hget'
  injection hget' with hget'
  subst hget'
  have hL := sole_occupant hsole hmem
  have hid := findTable_id hfind
  rw [removePlayer_forfeit_eq fecha s playerId i l table hseat hget hsole, hid]
  show dropPlayer (processForfeit fecha s tableId l playerId).players playerId = _
  rw [hstats]
  unfold dropPlayer
  rw [List.filter_map]
  apply List.map_congr_left
  intro p hp
  have hne := (List.mem_filter.mp hp).2
  simp only [Function.comp] at hne
  have : onSide (table.side l).playerIds p = false := by
    have h1 : p.id ≠ playerId := by simpa using hne
    rw [hL]
    simp only [onSide, List.any_cons, List.any_nil, Bool.or_false, JVal.isNum]
    exact beq_eq_false_iff_ne.mpr (Ne.symm h1)
  simp [this]

/-- Witness of C9: P2, alone on side B of table 1, is removed. -/
theorem processForfeit_stats_witness :
    (processForfeit "t" (demoSolo [.num 5]) 1 .B 2).players.map
      (fun p => (p.id, p.victorias, p.derrotas)) =
      [(1, 1, 0), (2, 0, 1), (3, 0, 0), (4, 0, 0), (5, 0, 0)] := by
  rw [(processForfeit_stats "t" (demoSolo [.num 5]) 1 .B 2
    (demoTable 1 .solo [.num 1] [.num 2] 7 5) rfl (by decide) (by decide)).1]
  decide


theorem refill_eq (modo : Modo) (q : List JVal)
    (hsolo : modo = .solo → ∀ e ∈ q, e.isArray = false) :
    refill modo q = (headUnit q, q.tail) := by
  cases q with
  | nil => cases modo <;> rfl
  | cons h rest =>
    cases modo with
    | solo =>
      simp only [refill, List.tail_cons, headUnit]
      rw [asArray_of_not_array (hsolo rfl h (List.mem_cons_self _ _))]
    | duo => rfl

theorem removeFromQueue_dropEmpty (n : Nat) (q : List JVal)
    (hno : ∀ e ∈ q, JVal.num n ∉ e.asArray) :
    (removeFromQueue n q).1 = dropEmptyUnits q := by
  induction q with
  | nil => rfl
  | cons e rest ih =>
    have ih' := ih (fun e he => hno e (List.mem_cons_of_mem _ he))
    have h1 := hno e (List.mem_cons_self _ _)
    cases e with
    | arr xs =>
      simp only [JVal.asArray] at h1
      have hf : xs.filter (fun id => !id.isNum n) = xs := by
        rw [List.filter_eq_self]
        intro v hv
        cases hvn : v.isNum n with
        | false => rfl
        | true => exact absurd (isNum_eq_true.mp hvn ▸ hv) h1
      cases xs with
      | nil => simpa [removeFromQueue, dropEmptyUnits, JVal.isEmptyUnit] using ih'
      | cons x xs =>
        simp only [removeFromQueue, hf, List.length_cons, Nat.succ_pos, gt_iff_lt, if_true, ih']
        simp [dropEmptyUnits, JVal.isEmptyUnit]
    | undef =>
      simp only [removeFromQueue, JVal.isNum, ih']
      simp [dropEmptyUnits, JVal.isEmptyUnit]
    | num m =>
      have hne : (JVal.num m).isNum n = false := by
        cases hmn : (JVal.num m).isNum n with
        | false => rfl
        | true =>
          rw [isNum_eq_true] at hmn
          exact absurd (by rw [hmn]; simp [JVal.asArray]) h1
      simp only [removeFromQueue, hne, ih']
      simp [dropEmptyUnits, JVal.isEmptyUnit]

theorem dropEmptyUnits_eq_self (q : List JVal) (h : ∀ e ∈ q, e.asArray ≠ []) :
    dropEmptyUnits q = q := by
  unfold dropEmptyUnits
  rw [List.filter_eq_self]
  intro e he
  have := h e he
  cases e with
  | arr xs =>
    cases xs with
    | nil => exact absurd rfl this
    | cons x xs => rfl
  | undef => rfl
  | num m => rfl

theorem emptyTailRun_reachable : Reachable emptyTailRun := by
  have h0 : Reachable (toggleMode initialState .duo) := .toggleMode _ .init
  have h1 := Reachable.addPlayer (fun x => x) (fun x => x) "P1" h0
  have h2 := Reachable.addPlayer (fun x => x) (fun x => x) "P2" h1
  have h3 := Reachable.addPlayer (fun x => x) (fun x => x) "P3" h2
  have h4 := Reachable.addPlayer (fun x => x) (fun x => x) "P4" h3
  have h5 := Reachable.addPlayer (fun x => x) (fun x => x) "P5" h4
  have h6 := Reachable.addPlayer (fun x => x) (fun x => x) "P6" h5
  have h7 := Reachable.addPlayer (fun x => x) (fun x => x) "P7" h6
  have h8 := Reachable.addPlayer (fun x => x) (fun x => x) "P8" h7
  have h9 := Reachable.startSession .duo h8
  have h10 := Reachable.removePlayer "t" true 3 h9
  have h11 := Reachable.removePlayer "t" true 4 h10
  have h12 := Reachable.addPlayer (fun x => x) (fun x => x) "P9" h11
  have h13 := Reachable.addPlayer (fun x => x) (fun x => x) "P10" h12
  have h14 := Reachable.addPoint 1 .A h13
  have h15 := Reachable.addPoint 1 .A h14
  have h16 := Reachable.addPoint 1 .A h15
  have h17 := Reachable.addPoint 1 .A h16
  exact Reachable.processRoundEnd "t" 1 .A h17

/-- Counterexample to C8 as stated: in the state `emptyTailRun`, reached by
adding eight players in duo mode, starting the session, removing P3 and P4,
adding P9 and P10 and completing a round of table 1 won 4-0 against its empty
side B, P9 is alone on side B of table 1 and the queue holds P10 and then a
unit without members.  When P9 is removed, P10 takes the side, and the queue
is left empty: it has lost the unit behind its head as well. -/
theorem forfeit_drops_empty_unit :
    Reachable emptyTailRun ∧
    emptyTailRun.queue = [.num 10, .arr []] ∧
    (findTable emptyTailRun.tables 1).map (fun t => (t.ladoA.playerIds, t.ladoB.playerIds)) =
      some ([.num 1, .num 2], [.num 9]) ∧
    (findTable (removePlayer "t" true emptyTailRun 9).tables 1).map
      (fun t => (t.ladoA.playerIds, t.ladoB.playerIds)) = some ([.num 1, .num 2], [.num 10]) ∧
    emptyTailRun.queue.tail = [.arr []] ∧
    (removePlayer "t" true emptyTailRun 9).queue = [] :=
  ⟨emptyTailRun_reachable, rfl, rfl, rfl, rfl, rfl⟩

/-- C8, amended: when `removePlayer` finds the player as the sole occupant of a
side, in a state where the player occurs once, the tables have distinct ids and
the queue of a solo table holds plain ids only: exactly one match record is
appended, won by the opposite side, with the scores and occupants that the
table had before; afterwards both scores of the table are 0, the vacated side
holds the unit that was at the head of the queue or is empty when the queue
was empty, the queue is its former tail without the units that have no member,
which is the former tail itself when each of its units has a member, and the
removed player is in no queue unit. -/
theorem removePlayer_forfeit (fecha : String) (s : State) (playerId i : Nat) (lado : Lado)
    (table : Table)
    (hseat : findSeat playerId s.tables = some (i, lado))
    (hget : s.tables.get? i = some table)
    (hsole : (table.side lado).playerIds.length = 1)
    (htids : (s.tables.map (fun t => t.id)).Nodup)
    (honce : occurrences playerId s ≤ 1)
    (hsolo : table.modo = .solo → ∀ e ∈ s.queue, e.isArray = false) :
    (removePlayer fecha true s playerId).matchLog =
      s.matchLog ++
        [{ id := s.matchLog.length + 1
           tableId := table.id
           modo := table.modo
           ladoAPlayerIds := table.ladoA.playerIds
           ladoBPlayerIds := table.ladoB.playerIds
           ganadorLado := lado.other
           scoreFinalA := table.ladoA.score
           scoreFinalB := table.ladoB.score
           fecha := fecha }] ∧
    (∃ table',
      findTable (removePlayer fecha true s playerId).tables table.id = some table' ∧
      table'.ladoA.score = 0 ∧ table'.ladoB.score = 0 ∧
      (table'.side lado).playerIds = headUnit s.queue ∧
      (table'.side lado.other).playerIds = (table.side lado.other).playerIds) ∧
    (removePlayer fecha true s playerId).queue = dropEmptyUnits s.queue.tail ∧
    ((∀ e ∈ s.queue.tail, e.asArray ≠ []) →
      (removePlayer fecha true s playerId).queue = s.queue.tail) ∧
    (∀ e ∈ (removePlayer fecha true s playerId).queue, JVal.num playerId ∉ e.asArray) := by
  have hfind := findTable_of_get htids hget
  obtain ⟨t, hget', hmem⟩ := findSeat_some hseat
  rw [hget] at hget'
  injection hget' with hget'
  subst hget'
  obtain ⟨pre, post, e1, -⟩ := replaceTable_split hfind
  obtain ⟨-, -, -, hq⟩ := elsewhere_of_once honce e1 lado hmem
  have hno : ∀ e ∈ s.queue, JVal.num playerId ∉ e.asArray :=
    fun e he h => hq (List.mem_flatMap.mpr ⟨e, he, h⟩)
  have htail : ∀ e ∈ s.queue.tail, e ∈ s.queue := fun e he => List.mem_of_mem_tail he
  have hqueue : (removePlayer fecha true s playerId).queue = dropEmptyUnits s.queue.tail := by
    rw [removePlayer_forfeit_eq fecha s playerId i lado table hseat hget hsole]
    simp only [removeFromAllQueues, processForfeit, hfind, refill_eq table.modo s.queue hsolo]
    exact removeFromQueue_dropEmpty playerId _ (fun e he => hno e (htail e he))
  refine ⟨?_, ?_, hqueue, ?_, ?_⟩
  · rw [removePlayer_forfeit_eq fecha s playerId i lado table hseat hget hsole]
    simp only [removeFromAllQueues, processForfeit, hfind]
  · refine ⟨(table.setPlayerIds lado (refill table.modo s.queue).1).resetScores, ?_, rfl, rfl,
      ?_, ?_⟩
    · rw [removePlayer_forfeit_eq fecha s playerId i lado table hseat hget hsole]
      simp only [removeFromAllQueues, processForfeit, hfind]
      exact findTable_replaceTable hfind (by simp)
    · rw [refill_eq table.modo s.queue hsolo]
      simp
    · have := setPlayerIds_side_other table lado.other (refill table.modo s.queue).1
      rw [other_other] at this
      rw [resetScores_side_playerIds, this]
  · intro hunits
    rw [hqueue, dropEmptyUnits_eq_self _ hunits]
  · rw [hqueue]
    intro e he
    exact hno e (htail e (List.mem_of_mem_filter he))

/-- Witness of C8: P9 leaves side B of table 1 in the state `emptyTailRun`,
where P10 waits in front of a unit without members. -/
theorem removePlayer_forfeit_witness :
    (removePlayer "t" true emptyTailRun 9).queue = dropEmptyUnits emptyTailRun.queue.tail :=
  (removePlayer_forfeit "t" emptyTailRun 9 0 .B _ rfl rfl rfl
    emptyTailRun_reachable.inv.tids
    (countP_isNum_le_one emptyTailRun_reachable.inv.nodup 9)
    (fun h => absurd h (by decide))).2.2.1

/-! ### Rejected actions and player ids -/

/-- C19: when the side that would score has no occupants, `addPoint` returns
the state as it was and schedules no round completion. -/
theorem addPoint_empty_side (s : State) (tableId : Nat) (lado : Lado) (table : Table)
    (hfind : findTable s.tables tableId = some table)
    (hempty : (table.side lado).playerIds = []) :
    addPoint s tableId lado = (s, none) := by
  unfold addPoint
  simp [hfind, hempty]

/-- Witness of C19: a point for side A of table 1 before any session. -/
theorem addPoint_empty_side_witness : addPoint initialState 1 .A = (initialState, none) :=
  addPoint_empty_side initialState 1 .A (demoTable 1 .solo [] [] 0 0) rfl rfl

theorem addPlayer_reject (trim lower : String → String) (s : State) (nombre : String)
    (h : trim nombre = "" ∨ ∃ p ∈ s.players, lower p.nombre = lower (trim nombre)) :
    addPlayer trim lower s nombre = s := by
  unfold addPlayer
  by_cases h1 : trim nombre = ""
  · simp [h1]
  · rcases h with h | ⟨p, hp, hpn⟩
    · exact absurd h h1
    · have : s.players.any (fun p => lower p.nombre == lower (trim nombre)) = true := by
        rw [List.any_eq_true]
        exact ⟨p, hp, by simpa using hpn⟩
      simp only [h1, if_false, this, if_true]

theorem addPlayer_accept_of_not (trim lower : String → String) (s : State) (nombre : String)
    (h : ¬ (trim nombre = "" ∨ ∃ p ∈ s.players, lower p.nombre = lower (trim nombre))) :
    addPlayer trim lower s nombre =
      { s with
        players := s.players ++ [⟨getNextPlayerId s, trim nombre, 0, 0⟩]
        queue := s.queue ++ [JVal.num (getNextPlayerId s)] } := by
  rw [not_or] at h
  exact addPlayer_accept trim lower s nombre h.1 (fun p hp hpn => h.2 ⟨p, hp, hpn⟩)

theorem addPlayer_ne_of_accept (trim lower : String → String) (s : State) (nombre : String)
    (h : ¬ (trim nombre = "" ∨ ∃ p ∈ s.players, lower p.nombre = lower (trim nombre))) :
    addPlayer trim lower s nombre ≠ s := by
  rw [addPlayer_accept_of_not trim lower s nombre h]
  intro heq
  have := congrArg (fun st => st.players.length) heq
  simp at this

/-- C14: `addPlayer` leaves the state as it was (in particular the roster, its
size and the queue) exactly when the trimmed name is empty or, compared in
lower case, equals the name of a player of the roster; otherwise it appends
one player to the roster, carrying the trimmed name, 0 wins and 0 losses, and
puts that player at the tail of the queue. -/
theorem addPlayer_rejects_iff (trim lower : String → String) (s : State) (nombre : String) :
    (addPlayer trim lower s nombre = s ↔
      (trim nombre = "" ∨ ∃ p ∈ s.players, lower p.nombre = lower (trim nombre))) ∧
    (¬ (trim nombre = "" ∨ ∃ p ∈ s.players, lower p.nombre = lower (trim nombre)) →
      addPlayer trim lower s nombre =
        { s with
          players := s.players ++ [⟨getNextPlayerId s, trim nombre, 0, 0⟩]
          queue := s.queue ++ [JVal.num (getNextPlayerId s)] }) := by
  refine ⟨⟨?_, addPlayer_reject trim lower s nombre⟩, addPlayer_accept_of_not trim lower s nombre⟩
  intro h
  by_contra hc
  exact addPlayer_ne_of_accept trim lower s nombre hc h

/-- Witness of C14: a new name is accepted by the lobby of five players. -/
theorem addPlayer_rejects_iff_witness :
    addPlayer (fun x => x) (fun x => x) (lobby demoPlayers .solo) "P6" =
      { lobby demoPlayers .solo with
        players := demoPlayers ++ [⟨6, "P6", 0, 0⟩]
        queue := (lobby demoPlayers .solo).queue ++ [JVal.num 6] } :=
  (addPlayer_rejects_iff (fun x => x) (fun x => x) (lobby demoPlayers .solo) "P6").2 (by decide)

/-- C15: the id that `addPlayer` assigns is positive, strictly greater than
every id of the roster, and 1 when the roster is empty; every accepted
`addPlayer` appends a player with that id; and in every reachable state the
ids of the roster are pairwise distinct. -/
theorem getNextPlayerId_spec (s : State) :
    0 < getNextPlayerId s ∧
    (∀ p ∈ s.players, p.id < getNextPlayerId s) ∧
    (s.players = [] → getNextPlayerId s = 1) ∧
    (∀ (trim lower : String → String) (nombre : String),
      addPlayer trim lower s nombre ≠ s →
        (addPlayer trim lower s nombre).players =
          s.players ++ [⟨getNextPlayerId s, trim nombre, 0, 0⟩]) ∧
    (Reachable s → (s.players.map (fun p => p.id)).Nodup) := by
  refine ⟨?_, ?_, ?_, ?_, fun h => h.inv.roster⟩
  · unfold getNextPlayerId
    split <;> omega
  · intro p hp
    exact getNextPlayerId_fresh s p.id (List.mem_map_of_mem (fun p => p.id) hp)
  · intro h
    simp [getNextPlayerId, h]
  · intro trim lower nombre hne
    rcases addPlayer_cases trim lower s nombre with h | h
    · exact absurd h hne
    · rw [h]

/-- Witness of C15: the roster after the first `addPlayer`. -/
theorem getNextPlayerId_spec_witness :
    Reachable (addPlayer (fun x => x) (fun x => x) initialState "P1") ∧
    ((addPlayer (fun x => x) (fun x => x) initialState "P1").players.map (fun p => p.id)).Nodup :=
  ⟨Reachable.addPlayer (fun x => x) (fun x => x) "P1" Reachable.init,
    (getNextPlayerId_spec (addPlayer (fun x => x) (fun x => x) initialState "P1")).2.2.2.2
      (Reachable.addPlayer (fun x => x) (fun x => x) "P1" Reachable.init)⟩

/-! ### Queue removal flag and session start guard -/

/-- C12, the code at the failing input: in a duo session of ten players the
queue holds the pair of P9 and P10; `removeFromAllQueues` for P9 filters P9 out
of that unit, which survives with P10, and returns `false`. -/
theorem removeFromAllQueues_misses_pair :
    duoTen.queue = [.arr [.num 9, .num 10]] ∧
    (removeFromAllQueues duoTen 9).1.queue = [.arr [.num 10]] ∧
    (removeFromAllQueues duoTen 9).2 = false :=
  ⟨rfl, rfl, rfl⟩

theorem startSession_sides (s : State) (modo : Modo)
    (h : (if modo = .solo then 4 else 8) ≤ s.players.length) :
    ∀ t ∈ (startSession s modo).tables, ∀ l : Lado, (t.side l).playerIds ≠ [] := by
  cases modo with
  | solo =>
    simp only [if_true] at h
    rw [startSession_solo s h]
    intro t ht l
    simp only [List.mem_cons, List.mem_singleton, List.not_mem_nil, or_false] at ht
    rcases ht with rfl | rfl <;> cases l <;> simp [Table.side]
  | duo =>
    simp only [show (Modo.duo = Modo.solo) = False from by simp, if_false] at h
    rw [startSession_duo s h]
    have hlen : 8 ≤ (s.players.map (fun p => JVal.num p.id)).length := by
      rw [List.length_map]; exact h
    generalize s.players.map (fun p => JVal.num p.id) = ids at hlen ⊢
    obtain ⟨a1, a2, r1, e1, h1⟩ := buildPairs_step (l := ids) (by omega)
    subst e1
    simp only [List.length_cons] at hlen
    obtain ⟨a3, a4, r2, e2, h2⟩ := buildPairs_step (l := r1) (by omega)
    subst e2
    simp only [List.length_cons] at hlen
    obtain ⟨a5, a6, r3, e3, h3⟩ := buildPairs_step (l := r2) (by omega)
    subst e3
    simp only [List.length_cons] at hlen
    obtain ⟨a7, a8, r4, e4, h4⟩ := buildPairs_step (l := r3) (by omega)
    intro t ht l
    simp only [h1, h2, h3, h4, List.getD_cons_zero, List.getD_cons_succ, List.mem_cons,
      List.mem_singleton, List.not_mem_nil, or_false] at ht
    rcases ht with rfl | rfl <;> cases l <;> simp [Table.side]

/-- C17: with fewer than 4 players in solo mode, or fewer than 8 in duo mode,
`startSession` returns the state as it was; with at least that many it marks
the session active and gives every side of the two tables a unit that is not
empty and whose members are ids of roster players. -/
theorem startSession_guard (s : State) (modo : Modo) :
    (s.players.length < (if modo = .solo then 4 else 8) → startSession s modo = s) ∧
    ((if modo = .solo then 4 else 8) ≤ s.players.length →
      (startSession s modo).settings.sessionActive = true ∧
      (startSession s modo).tables.length = 2 ∧
      ∀ t ∈ (startSession s modo).tables, ∀ l : Lado,
        (t.side l).playerIds ≠ [] ∧
        ∀ v ∈ (t.side l).playerIds, ∃ p ∈ s.players, v = JVal.num p.id) := by
  refine ⟨startSession_reject s modo, ?_⟩
  intro h
  have hslots := startSession_slots s modo (by omega)
  refine ⟨?_, ?_, ?_⟩
  · cases modo
    · simp only [if_true] at h; rw [startSession_solo s h]
    · simp only [show (Modo.duo = Modo.solo) = False from by simp, if_false] at h
      rw [startSession_duo s h]
  · cases modo
    · simp only [if_true] at h; rw [startSession_solo s h]; rfl
    · simp only [show (Modo.duo = Modo.solo) = False from by simp, if_false] at h
      rw [startSession_duo s h]; rfl
  · intro t ht l
    refine ⟨startSession_sides s modo h t ht l, ?_⟩
    intro v hv
    have hmem : v ∈ slots (startSession s modo) := mem_slots_of_side ht l hv
    rw [hslots] at hmem
    obtain ⟨p, hp, rfl⟩ := List.mem_map.mp hmem
    exact ⟨p, hp, rfl⟩

/-- Witness of C17: four players are enough in solo mode, three are not. -/
theorem startSession_guard_witness :
    (startSession (lobby fourPlayers .solo) .solo).settings.sessionActive = true ∧
    startSession (lobby (fourPlayers.take 3) .solo) .solo = lobby (fourPlayers.take 3) .solo :=
  ⟨((startSession_guard (lobby fourPlayers .solo) .solo).2 (by decide)).1,
    (startSession_guard (lobby (fourPlayers.take 3) .solo) .solo).1 (by decide)⟩

/-! ### Scoring against an empty side -/

theorem scorePoint_scores (table : Table) (lado : Lado) :
    ((scorePoint table lado).side lado).score = (table.side lado).score + 1 ∧
    ((scorePoint table lado).side lado.other).score = (table.side lado.other).score := by
  unfold scorePoint
  cases lado <;> simp only <;> split_ifs <;> exact ⟨rfl, rfl⟩

theorem addPoint_occupied (s : State) (tableId : Nat) (lado : Lado) (table : Table)
    (hfind : findTable s.tables tableId = some table)
    (hocc : (table.side lado).playerIds ≠ []) :
    addPoint s tableId lado =
      ({ s with tables := replaceTable tableId (scorePoint table lado) s.tables },
        if checkWinner (scorePoint table lado).ladoA.score (scorePoint table lado).ladoB.score ≠ 0
        then some (tableId,
          if checkWinner (scorePoint table lado).ladoA.score
            (scorePoint table lado).ladoB.score = 1 then Lado.A else Lado.B)
        else none) := by
  have hlen : ¬ (table.side lado).playerIds.length = 0 := by
    rw [List.length_eq_zero]; exact hocc
  unfold addPoint
  simp only [hfind, hlen, if_false]
  split_ifs <;> rfl

/-- Counterexample to C20 as stated: in a solo session of four players P2
leaves table 1, whose side B stays empty as nobody waits.  A point for side A
is then counted, and four such points decide a round for side A. -/
theorem uncontested_side_scores :
    (findTable uncontested.tables 1).map
      (fun t => (t.ladoA.playerIds.length, t.ladoB.playerIds.length, t.ladoA.score)) =
      some (1, 0, 0) ∧
    (findTable (addPoint uncontested 1 .A).1.tables 1).map (fun t => t.ladoA.score) = some 1 ∧
    (playPoints uncontested 1 [.A, .A, .A, .A]).2 = [(1, Lado.A)] := by
  refine ⟨by decide, by decide, by decide⟩

/-- C20, amended: `addPoint` looks at the scoring side only.  When that side of
an existing table has an occupant, whatever the opposite side holds, the
score of the scoring side goes up by one, the other score and the occupants of
both sides stay, and a round completion is scheduled exactly when
`checkWinner` of the new scores is not 0, for the side it names. -/
theorem addPoint_scores (s : State) (tableId : Nat) (lado : Lado) (table : Table)
    (hfind : findTable s.tables tableId = some table)
    (hocc : (table.side lado).playerIds ≠ []) :
    ∃ table',
      findTable (addPoint s tableId lado).1.tables tableId = some table' ∧
      (table'.side lado).score = (table.side lado).score + 1 ∧
      (table'.side lado.other).score = (table.side lado.other).score ∧
      table'.ladoA.playerIds = table.ladoA.playerIds ∧
      table'.ladoB.playerIds = table.ladoB.playerIds ∧
      (addPoint s tableId lado).2 =
        (if checkWinner table'.ladoA.score table'.ladoB.score ≠ 0 then
          some (tableId, if checkWinner table'.ladoA.score table'.ladoB.score = 1 then Lado.A
            else Lado.B)
        else none) := by
  obtain ⟨h1, -, h3, h4⟩ := scorePoint_frame table lado
  obtain ⟨h5, h6⟩ := scorePoint_scores table lado
  refine ⟨scorePoint table lado, ?_, h5, h6, h3, h4, ?_⟩
  · rw [addPoint_occupied s tableId lado table hfind hocc]
    exact findTable_replaceTable hfind (by rw [h1]; exact findTable_id hfind)
  · rw [addPoint_occupied s tableId lado table hfind hocc]

/-- Witness of C20: a point for P1 against the empty side B of table 1. -/
theorem addPoint_scores_witness :
    ∃ table',
      findTable (addPoint uncontested 1 .A).1.tables 1 = some table' ∧
      (table'.side .A).score = 0 + 1 ∧
      (table'.side .B).score = 0 ∧
      table'.ladoA.playerIds = [.num 1] ∧
      table'.ladoB.playerIds = [] ∧
      (addPoint uncontested 1 .A).2 =
        (if checkWinner table'.ladoA.score table'.ladoB.score ≠ 0 then
          some (1, if checkWinner table'.ladoA.score table'.ladoB.score = 1 then Lado.A
            else Lado.B)
        else none) :=
  addPoint_scores uncontested 1 .A (demoTable 1 .solo [.num 1] [] 0 0) rfl (by simp [Table.side, demoTable])

/-! ### Session restart and reuse of ids -/

/-- C18, the code at the failing input: the state `midSessionRun` is reached by
adding five players, starting a solo session and playing table 1 to 3-2, so its
session is active.  `startSession` called again there does not leave the state
as it was: it seeds the tables again and the score of table 1 is 0-0. -/
theorem startSession_reseeds_active :
    Reachable midSessionRun ∧
    midSessionRun.settings.sessionActive = true ∧
    (findTable midSessionRun.tables 1).map
      (fun t => (t.ladoA.playerIds, t.ladoA.score, t.ladoB.playerIds, t.ladoB.score)) =
      some ([.num 1], 3, [.num 2], 2) ∧
    (findTable (startSession midSessionRun .solo).tables 1).map
      (fun t => (t.ladoA.playerIds, t.ladoA.score, t.ladoB.playerIds, t.ladoB.score)) =
      some ([.num 1], 0, [.num 2], 0) ∧
    startSession midSessionRun .solo ≠ midSessionRun := by
  refine ⟨?_, rfl, rfl, rfl, ?_⟩
  · have h1 := Reachable.addPlayer (fun x => x) (fun x => x) "P1" Reachable.init
    have h2 := Reachable.addPlayer (fun x => x) (fun x => x) "P2" h1
    have h3 := Reachable.addPlayer (fun x => x) (fun x => x) "P3" h2
    have h4 := Reachable.addPlayer (fun x => x) (fun x => x) "P4" h3
    have h5 := Reachable.addPlayer (fun x => x) (fun x => x) "P5" h4
    have h6 := Reachable.startSession .solo h5
    have h7 := Reachable.addPoint 1 .A h6
    have h8 := Reachable.addPoint 1 .A h7
    have h9 := Reachable.addPoint 1 .A h8
    have h10 := Reachable.addPoint 1 .B h9
    exact Reachable.addPoint 1 .B h10
  · intro h
    have h2 := congrArg (fun st => (findTable st.tables 1).map (fun t => t.ladoA.score)) h
    exact absurd h2 (by decide)

/-- Counterexample to C16 as stated: P1 and P2 are added and get the ids 1 and
2; P2 is removed; the next player added, P3, gets the id 2 again. -/
theorem removed_id_is_reused :
    (runRoster (fun x => x) (fun x => x) initialState
      [.add "P1", .add "P2"]).players.map (fun p => (p.id, p.nombre)) =
      [(1, "P1"), (2, "P2")] ∧
    (runRoster (fun x => x) (fun x => x) initialState
      [.add "P1", .add "P2", .remove "t" 2, .add "P3"]).players.map (fun p => (p.id, p.nombre)) =
      [(1, "P1"), (2, "P3")] := by
  constructor <;> decide

/-- C16, amended: after any sequence of `addPlayer` and `removePlayer`
operations, the id assigned by an accepted `addPlayer` is strictly greater
than the id of every player then in the roster, so it differs from the id of
every earlier player who has not been removed; ids of removed players are not
kept apart. -/
theorem new_id_above_live_ids (trim lower : String → String) (s0 : State)
    (ops : List RosterOp) (nombre : String)
    (hacc : addPlayer trim lower (runRoster trim lower s0 ops) nombre ≠
      runRoster trim lower s0 ops) :
    ∃ p : Player,
      (addPlayer trim lower (runRoster trim lower s0 ops) nombre).players =
        (runRoster trim lower s0 ops).players ++ [p] ∧
      p.id = getNextPlayerId (runRoster trim lower s0 ops) ∧
      ∀ q ∈ (runRoster trim lower s0 ops).players, q.id < p.id := by
  rcases addPlayer_cases trim lower (runRoster trim lower s0 ops) nombre with h | h
  · exact absurd h hacc
  · refine ⟨⟨getNextPlayerId (runRoster trim lower s0 ops), trim nombre, 0, 0⟩, ?_, rfl, ?_⟩
    · rw [h]
    · intro q hq
      exact getNextPlayerId_fresh _ q.id (List.mem_map_of_mem (fun p => p.id) hq)

/-- Witness of C16: after P1 and P2 were added and P2 removed, P3 is accepted. -/
theorem new_id_above_live_ids_witness :
    ∃ p : Player,
      (addPlayer (fun x => x) (fun x => x)
        (runRoster (fun x => x) (fun x => x) initialState
          [.add "P1", .add "P2", .remove "t" 2]) "P3").players =
        (runRoster (fun x => x) (fun x => x) initialState
          [.add "P1", .add "P2", .remove "t" 2]).players ++ [p] ∧
      p.id = getNextPlayerId (runRoster (fun x => x) (fun x => x) initialState
          [.add "P1", .add "P2", .remove "t" 2]) ∧
      ∀ q ∈ (runRoster (fun x => x) (fun x => x) initialState
          [.add "P1", .add "P2", .remove "t" 2]).players, q.id < p.id :=
  new_id_above_live_ids (fun x => x) (fun x => x) initialState
    [.add "P1", .add "P2", .remove "t" 2] "P3"
    (fun h => absurd (congrArg (fun st => st.players.length) h) (by decide))

/-! ### The match log -/

theorem processRoundEnd_log_found (fecha : String) (s : State) (tableId : Nat) (g : Lado)
    (table : Table) (hfind : findTable s.tables tableId = some table) :
    ∃ m : Match, (processRoundEnd fecha s tableId g).matchLog = s.matchLog ++ [m] ∧
      m.id = s.matchLog.length + 1 := by
  simp only [processRoundEnd, hfind]
  exact ⟨_, rfl, rfl⟩

theorem processRoundEnd_none (fecha : String) (s : State) (tableId : Nat) (g : Lado)
    (hfind : findTable s.tables tableId = none) : processRoundEnd fecha s tableId g = s := by
  simp only [processRoundEnd, hfind]

theorem processForfeit_log_found (fecha : String) (s : State) (tableId : Nat) (l : Lado)
    (n : Nat) (table : Table) (hfind : findTable s.tables tableId = some table) :
    ∃ m : Match, (processForfeit fecha s tableId l n).matchLog = s.matchLog ++ [m] ∧
      m.id = s.matchLog.length + 1 := by
  simp only [processForfeit, hfind]
  exact ⟨_, rfl, rfl⟩

theorem processForfeit_none (fecha : String) (s : State) (tableId : Nat) (l : Lado) (n : Nat)
    (hfind : findTable s.tables tableId = none) : processForfeit fecha s tableId l n = s := by
  simp only [processForfeit, hfind]

theorem processRoundEnd_logStep (fecha : String) (s : State) (tableId : Nat) (g : Lado) :
    LogStep s (processRoundEnd fecha s tableId g) := by
  cases hfind : findTable s.tables tableId with
  | none => rw [processRoundEnd_none fecha s tableId g hfind]; exact Or.inl rfl
  | some table => exact Or.inr (processRoundEnd_log_found fecha s tableId g table hfind)

theorem processForfeit_logStep (fecha : String) (s : State) (tableId : Nat) (l : Lado)
    (n : Nat) : LogStep s (processForfeit fecha s tableId l n) := by
  cases hfind : findTable s.tables tableId with
  | none => rw [processForfeit_none fecha s tableId l n hfind]; exact Or.inl rfl
  | some table => exact Or.inr (processForfeit_log_found fecha s tableId l n table hfind)

theorem addPlayer_log (trim lower : String → String) (s : State) (nombre : String) :
    (addPlayer trim lower s nombre).matchLog = s.matchLog := by
  rcases addPlayer_cases trim lower s nombre with h | h <;> rw [h]

theorem toggleMode_log (s : State) (modo : Modo) : (toggleMode s modo).matchLog = s.matchLog := by
  unfold toggleMode
  split <;> rfl

theorem startSession_log (s : State) (modo : Modo) :
    (startSession s modo).matchLog = s.matchLog := by
  by_cases h : s.players.length < (if modo = .solo then 4 else 8)
  · rw [startSession_reject s modo h]
  · cases modo
    · simp only [if_true] at h; rw [startSession_solo s (by omega)]
    · simp only [show (Modo.duo = Modo.solo) = False from by simp, if_false] at h
      rw [startSession_duo s (by omega)]

theorem addPoint_log (s : State) (tableId : Nat) (lado : Lado) :
    (addPoint s tableId lado).1.matchLog = s.matchLog := by
  unfold addPoint
  cases findTable s.tables tableId with
  | none => rfl
  | some table =>
    simp only
    split
    · rfl
    · split <;> rfl

theorem removePlayer_logStep (fecha : String) (ok : Bool) (s : State) (n : Nat) :
    LogStep s (removePlayer fecha ok s n) := by
  unfold removePlayer
  cases ok with
  | false => exact Or.inl rfl
  | true =>
    simp only [Bool.not_true, Bool.false_eq_true, if_false]
    cases hseat : findSeat n s.tables with
    | none => exact Or.inl rfl
    | some r =>
      obtain ⟨i, lado⟩ := r
      obtain ⟨table, hget, -⟩ := findSeat_some hseat
      simp only [hget]
      split
      · exact processForfeit_logStep fecha s table.id lado n
      · exact Or.inl rfl

theorem seqIds_step {log : List Match} (h : ∀ i m, log.get? i = some m → m.id = i + 1)
    (x : Match) (hx : x.id = log.length + 1) :
    ∀ i m, (log ++ [x]).get? i = some m → m.id = i + 1 := by
  intro i m hm
  rw [List.get?_eq_getElem?] at hm
  by_cases hi : i < log.length
  · rw [List.getElem?_append_left hi] at hm
    exact h i m (by rw [List.get?_eq_getElem?]; exact hm)
  · rw [List.getElem?_append_right (by omega)] at hm
    cases hk : i - log.length with
    | zero =>
      rw [hk] at hm
      simp only [List.getElem?_cons_zero, Option.some.injEq] at hm
      rw [← hm, hx]
      omega
    | succ k =>
      rw [hk] at hm
      simp at hm

theorem seqIds_logStep {s s' : State} (hstep : LogStep s s')
    (h : ∀ i m, s.matchLog.get? i = some m → m.id = i + 1) :
    ∀ i m, s'.matchLog.get? i = some m → m.id = i + 1 := by
  rcases hstep with h1 | ⟨x, h1, hx⟩
  · rw [h1]; exact h
  · rw [h1]; exact seqIds_step h x hx

theorem Reachable.seqIds {s : State} (h : Reachable s) :
    ∀ i m, s.matchLog.get? i = some m → m.id = i + 1 := by
  induction h with
  | init => intro i m hm; simp [initialState] at hm
  | addPlayer trim lower nombre _ ih => rw [addPlayer_log]; exact ih
  | removePlayer fecha ok playerId _ ih =>
    exact seqIds_logStep (removePlayer_logStep fecha ok _ playerId) ih
  | toggleMode modo _ ih => rw [toggleMode_log]; exact ih
  | startSession modo _ ih => rw [startSession_log]; exact ih
  | addPoint tableId lado _ ih => rw [addPoint_log]; exact ih
  | processRoundEnd fecha tableId lado _ ih =>
    exact seqIds_logStep (processRoundEnd_logStep fecha _ tableId lado) ih

/-- C13: the match log is append-only with sequential ids.  `addPlayer`, the
mode toggle, `startSession` and `addPoint` leave the log as it is;
`removePlayer` leaves it as it is or appends one record; `processRoundEnd` and
`processForfeit` on an existing table append exactly one record, whose id is
the former length of the log plus 1, and change nothing when the table does
not exist; the records already in the log keep their content and position.
Hence in every reachable state the record at position `i`, counted from 1, has
id `i`. -/
theorem matchLog_append_only (s : State) :
    (∀ (trim lower : String → String) (nombre : String),
      (addPlayer trim lower s nombre).matchLog = s.matchLog) ∧
    (∀ modo : Modo, (toggleMode s modo).matchLog = s.matchLog) ∧
    (∀ modo : Modo, (startSession s modo).matchLog = s.matchLog) ∧
    (∀ (tableId : Nat) (lado : Lado), (addPoint s tableId lado).1.matchLog = s.matchLog) ∧
    (∀ (fecha : String) (ok : Bool) (playerId : Nat),
      LogStep s (removePlayer fecha ok s playerId)) ∧
    (∀ (fecha : String) (tableId : Nat) (lado : Lado),
      (findTable s.tables tableId = none → processRoundEnd fecha s tableId lado = s) ∧
      (∀ table, findTable s.tables tableId = some table →
        ∃ m : Match, (processRoundEnd fecha s tableId lado).matchLog = s.matchLog ++ [m] ∧
          m.id = s.matchLog.length + 1)) ∧
    (∀ (fecha : String) (tableId : Nat) (lado : Lado) (playerId : Nat),
      (findTable s.tables tableId = none → processForfeit fecha s tableId lado playerId = s) ∧
      (∀ table, findTable s.tables tableId = some table →
        ∃ m : Match,
          (processForfeit fecha s tableId lado playerId).matchLog = s.matchLog ++ [m] ∧
          m.id = s.matchLog.length + 1)) ∧
    (Reachable s → ∀ i m, s.matchLog.get? i = some m → m.id = i + 1) :=
  ⟨fun trim lower nombre => addPlayer_log trim lower s nombre, toggleMode_log s,
    startSession_log s, addPoint_log s,
    fun fecha ok playerId => removePlayer_logStep fecha ok s playerId,
    fun fecha tableId lado =>
      ⟨processRoundEnd_none fecha s tableId lado, processRoundEnd_log_found fecha s tableId lado⟩,
    fun fecha tableId lado playerId =>
      ⟨processForfeit_none fecha s tableId lado playerId,
        processForfeit_log_found fecha s tableId lado playerId⟩,
    Reachable.seqIds⟩

/-- Witness of C13: the log after a round completion on the empty tables of
the initial state, which is a reachable state. -/
theorem matchLog_append_only_witness :
    ∀ i m, (processRoundEnd "t" initialState 1 .A).matchLog.get? i = some m → m.id = i + 1 :=
  (matchLog_append_only (processRoundEnd "t" initialState 1 .A)).2.2.2.2.2.2.2
    (Reachable.processRoundEnd "t" 1 .A Reachable.init)

/-! ### Removal from a shared side -/

theorem modifyTableAt_get (f : Table → Table) (i : Nat) (ts : List Table) :
    (modifyTableAt f i ts).get? i = (ts.get? i).map f ∧
    ∀ j, j ≠ i → (modifyTableAt f i ts).get? j = ts.get? j := by
  induction ts generalizing i with
  | nil => cases i <;> exact ⟨rfl, fun _ _ => rfl⟩
  | cons a rest ih =>
    cases i with
    | zero =>
      refine ⟨rfl, ?_⟩
      intro j hj
      cases j with
      | zero => exact absurd rfl hj
      | succ k => rfl
    | succ k =>
      obtain ⟨h1, h2⟩ := ih k
      refine ⟨by simpa [modifyTableAt] using h1, ?_⟩
      intro j hj
      cases j with
      | zero => rfl
      | succ m =>
        have := h2 m (by omega)
        simpa [modifyTableAt] using this

theorem removePlayer_shared_eq (fecha : String) (s : State) (n i : Nat) (lado : Lado)
    (table : Table) (hseat : findSeat n s.tables = some (i, lado))
    (hget : s.tables.get? i = some table) (hother : 2 ≤ (table.side lado).playerIds.length) :
    removePlayer fecha true s n =
      { s with
        tables := modifyTableAt (fun t => t.setPlayerIds lado
          ((table.side lado).playerIds.filter (fun id => !id.isNum n))) i s.tables
        queue := (removeFromQueue n s.queue).1
        players := dropPlayer s.players n } := by
  have hne : ¬ (table.side lado).playerIds.length = 1 := by omega
  unfold removePlayer
  simp only [Bool.not_true, Bool.false_eq_true, if_false, hseat, hget, hne, removeFromAllQueues]

theorem filter_length_of_once {l : List JVal} {n : Nat}
    (hmem : JVal.num n ∈ l) (hle : l.countP (fun v => v.isNum n) ≤ 1) :
    (l.filter (fun v => !v.isNum n)).length + 1 = l.length := by
  have h1 : 0 < l.countP (fun v => v.isNum n) :=
    List.countP_pos_iff.mpr ⟨_, hmem, isNum_eq_true.mpr rfl⟩
  have h2 := List.length_eq_countP_add_countP (fun v => v.isNum n) l
  have h3 : l.countP (fun v => decide ¬ (v.isNum n = true)) =
      (l.filter (fun v => !v.isNum n)).length := by
    rw [List.countP_eq_length_filter]
    congr 1
    apply List.filter_congr
    intro v _
    cases v.isNum n <;> rfl
  omega

theorem emptyUnitRun_reachable : Reachable emptyUnitRun := by
  have h0 : Reachable (toggleMode initialState .duo) := .toggleMode _ .init
  have h1 := Reachable.addPlayer (fun x => x) (fun x => x) "P1" h0
  have h2 := Reachable.addPlayer (fun x => x) (fun x => x) "P2" h1
  have h3 := Reachable.addPlayer (fun x => x) (fun x => x) "P3" h2
  have h4 := Reachable.addPlayer (fun x => x) (fun x => x) "P4" h3
  have h5 := Reachable.addPlayer (fun x => x) (fun x => x) "P5" h4
  have h6 := Reachable.addPlayer (fun x => x) (fun x => x) "P6" h5
  have h7 := Reachable.addPlayer (fun x => x) (fun x => x) "P7" h6
  have h8 := Reachable.addPlayer (fun x => x) (fun x => x) "P8" h7
  have h9 := Reachable.startSession .duo h8
  have h10 := Reachable.removePlayer "t" true 3 h9
  have h11 := Reachable.removePlayer "t" true 4 h10
  have h12 := Reachable.addPlayer (fun x => x) (fun x => x) "P9" h11
  have h13 := Reachable.addPoint 1 .A h12
  have h14 := Reachable.addPoint 1 .A h13
  have h15 := Reachable.addPoint 1 .A h14
  have h16 := Reachable.addPoint 1 .A h15
  exact Reachable.processRoundEnd "t" 1 .A h16

/-- Counterexample to C11 as stated: in the state `emptyUnitRun`, reached by
adding eight players in duo mode, starting the session, removing P3 and P4,
adding P9 and completing a round of table 1 won 4-0 against its empty side B,
P1 and P2 share side A of table 1 and the queue holds one unit, which has no
member.  When P1 is removed, P2 stays and no match is logged, but the queue is
left empty: the unit without members is gone. -/
theorem shared_removal_drops_empty_unit :
    Reachable emptyUnitRun ∧
    emptyUnitRun.queue = [.arr []] ∧
    (findTable emptyUnitRun.tables 1).map (fun t => (t.ladoA.playerIds, t.ladoB.playerIds)) =
      some ([.num 1, .num 2], [.num 9]) ∧
    (findTable (removePlayer "t" true emptyUnitRun 1).tables 1).map
      (fun t => (t.ladoA.playerIds, t.ladoB.playerIds)) = some ([.num 2], [.num 9]) ∧
    (removePlayer "t" true emptyUnitRun 1).matchLog.length = emptyUnitRun.matchLog.length ∧
    (removePlayer "t" true emptyUnitRun 1).queue = [] :=
  ⟨emptyUnitRun_reachable, rfl, rfl, rfl, rfl, rfl⟩

/-- C11, amended: when `removePlayer` finds the player on a side that holds
another occupant, in a state where the player occurs once: that side keeps its
other occupants in their order and loses exactly the player; its score, the
opposite side and the other tables stay as they were; the queue keeps every
unit that has a member, in order and unchanged, and loses the units that have
none, so it stays as it was when each of its units has a member; no match
record is appended; and the roster loses the player's record while every other
record keeps its counters. -/
theorem removePlayer_shared_side (fecha : String) (s : State) (playerId i : Nat) (lado : Lado)
    (table : Table)
    (hseat : findSeat playerId s.tables = some (i, lado))
    (hget : s.tables.get? i = some table)
    (hother : 2 ≤ (table.side lado).playerIds.length)
    (honce : occurrences playerId s ≤ 1) :
    (∃ table',
      (removePlayer fecha true s playerId).tables.get? i = some table' ∧
      (table'.side lado).playerIds =
        (table.side lado).playerIds.filter (fun v => !v.isNum playerId) ∧
      (table'.side lado).playerIds.length + 1 = (table.side lado).playerIds.length ∧
      (table'.side lado).score = (table.side lado).score ∧
      table'.side lado.other = table.side lado.other ∧
      table'.id = table.id ∧ table'.modo = table.modo) ∧
    (∀ j, j ≠ i → (removePlayer fecha true s playerId).tables.get? j = s.tables.get? j) ∧
    (removePlayer fecha true s playerId).queue = dropEmptyUnits s.queue ∧
    ((∀ e ∈ s.queue, e.asArray ≠ []) → (removePlayer fecha true s playerId).queue = s.queue) ∧
    (removePlayer fecha true s playerId).matchLog = s.matchLog ∧
    (removePlayer fecha true s playerId).players =
      s.players.filter (fun p => !(p.id == playerId)) := by
  obtain ⟨t, hget', hmem⟩ := findSeat_some hseat
  rw [hget] at hget'
  injection hget' with hget'
  subst hget'
  obtain ⟨pre, post, e1, -⟩ := modifyTableAt_split hget
  obtain ⟨-, -, -, hq⟩ := elsewhere_of_once honce e1 lado hmem
  have hno : ∀ e ∈ s.queue, JVal.num playerId ∉ e.asArray :=
    fun e he h => hq (List.mem_flatMap.mpr ⟨e, he, h⟩)
  have hside : (table.side lado).playerIds.countP (fun v => v.isNum playerId) ≤ 1 := by
    unfold occurrences at honce
    rw [(slots_split_perm e1 lado).countP_eq, List.countP_append] at honce
    omega
  rw [removePlayer_shared_eq fecha s playerId i lado table hseat hget hother]
  obtain ⟨g1, g2⟩ := modifyTableAt_get (fun t => t.setPlayerIds lado
    ((table.side lado).playerIds.filter (fun id => !id.isNum playerId))) i s.tables
  refine ⟨⟨_, by rw [g1, hget]; rfl, setPlayerIds_side_same _ _ _, ?_, ?_, ?_, ?_, ?_⟩, g2,
    removeFromQueue_dropEmpty playerId s.queue hno, ?_, rfl, rfl⟩
  · rw [setPlayerIds_side_same]
    exact filter_length_of_once hmem hside
  · cases lado <;> rfl
  · cases lado <;> rfl
  · cases lado <;> rfl
  · cases lado <;> rfl
  · intro hunits
    exact (removeFromQueue_dropEmpty playerId s.queue hno).trans
      (dropEmptyUnits_eq_self _ hunits)

/-- Witness of C11: P1 leaves side A of table 1 in the state `emptyUnitRun`,
where P2 stays and the queue holds a unit without members. -/
theorem removePlayer_shared_side_witness :
    (removePlayer "t" true emptyUnitRun 1).queue = dropEmptyUnits emptyUnitRun.queue :=
  (removePlayer_shared_side "t" emptyUnitRun 1 0 .A _ rfl rfl (by decide)
    (countP_isNum_le_one emptyUnitRun_reachable.inv.nodup 1)).2.2.1

/-! ### How a round is decided -/

theorem checkWinner_cases (a b : Nat) :
    (checkWinner a b = 1 ∧ ((a = 4 ∧ b = 0) ∨ (6 ≤ a ∧ 6 ≤ b ∧ b + 2 ≤ a) ∨ (7 ≤ a ∧ b ≤ 5))) ∨
    (checkWinner a b = 2 ∧ ((b = 4 ∧ a = 0) ∨ (6 ≤ a ∧ 6 ≤ b ∧ a + 2 ≤ b) ∨ (7 ≤ b ∧ a ≤ 5))) ∨
    (checkWinner a b = 0 ∧ ¬ (a = 4 ∧ b = 0) ∧ ¬ (b = 4 ∧ a = 0) ∧
      (6 ≤ a ∧ 6 ≤ b → a < b + 2 ∧ b < a + 2) ∧ (¬ (6 ≤ a ∧ 6 ≤ b) → a < 7 ∧ b < 7)) := by
  unfold checkWinner
  split_ifs <;> simp only [true_and, false_and, or_false, false_or, one_ne_zero,
    OfNat.ofNat_ne_zero, OfNat.ofNat_ne_one, OfNat.one_ne_ofNat, Nat.reduceEqDiff,
    OfNat.zero_ne_ofNat, zero_ne_one] <;> omega

theorem undecided_A (a b : Nat)
    (h0 : checkWinner a b = 0) (hA : ¬ (4 ≤ a ∧ b = 0))
    (h1 : checkWinner (a + 1) b = 0) :
    ¬ (4 ≤ a + 1 ∧ b = 0) ∧ ¬ (4 ≤ b ∧ a + 1 = 0) := by
  rcases checkWinner_cases a b with h | h | h <;>
    rcases checkWinner_cases (a + 1) b with k | k | k <;> omega

theorem undecided_B (a b : Nat)
    (h0 : checkWinner a b = 0) (hB : ¬ (4 ≤ b ∧ a = 0))
    (h1 : checkWinner a (b + 1) = 0) :
    ¬ (4 ≤ a ∧ b + 1 = 0) ∧ ¬ (4 ≤ b + 1 ∧ a = 0) := by
  rcases checkWinner_cases a b with h | h | h <;>
    rcases checkWinner_cases a (b + 1) with k | k | k <;> omega

theorem checkWinner_zero {a b : Nat} (h : checkWinner a b = 0) :
    ¬ (a = 4 ∧ b = 0) ∧ ¬ (b = 4 ∧ a = 0) ∧
      (6 ≤ a ∧ 6 ≤ b → a < b + 2 ∧ b < a + 2) ∧ (¬ (6 ≤ a ∧ 6 ≤ b) → a < 7 ∧ b < 7) := by
  rcases checkWinner_cases a b with k | k | k
  · omega
  · omega
  · exact k.2

theorem checkWinner_ne_zero {a b : Nat} (h : checkWinner a b ≠ 0) :
    (checkWinner a b = 1 ∧ ((a = 4 ∧ b = 0) ∨ (6 ≤ a ∧ 6 ≤ b ∧ b + 2 ≤ a) ∨ (7 ≤ a ∧ b ≤ 5))) ∨
    (checkWinner a b = 2 ∧ ((b = 4 ∧ a = 0) ∨ (6 ≤ a ∧ 6 ≤ b ∧ a + 2 ≤ b) ∨ (7 ≤ b ∧ a ≤ 5))) := by
  rcases checkWinner_cases a b with k | k | k
  · exact Or.inl k
  · exact Or.inr k
  · exact absurd k.1 h

theorem decided_A (a b : Nat)
    (h0 : checkWinner a b = 0) (hA : ¬ (4 ≤ a ∧ b = 0))
    (h1 : checkWinner (a + 1) b ≠ 0) :
    checkWinner (a + 1) b = 1 ∧ WinShape (a + 1) b := by
  obtain ⟨z1, z2, z3, z4⟩ := checkWinner_zero h0
  unfold WinShape
  rcases checkWinner_ne_zero h1 with ⟨k1, (k2 | k2 | k2)⟩ | ⟨k1, (k2 | k2 | k2)⟩
  · exact ⟨k1, Or.inl (by omega)⟩
  · exact ⟨k1, Or.inr (Or.inr (by omega))⟩
  · exact ⟨k1, Or.inr (Or.inl (by omega))⟩
  · omega
  · omega
  · omega

theorem decided_B (a b : Nat)
    (h0 : checkWinner a b = 0) (hB : ¬ (4 ≤ b ∧ a = 0))
    (h1 : checkWinner a (b + 1) ≠ 0) :
    checkWinner a (b + 1) = 2 ∧ WinShape (b + 1) a := by
  obtain ⟨z1, z2, z3, z4⟩ := checkWinner_zero h0
  unfold WinShape
  rcases checkWinner_ne_zero h1 with ⟨k1, (k2 | k2 | k2)⟩ | ⟨k1, (k2 | k2 | k2)⟩
  · omega
  · omega
  · omega
  · exact ⟨k1, Or.inl (by omega)⟩
  · exact ⟨k1, Or.inr (Or.inr (by omega))⟩
  · exact ⟨k1, Or.inr (Or.inl (by omega))⟩

theorem winShape_lead {w l : Nat} (h : WinShape w l) : l + 2 ≤ w := by
  unfold WinShape at h
  omega

theorem count_single_A (l : Lado) : [l].count .A = if l = .A then 1 else 0 := by
  cases l <;> rfl

theorem count_single_B (l : Lado) : [l].count .B = if l = .B then 1 else 0 := by
  cases l <;> rfl

theorem decided_run (pre : List Lado) (last : Lado) :
    ∀ a b : Nat, ¬ (4 ≤ a ∧ b = 0) → ¬ (4 ≤ b ∧ a = 0) →
      (∀ k, k ≤ pre.length →
        checkWinner (a + (pre.take k).count .A) (b + (pre.take k).count .B) = 0) →
      checkWinner (a + (pre ++ [last]).count .A) (b + (pre ++ [last]).count .B) ≠ 0 →
      (last = .A →
        checkWinner (a + (pre ++ [last]).count .A) (b + (pre ++ [last]).count .B) = 1 ∧
        WinShape (a + (pre ++ [last]).count .A) (b + (pre ++ [last]).count .B)) ∧
      (last = .B →
        checkWinner (a + (pre ++ [last]).count .A) (b + (pre ++ [last]).count .B) = 2 ∧
        WinShape (b + (pre ++ [last]).count .B) (a + (pre ++ [last]).count .A)) := by
  induction pre with
  | nil =>
    intro a b hA hB hq hd
    have h0 : checkWinner a b = 0 := by simpa using hq 0 (Nat.le_refl 0)
    simp only [List.nil_append] at hd ⊢
    cases last with
    | A =>
      have e1 : [Lado.A].count .A = 1 := rfl
      have e2 : [Lado.A].count .B = 0 := rfl
      rw [e1, e2, Nat.add_zero] at hd ⊢
      exact ⟨fun _ => decided_A a b h0 hA hd, fun h => by cases h⟩
    | B =>
      have e1 : [Lado.B].count .A = 0 := rfl
      have e2 : [Lado.B].count .B = 1 := rfl
      rw [e1, e2, Nat.add_zero] at hd ⊢
      exact ⟨fun h => (by cases h), fun _ => decided_B a b h0 hB hd⟩
  | cons l rest ih =>
    intro a b hA hB hq hd
    have h0 : checkWinner a b = 0 := by simpa using hq 0 (Nat.zero_le _)
    have h1 : checkWinner (a + [l].count .A) (b + [l].count .B) = 0 := by
      have := hq 1 (by simp)
      simpa using this
    have hU : ¬ (4 ≤ a + [l].count .A ∧ b + [l].count .B = 0) ∧
        ¬ (4 ≤ b + [l].count .B ∧ a + [l].count .A = 0) := by
      cases l with
      | A =>
        have e1 : [Lado.A].count .A = 1 := rfl
        have e2 : [Lado.A].count .B = 0 := rfl
        rw [e1, e2, Nat.add_zero] at h1 ⊢
        exact undecided_A a b h0 hA h1
      | B =>
        have e1 : [Lado.B].count .A = 0 := rfl
        have e2 : [Lado.B].count .B = 1 := rfl
        rw [e1, e2, Nat.add_zero] at h1 ⊢
        exact undecided_B a b h0 hB h1
    have hq' : ∀ k, k ≤ rest.length →
        checkWinner (a + [l].count .A + (rest.take k).count .A)
          (b + [l].count .B + (rest.take k).count .B) = 0 := by
      intro k hk
      have := hq (k + 1) (by simpa using hk)
      rw [List.take_succ_cons, count_cons_split l (rest.take k) .A a,
        count_cons_split l (rest.take k) .B b] at this
      exact this
    rw [List.cons_append, count_cons_split l (rest ++ [last]) .A a,
      count_cons_split l (rest ++ [last]) .B b] at hd ⊢
    exact ih _ _ hU.1 hU.2 hq' hd

theorem scorePoint_counts (table : Table) (l : Lado) :
    (scorePoint table l).ladoA.score = table.ladoA.score + [l].count .A ∧
    (scorePoint table l).ladoB.score = table.ladoB.score + [l].count .B := by
  obtain ⟨h1, h2⟩ := scorePoint_scores table l
  cases l
  · exact ⟨h1, h2⟩
  · exact ⟨h2, h1⟩

theorem playPoints_append (tableId : Nat) (xs ys : List Lado) :
    ∀ s : State, playPoints s tableId (xs ++ ys) =
      ((playPoints (playPoints s tableId xs).1 tableId ys).1,
        (playPoints s tableId xs).2 ++ (playPoints (playPoints s tableId xs).1 tableId ys).2) := by
  induction xs with
  | nil => intro s; simp [playPoints]
  | cons x rest ih =>
    intro s
    have h1 : playPoints s tableId (x :: (rest ++ ys)) =
        ((playPoints (addPoint s tableId x).1 tableId (rest ++ ys)).1,
          (addPoint s tableId x).2.toList ++
            (playPoints (addPoint s tableId x).1 tableId (rest ++ ys)).2) := rfl
    have h2 : playPoints s tableId (x :: rest) =
        ((playPoints (addPoint s tableId x).1 tableId rest).1,
          (addPoint s tableId x).2.toList ++
            (playPoints (addPoint s tableId x).1 tableId rest).2) := rfl
    rw [List.cons_append, h1, h2, ih]
    simp only [List.append_assoc]

theorem playPoints_undecided (tableId : Nat) (pre : List Lado) :
    ∀ (s : State) (table : Table), findTable s.tables tableId = some table →
      table.ladoA.playerIds ≠ [] → table.ladoB.playerIds ≠ [] →
      (∀ k, k ≤ pre.length →
        checkWinner (table.ladoA.score + (pre.take k).count .A)
          (table.ladoB.score + (pre.take k).count .B) = 0) →
      (playPoints s tableId pre).2 = [] ∧
      ∃ table', findTable (playPoints s tableId pre).1.tables tableId = some table' ∧
        table'.ladoA.score = table.ladoA.score + pre.count .A ∧
        table'.ladoB.score = table.ladoB.score + pre.count .B ∧
        table'.ladoA.playerIds = table.ladoA.playerIds ∧
        table'.ladoB.playerIds = table.ladoB.playerIds := by
  induction pre with
  | nil =>
    intro s table hfind _ _ _
    exact ⟨rfl, table, hfind, rfl, rfl, rfl, rfl⟩
  | cons l rest ih =>
    intro s table hfind hA hB hq
    have hocc : (table.side l).playerIds ≠ [] := by cases l <;> assumption
    obtain ⟨c1, c2⟩ := scorePoint_counts table l
    obtain ⟨f1, -, f3, f4⟩ := scorePoint_frame table l
    have h1 : checkWinner (scorePoint table l).ladoA.score (scorePoint table l).ladoB.score = 0 := by
      have := hq 1 (by simp)
      rw [c1, c2]
      simpa using this
    have hadd := addPoint_occupied s tableId l table hfind hocc
    simp only [h1, ne_eq, not_true_eq_false, if_false] at hadd
    have hfind' : findTable (addPoint s tableId l).1.tables tableId =
        some (scorePoint table l) := by
      rw [hadd]
      exact findTable_replaceTable hfind (by rw [f1]; exact findTable_id hfind)
    have hq' : ∀ k, k ≤ rest.length →
        checkWinner ((scorePoint table l).ladoA.score + (rest.take k).count .A)
          ((scorePoint table l).ladoB.score + (rest.take k).count .B) = 0 := by
      intro k hk
      have := hq (k + 1) (by simpa using hk)
      rw [List.take_succ_cons, count_cons_split l (rest.take k) .A,
        count_cons_split l (rest.take k) .B] at this
      rw [c1, c2]
      exact this
    obtain ⟨g1, table', g2, g3, g4, g5, g6⟩ := ih (addPoint s tableId l).1 (scorePoint table l)
      hfind' (by rw [f3]; exact hA) (by rw [f4]; exact hB) hq'
    have hcons : playPoints s tableId (l :: rest) =
        ((playPoints (addPoint s tableId l).1 tableId rest).1,
          (addPoint s tableId l).2.toList ++
            (playPoints (addPoint s tableId l).1 tableId rest).2) := rfl
    rw [hcons]
    refine ⟨?_, table', g2, ?_, ?_, g5.trans f3, g6.trans f4⟩
    · rw [g1, hadd]; rfl
    · rw [g3, c1, count_cons_split l rest .A]
    · rw [g4, c2, count_cons_split l rest .B]

/-- C24: on a table with both sides occupied and the score 0-0, let the points
`pre` be played and then the point `last`, with `checkWinner` 0 before each of
them.  If `checkWinner` is not 0 after `last`, then `addPoint` schedules exactly
one round completion, for the side that scored `last`; `checkWinner` names
that side; and the final score, winner first, is 4-0, or 7-k with k from 1 to
5, or (n+2)-n with n at least 6, so the winner leads by at least 2. -/
theorem decided_by_last_point (s : State) (tableId : Nat) (table : Table)
    (pre : List Lado) (last : Lado)
    (hfind : findTable s.tables tableId = some table)
    (hA : table.ladoA.playerIds ≠ []) (hB : table.ladoB.playerIds ≠ [])
    (hA0 : table.ladoA.score = 0) (hB0 : table.ladoB.score = 0)
    (hquiet : ∀ k, k ≤ pre.length →
      checkWinner ((pre.take k).count .A) ((pre.take k).count .B) = 0)
    (hdec : checkWinner ((pre ++ [last]).count .A) ((pre ++ [last]).count .B) ≠ 0) :
    (playPoints s tableId (pre ++ [last])).2 = [(tableId, last)] ∧
    (∃ table', findTable (playPoints s tableId (pre ++ [last])).1.tables tableId = some table' ∧
      table'.ladoA.score = (pre ++ [last]).count .A ∧
      table'.ladoB.score = (pre ++ [last]).count .B) ∧
    (last = .A →
      checkWinner ((pre ++ [last]).count .A) ((pre ++ [last]).count .B) = 1 ∧
      WinShape ((pre ++ [last]).count .A) ((pre ++ [last]).count .B) ∧
      (pre ++ [last]).count .B + 2 ≤ (pre ++ [last]).count .A) ∧
    (last = .B →
      checkWinner ((pre ++ [last]).count .A) ((pre ++ [last]).count .B) = 2 ∧
      WinShape ((pre ++ [last]).count .B) ((pre ++ [last]).count .A) ∧
      (pre ++ [last]).count .A + 2 ≤ (pre ++ [last]).count .B) := by
  have hrun := decided_run pre last 0 0 (by omega) (by omega)
    (by simpa using hquiet) (by simpa using hdec)
  simp only [Nat.zero_add] at hrun
  have hq' : ∀ k, k ≤ pre.length →
      checkWinner (table.ladoA.score + (pre.take k).count .A)
        (table.ladoB.score + (pre.take k).count .B) = 0 := by
    intro k hk
    rw [hA0, hB0, Nat.zero_add, Nat.zero_add]
    exact hquiet k hk
  obtain ⟨g1, t1, g2, g3, g4, g5, g6⟩ := playPoints_undecided tableId pre s table hfind hA hB hq'
  rw [hA0, Nat.zero_add] at g3
  rw [hB0, Nat.zero_add] at g4
  have hocc : (t1.side last).playerIds ≠ [] := by
    cases last
    · show t1.ladoA.playerIds ≠ []
      rw [g5]; exact hA
    · show t1.ladoB.playerIds ≠ []
      rw [g6]; exact hB
  obtain ⟨c1, c2⟩ := scorePoint_counts t1 last
  obtain ⟨f1, -, -, -⟩ := scorePoint_frame t1 last
  rw [g3, ← List.count_append] at c1
  rw [g4, ← List.count_append] at c2
  have hadd := addPoint_occupied (playPoints s tableId pre).1 tableId last t1 g2 hocc
  rw [c1, c2] at hadd
  have hwin : (if checkWinner ((pre ++ [last]).count .A) ((pre ++ [last]).count .B) = 1
      then Lado.A else Lado.B) = last := by
    cases last with
    | A => rw [(hrun.1 rfl).1]; rfl
    | B => rw [(hrun.2 rfl).1]; rfl
  rw [if_pos hdec, hwin] at hadd
  have hlast : playPoints (playPoints s tableId pre).1 tableId [last] =
      ((addPoint (playPoints s tableId pre).1 tableId last).1,
        (addPoint (playPoints s tableId pre).1 tableId last).2.toList ++ []) := rfl
  rw [playPoints_append, hlast, g1, hadd]
  refine ⟨rfl, ⟨scorePoint t1 last, ?_, c1, c2⟩, ?_, ?_⟩
  · exact findTable_replaceTable g2 (by rw [f1]; exact findTable_id g2)
  · intro h
    exact ⟨(hrun.1 h).1, (hrun.1 h).2, winShape_lead (hrun.1 h).2⟩
  · intro h
    exact ⟨(hrun.2 h).1, (hrun.2 h).2, winShape_lead (hrun.2 h).2⟩

/-- Witness of C24: P1 and P2 play to 6-6 and P1 then scores twice. -/
theorem decided_by_last_point_witness :
    (playPoints (soloMid demoPlayers 0 0 none) 1
      ([.A, .B, .A, .B, .A, .B, .A, .B, .A, .B, .A, .B, .A] ++ [.A])).2 = [(1, Lado.A)] :=
  (decided_by_last_point (soloMid demoPlayers 0 0 none) 1 (midTable 0 0 none)
    [.A, .B, .A, .B, .A, .B, .A, .B, .A, .B, .A, .B, .A] .A rfl
    (by simp [midTable]) (by simp [midTable]) rfl rfl (by decide) (by decide)).1

/-! ### Scores of empty sides -/

theorem mem_replaceTable {ts : List Table} {tableId : Nat} {t t' x : Table}
    (hfind : findTable ts tableId = some t) (hx : x ∈ replaceTable tableId t' ts) :
    x = t' ∨ x ∈ ts := by
  obtain ⟨pre, post, e1, e2⟩ := replaceTable_split hfind
  rw [e2] at hx
  rw [e1]
  simp only [List.mem_append, List.mem_cons] at hx ⊢
  tauto

theorem mem_modifyTableAt {ts : List Table} {i : Nat} {t x : Table} {f : Table → Table}
    (hget : ts.get? i = some t) (hx : x ∈ modifyTableAt f i ts) : x = f t ∨ x ∈ ts := by
  obtain ⟨pre, post, e1, e2⟩ := modifyTableAt_split hget
  rw [e2] at hx
  rw [e1]
  simp only [List.mem_append, List.mem_cons] at hx ⊢
  tauto

theorem emptyZero_of_tables {s s' : State} (h : EmptyZero s) (ht : s'.tables = s.tables) :
    EmptyZero s' := by
  unfold EmptyZero
  rw [ht]
  exact h

theorem emptyZero_addPlayer {s : State} (h : EmptyZero s) (trim lower : String → String)
    (nombre : String) : EmptyZero (addPlayer trim lower s nombre) := by
  rcases addPlayer_cases trim lower s nombre with e | e <;> rw [e]
  · exact h
  · exact emptyZero_of_tables h rfl

theorem emptyZero_toggleMode {s : State} (h : EmptyZero s) (modo : Modo) :
    EmptyZero (toggleMode s modo) := by
  unfold PongGou.toggleMode
  split
  · exact h
  · exact emptyZero_of_tables h rfl

theorem emptyZero_startSession {s : State} (h : EmptyZero s) (modo : Modo) :
    EmptyZero (startSession s modo) := by
  by_cases hlen : s.players.length < (if modo = .solo then 4 else 8)
  · rw [startSession_reject s modo hlen]; exact h
  · intro t ht l _
    cases modo with
    | solo =>
      simp only [if_true] at hlen
      rw [startSession_solo s (by omega)] at ht
      simp only [List.mem_cons, List.mem_singleton, List.not_mem_nil, or_false] at ht
      rcases ht with rfl | rfl <;> cases l <;> rfl
    | duo =>
      simp only [show (Modo.duo = Modo.solo) = False from by simp, if_false] at hlen
      rw [startSession_duo s (by omega)] at ht
      simp only [List.mem_cons, List.mem_singleton, List.not_mem_nil, or_false] at ht
      rcases ht with rfl | rfl <;> cases l <;> rfl

theorem emptyZero_processRoundEnd {s : State} (h : EmptyZero s) (fecha : String)
    (tableId : Nat) (g : Lado) : EmptyZero (processRoundEnd fecha s tableId g) := by
  cases hfind : findTable s.tables tableId with
  | none => rw [processRoundEnd_none fecha s tableId g hfind]; exact h
  | some table =>
    intro t ht l hl
    simp only [PongGou.processRoundEnd, hfind] at ht
    rcases mem_replaceTable hfind ht with rfl | hmem
    · exact resetScores_side_score _ l
    · exact h t hmem l hl

theorem emptyZero_processForfeit {s : State} (h : EmptyZero s) (fecha : String)
    (tableId : Nat) (g : Lado) (n : Nat) : EmptyZero (processForfeit fecha s tableId g n) := by
  cases hfind : findTable s.tables tableId with
  | none => rw [processForfeit_none fecha s tableId g n hfind]; exact h
  | some table =>
    intro t ht l hl
    simp only [PongGou.processForfeit, hfind] at ht
    rcases mem_replaceTable hfind ht with rfl | hmem
    · exact resetScores_side_score _ l
    · exact h t hmem l hl

theorem addPoint_empty_side_eq (s : State) (tableId : Nat) (lado : Lado) (table : Table)
    (hfind : findTable s.tables tableId = some table)
    (hempty : (table.side lado).playerIds = []) :
    addPoint s tableId lado = (s, none) := by
  unfold addPoint
  simp [hfind, hempty]

theorem emptyZero_addPoint {s : State} (h : EmptyZero s) (tableId : Nat) (lado : Lado) :
    EmptyZero (addPoint s tableId lado).1 := by
  cases hfind : findTable s.tables tableId with
  | none =>
    have : PongGou.addPoint s tableId lado = (s, none) := by
      simp only [PongGou.addPoint, hfind]
    rw [this]; exact h
  | some table =>
    by_cases hocc : (table.side lado).playerIds = []
    · rw [addPoint_empty_side_eq s tableId lado table hfind hocc]; exact h
    · rw [addPoint_occupied s tableId lado table hfind hocc]
      intro t ht l hl
      rcases mem_replaceTable hfind ht with rfl | hmem
      · obtain ⟨-, -, f3, f4⟩ := scorePoint_frame table lado
        obtain ⟨-, c2⟩ := scorePoint_scores table lado
        have hsame : ∀ l' : Lado,
            ((scorePoint table lado).side l').playerIds = (table.side l').playerIds := by
          intro l'; cases l'
          · exact f3
          · exact f4
        rw [hsame] at hl
        by_cases hll : l = lado
        · subst hll; exact absurd hl hocc
        · have : l = lado.other := by cases l <;> cases lado <;> simp_all [Lado.other]
          subst this
          rw [c2]
          exact h table (findTable_mem hfind) _ hl
      · exact h t hmem l hl

theorem setPlayerIds_other_side (t : Table) (l : Lado) (ids : List JVal) :
    (t.setPlayerIds l ids).side l.other = t.side l.other := by
  cases l <;> rfl

theorem emptyZero_removePlayer {s : State} (h : EmptyZero s) (fecha : String) (ok : Bool)
    (n : Nat) (honce : occurrences n s ≤ 1) : EmptyZero (removePlayer fecha ok s n) := by
  unfold PongGou.removePlayer
  cases ok with
  | false => exact h
  | true =>
    simp only [Bool.not_true, Bool.false_eq_true, if_false]
    cases hseat : findSeat n s.tables with
    | none => exact emptyZero_of_tables h rfl
    | some r =>
      obtain ⟨i, lado⟩ := r
      obtain ⟨table, hget, hmemn⟩ := findSeat_some hseat
      simp only [hget]
      split
      · exact emptyZero_of_tables (emptyZero_processForfeit h fecha table.id lado n) rfl
      · rename_i hlen
        obtain ⟨pre, post, e1, -⟩ := modifyTableAt_split hget
        have hside : (table.side lado).playerIds.countP (fun v => v.isNum n) ≤ 1 := by
          unfold occurrences at honce
          rw [(slots_split_perm e1 lado).countP_eq, List.countP_append] at honce
          omega
        have hfl := filter_length_of_once hmemn hside
        intro t ht l hl
        have ht' : t ∈ modifyTableAt (fun t => t.setPlayerIds lado
            ((table.side lado).playerIds.filter (fun id => !id.isNum n))) i s.tables := ht
        rcases mem_modifyTableAt hget ht' with rfl | hmem
        · by_cases hll : l = lado
          · subst hll
            rw [setPlayerIds_side_same] at hl
            rw [hl] at hfl
            have h1 : (table.side l).playerIds.length = 1 := by simpa using hfl.symm
            exact absurd h1 hlen
          · have : l = lado.other := by cases l <;> cases lado <;> simp_all [Lado.other]
            subst this
            rw [setPlayerIds_other_side] at hl ⊢
            exact h table (List.get?_mem hget) _ hl
        · exact h t hmem l hl

theorem Reachable.emptyZero {s : State} (h : Reachable s) : EmptyZero s := by
  induction h with
  | init => intro t ht l _; simp [initialState] at ht; rcases ht with rfl | rfl <;> cases l <;> rfl
  | addPlayer trim lower nombre _ ih => exact emptyZero_addPlayer ih trim lower nombre
  | removePlayer fecha ok playerId hr ih =>
    exact emptyZero_removePlayer ih fecha ok playerId
      (countP_isNum_le_one hr.inv.nodup playerId)
  | toggleMode modo _ ih => exact emptyZero_toggleMode ih modo
  | startSession modo _ ih => exact emptyZero_startSession ih modo
  | addPoint tableId lado _ ih => exact emptyZero_addPoint ih tableId lado
  | processRoundEnd fecha tableId lado _ ih =>
    exact emptyZero_processRoundEnd ih fecha tableId lado

/-- C22: in every state reached from the empty initial state by `addPlayer`,
`removePlayer`, `startSession`, `addPoint` and `processRoundEnd` (and the mode
toggle), every table side that has no occupants has the score 0. -/
theorem empty_side_has_score_zero (s : State) (h : Reachable s) :
    ∀ t ∈ s.tables, ∀ l : Lado, (t.side l).playerIds = [] → (t.side l).score = 0 :=
  h.emptyZero

/-- Witness of C22: the state after one player was added to the empty state. -/
theorem empty_side_has_score_zero_witness :
    Reachable (addPlayer (fun x => x) (fun x => x) initialState "P1") ∧
    ∀ t ∈ (addPlayer (fun x => x) (fun x => x) initialState "P1").tables, ∀ l : Lado,
      (t.side l).playerIds = [] → (t.side l).score = 0 :=
  ⟨Reachable.addPlayer (fun x => x) (fun x => x) "P1" Reachable.init,
    empty_side_has_score_zero _ (Reachable.addPlayer (fun x => x) (fun x => x) "P1" Reachable.init)⟩

/-! ### Nobody is lost from the rotation -/

theorem processForfeit_perm {s : State} (hs : Inv s) (fecha : String) (tableId : Nat) (l : Lado)
    (n : Nat) (table : Table) (hfind : findTable s.tables tableId = some table) :
    (slots (processForfeit fecha s tableId l n) ++ (table.side l).playerIds).Perm (slots s) := by
  have hmem := findTable_mem hfind
  obtain ⟨pre, post, h1, h2⟩ := replaceTable_split hfind
  simp only [processForfeit, hfind, slots, h2]
  rw [h1]
  apply slots_frame_extra
  have hq : table.modo = .solo → ∀ e ∈ s.queue, e.isArray = false := by
    intro hm
    apply hs.solo
    rw [List.mem_map]
    exact ⟨table, hmem, hm⟩
  have key := refill_flat table.modo s.queue hq
  have p1 := tableSlots_set_perm table l (refill table.modo s.queue).1
  have p2 := tableSlots_perm table l
  rw [← Multiset.coe_eq_coe] at p1 p2 ⊢
  simp only [← Multiset.coe_add] at p1 p2 ⊢
  rw [p1, p2, ← key, ← Multiset.coe_add]
  abel

theorem shared_side_perm (s : State) (n i : Nat) (lado : Lado) (table : Table)
    (hget : s.tables.get? i = some table) :
    (slots { s with tables := modifyTableAt (fun t => t.setPlayerIds lado
        ((table.side lado).playerIds.filter (fun id => !id.isNum n))) i s.tables } ++
      (table.side lado).playerIds.filter (fun id => id.isNum n)).Perm (slots s) := by
  obtain ⟨pre, post, e1, e2⟩ := modifyTableAt_split hget
  simp only [slots, e2]
  rw [e1]
  apply slots_frame_extra
  have p1 := tableSlots_setPlayerIds_perm table lado
    ((table.side lado).playerIds.filter (fun id => !id.isNum n))
  have p2 := tableSlots_perm table lado
  have p3 := List.filter_append_perm (fun id : JVal => id.isNum n) (table.side lado).playerIds
  rw [← Multiset.coe_eq_coe] at p1 p2 p3 ⊢
  simp only [← Multiset.coe_add] at p1 p2 p3 ⊢
  rw [p1, p2, ← p3]
  abel

theorem finishRemove_keeps (s1 : State) (n k : Nat) (hk : k ≠ n)
    (h : JVal.num k ∈ slots s1) :
    JVal.num k ∈ slots { (removeFromAllQueues s1 n).1 with
        players := dropPlayer (removeFromAllQueues s1 n).1.players n } := by
  rw [finishRemove_slots]
  rcases List.mem_append.mp h with h | h
  · exact List.mem_append_left _ h
  · refine List.mem_append_right _ (List.mem_filter.mpr ⟨h, ?_⟩)
    simp only [JVal.isNum, Bool.not_eq_true', beq_eq_false_iff_ne, ne_eq]
    exact hk

theorem removePlayer_keeps {s : State} (hs : Inv s) (fecha : String) (n k : Nat) (hk : k ≠ n)
    (h : JVal.num k ∈ slots s) : JVal.num k ∈ slots (removePlayer fecha true s n) := by
  unfold removePlayer
  simp only [Bool.not_true, Bool.false_eq_true, if_false]
  cases hseat : findSeat n s.tables with
  | none => exact finishRemove_keeps s n k hk h
  | some r =>
    obtain ⟨i, lado⟩ := r
    obtain ⟨table, hget, hmemn⟩ := findSeat_some hseat
    simp only [hget]
    split
    · rename_i hlen
      have hfind := findTable_of_get hs.tids hget
      have hperm := processForfeit_perm hs fecha table.id lado n table hfind
      rw [sole_occupant hlen hmemn] at hperm
      apply finishRemove_keeps _ n k hk
      rcases List.mem_append.mp (hperm.mem_iff.mpr h) with h1 | h1
      · exact h1
      · rw [List.mem_singleton] at h1
        injection h1 with h1
        exact absurd h1 hk
    · have hperm := shared_side_perm s n i lado table hget
      apply finishRemove_keeps _ n k hk
      rcases List.mem_append.mp (hperm.mem_iff.mpr h) with h1 | h1
      · exact h1
      · have := (List.mem_filter.mp h1).2
        rw [isNum_eq_true] at this
        injection this with this
        exact absurd this hk

theorem removePlayer_roster (fecha : String) (s : State) (n : Nat) :
    (removePlayer fecha true s n).players.map (fun p => p.id) =
      (s.players.map (fun p => p.id)).filter (fun k => !(k == n)) := by
  unfold removePlayer
  simp only [Bool.not_true, Bool.false_eq_true, if_false]
  cases hseat : findSeat n s.tables with
  | none => exact dropPlayer_ids s.players n
  | some r =>
    obtain ⟨i, lado⟩ := r
    obtain ⟨table, hget, -⟩ := findSeat_some hseat
    simp only [hget]
    split
    · show (dropPlayer (processForfeit fecha s table.id lado n).players n).map (fun p => p.id) = _
      rw [dropPlayer_ids]
      congr 1
      cases hfind : findTable s.tables table.id with
      | none => rw [processForfeit_none fecha s table.id lado n hfind]
      | some t =>
        simp only [processForfeit, hfind]
        exact updateStats_map_id _ _ _
    · exact dropPlayer_ids s.players n

theorem addPoint_slots (s : State) (tableId : Nat) (lado : Lado) :
    slots (addPoint s tableId lado).1 = slots s ∧
      (addPoint s tableId lado).1.players = s.players := by
  cases hfind : findTable s.tables tableId with
  | none =>
    have : addPoint s tableId lado = (s, none) := by simp only [addPoint, hfind]
    rw [this]; exact ⟨rfl, rfl⟩
  | some table =>
    by_cases hocc : (table.side lado).playerIds = []
    · rw [addPoint_empty_side_eq s tableId lado table hfind hocc]; exact ⟨rfl, rfl⟩
    · rw [addPoint_occupied s tableId lado table hfind hocc]
      obtain ⟨-, -, h3, h4⟩ := scorePoint_frame table lado
      have h5 : tableSlots (scorePoint table lado) = tableSlots table := by
        unfold tableSlots; rw [h3, h4]
      exact ⟨slots_eq_of_map (replaceTable_map _ hfind h5) rfl, rfl⟩

theorem covered_addPlayer {s : State} (h : Covered s) (trim lower : String → String)
    (nombre : String) : Covered (addPlayer trim lower s nombre) := by
  rcases addPlayer_cases trim lower s nombre with e | e <;> rw [e]
  · exact h
  · have hslots : slots { s with
        players := s.players ++ [⟨getNextPlayerId s, trim nombre, 0, 0⟩]
        queue := s.queue ++ [JVal.num (getNextPlayerId s)] } =
        slots s ++ [JVal.num (getNextPlayerId s)] := by
      simp [slots, List.flatMap_append, JVal.asArray]
    intro n hn
    rw [hslots]
    simp only [List.map_append, List.map_cons, List.map_nil, List.mem_append,
      List.mem_singleton] at hn ⊢
    rcases hn with hn | hn
    · exact Or.inl (h n hn)
    · exact Or.inr (by rw [hn])

theorem covered_toggleMode {s : State} (h : Covered s) (modo : Modo) :
    Covered (toggleMode s modo) := by
  unfold PongGou.toggleMode
  split
  · exact h
  · exact h

theorem covered_startSession {s : State} (h : Covered s) (modo : Modo) :
    Covered (startSession s modo) := by
  by_cases hlen : s.players.length < (if modo = .solo then 4 else 8)
  · rw [startSession_reject s modo hlen]; exact h
  · have hslots := startSession_slots s modo hlen
    have hplayers : (PongGou.startSession s modo).players = s.players := by
      cases modo
      · simp only [if_true] at hlen; rw [startSession_solo s (by omega)]
      · simp only [show (Modo.duo = Modo.solo) = False from by simp, if_false] at hlen
        rw [startSession_duo s (by omega)]
    intro n hn
    rw [hslots]
    rw [hplayers] at hn
    obtain ⟨p, hp, rfl⟩ := List.mem_map.mp hn
    exact List.mem_map.mpr ⟨p, hp, rfl⟩

theorem covered_addPoint {s : State} (h : Covered s) (tableId : Nat) (lado : Lado) :
    Covered (addPoint s tableId lado).1 := by
  obtain ⟨h1, h2⟩ := addPoint_slots s tableId lado
  intro n hn
  rw [h1]
  rw [h2] at hn
  exact h n hn

theorem covered_processRoundEnd {s : State} (h : Covered s) (hs : Inv s) (fecha : String)
    (tableId : Nat) (g : Lado) : Covered (processRoundEnd fecha s tableId g) := by
  have hperm := processRoundEnd_slots fecha s tableId g hs.typed hs.solo
  have hplayers : (PongGou.processRoundEnd fecha s tableId g).players.map (fun p => p.id) =
      s.players.map (fun p => p.id) := by
    cases hfind : findTable s.tables tableId with
    | none => rw [processRoundEnd_none fecha s tableId g hfind]
    | some table =>
      simp only [PongGou.processRoundEnd, hfind]
      exact updateStats_map_id _ _ _
  intro n hn
  rw [hplayers] at hn
  exact hperm.mem_iff.mpr (h n hn)

theorem covered_removePlayer {s : State} (h : Covered s) (hs : Inv s) (fecha : String)
    (ok : Bool) (n : Nat) : Covered (removePlayer fecha ok s n) := by
  cases ok with
  | false =>
    have : PongGou.removePlayer fecha false s n = s := by simp [PongGou.removePlayer]
    rw [this]; exact h
  | true =>
    intro k hk
    rw [removePlayer_roster, List.mem_filter] at hk
    have hne : k ≠ n := by simpa using hk.2
    exact removePlayer_keeps hs fecha n k hne (h k hk.1)

theorem Reachable.covered {s : State} (h : Reachable s) : Covered s := by
  induction h with
  | init => intro n hn; simp [initialState] at hn
  | addPlayer trim lower nombre _ ih => exact covered_addPlayer ih trim lower nombre
  | removePlayer fecha ok playerId hr ih => exact covered_removePlayer ih hr.inv fecha ok playerId
  | toggleMode modo _ ih => exact covered_toggleMode ih modo
  | startSession modo _ ih => exact covered_startSession ih modo
  | addPoint tableId lado _ ih => exact covered_addPoint ih tableId lado
  | processRoundEnd fecha tableId lado hr ih =>
    exact covered_processRoundEnd ih hr.inv fecha tableId lado

/-- C25: in every state reached from the empty initial state by `addPlayer`,
`removePlayer`, `startSession`, `addPoint` and `processRoundEnd` (and the mode
toggle), the ids found on table sides and in queue units are exactly the ids
of the roster: every roster player is on a table or in the queue, and every
id on a table or in the queue belongs to a roster player. -/
theorem nobody_lost (s : State) (h : Reachable s) (n : Nat) :
    JVal.num n ∈ slots s ↔ ∃ p ∈ s.players, p.id = n := by
  constructor
  · intro hn
    obtain ⟨p, hp, hpn⟩ := List.mem_map.mp (h.inv.sub n hn)
    exact ⟨p, hp, hpn⟩
  · rintro ⟨p, hp, rfl⟩
    exact h.covered p.id (List.mem_map_of_mem (fun p => p.id) hp)

/-- Witness of C25: the state after one player was added to the empty state. -/
theorem nobody_lost_witness :
    Reachable (addPlayer (fun x => x) (fun x => x) initialState "P1") ∧
    (JVal.num 1 ∈ slots (addPlayer (fun x => x) (fun x => x) initialState "P1") ↔
      ∃ p ∈ (addPlayer (fun x => x) (fun x => x) initialState "P1").players, p.id = 1) :=
  ⟨Reachable.addPlayer (fun x => x) (fun x => x) "P1" Reachable.init,
    nobody_lost _ (Reachable.addPlayer (fun x => x) (fun x => x) "P1" Reachable.init) 1⟩

/-! ### Points played while a round completion is pending -/

/-- Counterexample to C21 as stated: at 6-5 on table 1 a point for side A
decides the round and schedules its completion; a second point for side A
played before that completion runs is counted (8-5) and schedules a second
completion; when the two completions run, two match records are logged, the
first with the score 8-5 and not the 7-5 of the decision. -/
theorem point_during_pending_completion :
    (addPoint (soloMid demoPlayers 6 5 none) 1 .A).2 = some (1, Lado.A) ∧
    (findTable (addPoint (addPoint (soloMid demoPlayers 6 5 none) 1 .A).1 1 .A).1.tables 1).map
      (fun t => (t.ladoA.score, t.ladoB.score)) = some (8, 5) ∧
    (addPoint (addPoint (soloMid demoPlayers 6 5 none) 1 .A).1 1 .A).2 = some (1, Lado.A) ∧
    (fireAll "t" (playPoints (soloMid demoPlayers 6 5 none) 1 [.A, .A]).1
      (playPoints (soloMid demoPlayers 6 5 none) 1 [.A, .A]).2).matchLog.map
      (fun m => (m.id, m.ganadorLado, m.scoreFinalA, m.scoreFinalB)) =
      [(1, Lado.A, 8, 5), (2, Lado.A, 0, 0)] := by
  refine ⟨by decide, by decide, by decide, by decide⟩

/-- C21, amended: `addPoint` hands the round completion to a timer and nothing
blocks scoring while it is pending.  When an `addPoint` on an occupied side
schedules a completion, the call is for that table and for the side named by
`checkWinner` of the new scores, which is not 0.  When that call of
`processRoundEnd` is applied to the state left by the point, before any other
action, the match log grows by exactly one record, which carries the two scores
at the moment of decision and the winning side, and both scores of the table are
back at 0.  Until it is applied, a further `addPoint` for an occupied side of
that table still raises its score by one. -/
theorem completion_applied_at_once (fecha : String) (s : State) (tableId : Nat) (lado : Lado)
    (table : Table) (call : Nat × Lado)
    (hfind : findTable s.tables tableId = some table)
    (hocc : (table.side lado).playerIds ≠ [])
    (hcall : (addPoint s tableId lado).2 = some call) :
    ∃ decided,
      findTable (addPoint s tableId lado).1.tables tableId = some decided ∧
      (decided.side lado).score = (table.side lado).score + 1 ∧
      (decided.side lado.other).score = (table.side lado.other).score ∧
      checkWinner decided.ladoA.score decided.ladoB.score ≠ 0 ∧
      call = (tableId,
        if checkWinner decided.ladoA.score decided.ladoB.score = 1 then Lado.A else Lado.B) ∧
      (∃ m : Match,
        (processRoundEnd fecha (addPoint s tableId lado).1 call.1 call.2).matchLog =
          s.matchLog ++ [m] ∧
        m.tableId = tableId ∧ m.ganadorLado = call.2 ∧
        m.scoreFinalA = decided.ladoA.score ∧ m.scoreFinalB = decided.ladoB.score) ∧
      (∃ next,
        findTable (processRoundEnd fecha (addPoint s tableId lado).1 call.1 call.2).tables
          tableId = some next ∧
        next.ladoA.score = 0 ∧ next.ladoB.score = 0) ∧
      (∀ lado2 : Lado, (decided.side lado2).playerIds ≠ [] →
        ∃ later,
          findTable (addPoint (addPoint s tableId lado).1 tableId lado2).1.tables tableId =
            some later ∧
          (later.side lado2).score = (decided.side lado2).score + 1) := by
  obtain ⟨h1, -, -, -⟩ := scorePoint_frame table lado
  obtain ⟨h5, h6⟩ := scorePoint_scores table lado
  have hid : (scorePoint table lado).id = tableId := by rw [h1]; exact findTable_id hfind
  have hfindT : findTable (replaceTable tableId (scorePoint table lado) s.tables) tableId =
      some (scorePoint table lado) := findTable_replaceTable hfind hid
  rw [addPoint_occupied s tableId lado table hfind hocc] at hcall ⊢
  by_cases hw : checkWinner (scorePoint table lado).ladoA.score
      (scorePoint table lado).ladoB.score ≠ 0
  · rw [if_pos hw] at hcall
    have hcall2 := Option.some.inj hcall
    subst hcall2
    simp only
    refine ⟨scorePoint table lado, hfindT, h5, h6, hw, rfl, ?_, ?_, ?_⟩
    · simp only [processRoundEnd, hfindT]
      exact ⟨_, rfl, rfl, rfl, rfl, rfl⟩
    · simp only [processRoundEnd, hfindT]
      refine ⟨_, findTable_replaceTable hfindT ?_, rfl, rfl⟩
      rw [← hid]
      split_ifs <;> cases lado <;> rfl
    · intro lado2 hocc2
      have h := addPoint_occupied
        { s with tables := replaceTable tableId (scorePoint table lado) s.tables } tableId lado2
        (scorePoint table lado) hfindT hocc2
      rw [h]
      refine ⟨scorePoint (scorePoint table lado) lado2, findTable_replaceTable hfindT ?_,
        (scorePoint_scores _ lado2).1⟩
      rw [(scorePoint_frame (scorePoint table lado) lado2).1]
      exact hid
  · rw [if_neg hw] at hcall
    cases hcall

/-- Witness of C21: the point that takes table 1 from 6-5 to 7-5 and the
completion of that round. -/
theorem completion_applied_at_once_witness :
    (addPoint (soloMid demoPlayers 6 5 none) 1 .A).2 = some (1, Lado.A) ∧
    ∃ decided,
      findTable (addPoint (soloMid demoPlayers 6 5 none) 1 .A).1.tables 1 = some decided ∧
      (decided.side .A).score = 6 + 1 ∧
      (decided.side .B).score = 5 ∧
      checkWinner decided.ladoA.score decided.ladoB.score ≠ 0 ∧
      ((1, Lado.A) : Nat × Lado) = (1,
        if checkWinner decided.ladoA.score decided.ladoB.score = 1 then Lado.A else Lado.B) ∧
      (∃ m : Match,
        (processRoundEnd "t" (addPoint (soloMid demoPlayers 6 5 none) 1 .A).1 1 .A).matchLog =
          [] ++ [m] ∧
        m.tableId = 1 ∧ m.ganadorLado = Lado.A ∧
        m.scoreFinalA = decided.ladoA.score ∧ m.scoreFinalB = decided.ladoB.score) ∧
      (∃ next,
        findTable (processRoundEnd "t" (addPoint (soloMid demoPlayers 6 5 none) 1 .A).1 1 .A).tables
          1 = some next ∧
        next.ladoA.score = 0 ∧ next.ladoB.score = 0) ∧
      (∀ lado2 : Lado, (decided.side lado2).playerIds ≠ [] →
        ∃ later,
          findTable (addPoint (addPoint (soloMid demoPlayers 6 5 none) 1 .A).1 1 lado2).1.tables
            1 = some later ∧
          (later.side lado2).score = (decided.side lado2).score + 1) :=
  ⟨by decide,
    completion_applied_at_once "t" (soloMid demoPlayers 6 5 none) 1 .A (midTable 6 5 none)
      (1, .A) rfl (by simp [Table.side, midTable]) (by decide)⟩

/-! ### Units in the queue -/

/-- C23, the code at the failing input: the state `emptyUnitRun` is reached by
adding eight players in duo mode, starting the session, removing P3 and P4,
adding P9, and playing four points for side A of table 1 against its empty
side B, the round completion running right after the fourth.  Its queue holds
one unit, and that unit has no member; P9 has taken side B of table 1. -/
theorem empty_unit_in_queue :
    Reachable emptyUnitRun ∧
    emptyUnitRun.queue = [.arr []] ∧
    emptyUnitRun.queue.map (fun e => e.asArray.length) = [0] ∧
    (findTable emptyUnitRun.tables 1).map (fun t => (t.ladoA.playerIds, t.ladoB.playerIds)) =
      some ([.num 1, .num 2], [.num 9]) ∧
    emptyUnitRun.players.map (fun p => p.id) = [1, 2, 5, 6, 7, 8, 9] := by
  refine ⟨?_, rfl, rfl, rfl, rfl⟩
  have h0 : Reachable (toggleMode initialState .duo) := .toggleMode _ .init
  have h1 := Reachable.addPlayer (fun x => x) (fun x => x) "P1" h0
  have h2 := Reachable.addPlayer (fun x => x) (fun x => x) "P2" h1
  have h3 := Reachable.addPlayer (fun x => x) (fun x => x) "P3" h2
  have h4 := Reachable.addPlayer (fun x => x) (fun x => x) "P4" h3
  have h5 := Reachable.addPlayer (fun x => x) (fun x => x) "P5" h4
  have h6 := Reachable.addPlayer (fun x => x) (fun x => x) "P6" h5
  have h7 := Reachable.addPlayer (fun x => x) (fun x => x) "P7" h6
  have h8 := Reachable.addPlayer (fun x => x) (fun x => x) "P8" h7
  have h9 := Reachable.startSession .duo h8
  have h10 := Reachable.removePlayer "t" true 3 h9
  have h11 := Reachable.removePlayer "t" true 4 h10
  have h12 := Reachable.addPlayer (fun x => x) (fun x => x) "P9" h11
  have h13 := Reachable.addPoint 1 .A h12
  have h14 := Reachable.addPoint 1 .A h13
  have h15 := Reachable.addPoint 1 .A h14
  have h16 := Reachable.addPoint 1 .A h15
  exact Reachable.processRoundEnd "t" 1 .A h16

end PongGou
